import Mathlib

/-!
# Konami 051649 (SCC1) sound chip: register interface and synthesis

A shallow embedding of `src/burn/snd/k051649.cpp`.

Conventions of the embedding:

* a signed machine integer (`INT8`, `INT16`, `INT32`) is held as the `Int` it
  denotes; a store into a narrower type wraps in two's complement
  (`toInt8`, `toInt16`, `toInt32`);
* the bitwise operators `&` and `|` act on the 32-bit two's complement
  pattern of their operands (`bits32`, read back as a signed value by
  `ofBits32`), `>>` on a signed value is the arithmetic shift, `<<` wraps to
  32 bits;
* the `UINT64` phase counter is a `Nat`;
* an array access outside the array makes the operation return `none`.
-/

namespace K051649

/-! ## Machine integers -/

/-- Conversion to `INT8`: two's complement wrap to the range -128..127. -/
def toInt8 (x : Int) : Int := (x + 128) % 256 - 128

/-- Conversion to `INT16`: two's complement wrap to the range -32768..32767. -/
def toInt16 (x : Int) : Int := (x + 32768) % 65536 - 32768

/-- Conversion to `INT32`: two's complement wrap. -/
def toInt32 (x : Int) : Int := (x + 2147483648) % 4294967296 - 2147483648

/-- Conversion to `UINT8`. -/
def toUInt8 (x : Int) : Int := x % 256

/-- Conversion to `UINT32`. -/
def toUInt32 (x : Int) : Int := x % 4294967296

/-- Conversion to `UINT64`. -/
def toUInt64 (x : Int) : Nat := (x % 18446744073709551616).toNat

/-- The 32-bit two's complement pattern of a signed value. -/
def bits32 (x : Int) : Nat := (x % 4294967296).toNat

/-- The signed value of a 32-bit two's complement pattern. -/
def ofBits32 (n : Nat) : Int :=
  if n < 2147483648 then (n : Int) else (n : Int) - 4294967296

/-- C `a & b` on `INT32` operands. -/
def cand (a b : Int) : Int := ofBits32 (bits32 a &&& bits32 b)

/-- C `a | b` on `INT32` operands. -/
def cor (a b : Int) : Int := ofBits32 (bits32 a ||| bits32 b)

/-- C `a >> k` on a signed operand (arithmetic shift). -/
def sar (a : Int) (k : Nat) : Int := Int.shiftRight a k

/-- C `a << k` on an `INT32` operand, wrapped to 32 bits. -/
def shl (a : Int) (k : Nat) : Int := toInt32 (a * 2 ^ k)

/-- C `a * b` on `INT32` operands, wrapped to 32 bits. -/
def mul32 (a b : Int) : Int := toInt32 (a * b)

/-- C `a + b` on `INT32` operands, wrapped to 32 bits. -/
def add32 (a b : Int) : Int := toInt32 (a + b)

/-! ## Data model -/

/-- The constant `FREQBASEBITS`. -/
def FREQBASEBITS : Nat := 16

/-- The parameters of one channel (`k051649_sound_channel`). -/
structure k051649_sound_channel where
  /-- The field `UINT64 counter`. -/
  counter : Nat
  /-- The field `INT32 frequency`. -/
  frequency : Int
  /-- The field `INT32 volume`. -/
  volume : Int
  /-- The field `INT32 key`. -/
  key : Int
  /-- The field `INT8 waveform[32]`. -/
  waveform : Fin 32 → Int

/-- The chip (`k051649_state`), together with the file-level variable
`nUpdateStep` (a `UINT32`) and the flag `DebugSnd_K051649Initted`. A heap
block is the list of its cells; `mixer_lookup` is the position inside
`mixer_table` the pointer of that name refers to. -/
structure k051649_state where
  channel_list : Fin 5 → k051649_sound_channel
  mclock : Int
  rate : Int
  /-- The field `double gain`, held as the rational number the double denotes. -/
  gain : ℚ
  output_dir : Int
  mixer_table : List Int
  mixer_lookup : Int
  mixer_buffer : List Int
  nUpdateStep : Int
  DebugSnd_K051649Initted : Bool

/-- Names this unit uses and `burnint.h` declares: the route constants, the
host sample rate, the contents of a block handed out by `BurnMalloc`, and the
two single-precision computations of the unit (their results are taken as
given, the embedding does not model `float` arithmetic). -/
structure BurnEnv where
  BURN_SND_ROUTE_LEFT : Int
  BURN_SND_ROUTE_RIGHT : Int
  BURN_SND_ROUTE_BOTH : Int
  nBurnSoundRate : Int
  /-- The cell contents of a freshly allocated block. -/
  heap : Nat → Int
  /-- The value of the phase step expression of `K051649Update`, as a function
  of `mclock`, `frequency`, `rate` and `nUpdateStep`. -/
  step : Int → Int → Int → Int → Int
  /-- The value of the `nUpdateStep` expression of `K051649Init`, as a function
  of `rate` and `nBurnSoundRate`. -/
  updateStep : Int → Int → Int

/-- Modelled from the spec: the macro `BURN_SND_CLIP` of `burnint.h`, which
clips to the valid range of the 16-bit output sample format. -/
def BURN_SND_CLIP (a : Int) : Int :=
  if a < -32768 then -32768 else if a > 32767 then 32767 else a

/-- The position of the leading binary digit of `n` (0 for `n < 2`), found
in at most `fuel` halvings. -/
def leadingBit : Nat → Nat → Nat
  | 0, _ => 0
  | fuel + 1, n => if 2 ≤ n then leadingBit fuel (n / 2) + 1 else 0

/-- The exponent `e` with `2 ^ e ≤ n / d < 2 ^ (e + 1)`, for positive `n`, `d`. -/
def binadeOf (n d : Nat) : Int :=
  let e0 : Int := (leadingBit n n : Int) - (leadingBit d d : Int)
  if d * 2 ^ e0.toNat ≤ n * 2 ^ (-e0).toNat then e0 else e0 - 1

/-- The integer nearest to `n / d`, the even one of two equally near. -/
def roundHalfEven (n d : Nat) : Nat :=
  let f := n / d
  let r := n % d
  if 2 * r < d then f else if d < 2 * r then f + 1 else if f % 2 = 0 then f else f + 1

/-- The integer part of the `double` nearest to `n / d`: the quotient is
rounded to 53 significant bits (to nearest, ties to even) and the fraction of
the rounded value is dropped. -/
def truncDouble (n d : Nat) : Nat :=
  if n = 0 then 0
  else
    let e := binadeOf n d
    let k := roundHalfEven (n * 2 ^ (52 - e).toNat) (d * 2 ^ (e - 52).toNat)
    k * 2 ^ (e - 52).toNat / 2 ^ (52 - e).toNat

/-- The cast `(INT32)(output * gain)`: the `double` product is the exact
product `output * num / den` (for `gain = num / den`) rounded to the nearest
`double`, and the cast drops its fraction; `none` when the result is outside
`INT32`, where the cast is undefined. -/
def scaleByGain (output : Int) (gain : ℚ) : Option Int :=
  let n : Int := output * gain.num
  let t : Int := truncDouble n.natAbs gain.den
  let r : Int := if n < 0 then -t else t
  if -2147483648 ≤ r ∧ r ≤ 2147483647 then some r else none

/-- An index into `channel_list[5]`; `none` outside the array. -/
def chanIdx (i : Int) : Option (Fin 5) :=
  if h : 0 ≤ i ∧ i < 5 then some ⟨i.toNat, by omega⟩ else none

/-- An index into `waveform[32]`; `none` outside the array. -/
def waveIdx (i : Int) : Option (Fin 32) :=
  if h : 0 ≤ i ∧ i < 32 then some ⟨i.toNat, by omega⟩ else none

/-- A read of cell `pos` of a heap block; `none` outside the block. -/
def loadAt (blk : List Int) (pos : Int) : Option Int :=
  if 0 ≤ pos then blk[pos.toNat]? else none

/-- A write of cell `pos` of a heap block; `none` outside the block. -/
def storeAt (blk : List Int) (pos : Int) (x : Int) : Option (List Int) :=
  if 0 ≤ pos ∧ pos < blk.length then some (blk.set pos.toNat x) else none

/-- A block of `n` cells as `BurnMalloc` hands it out. -/
def BurnMalloc (env : BurnEnv) (n : Nat) : List Int :=
  (List.range n).map env.heap

/-- The call `memset(blk, 0, n * sizeof(INT16))`; `none` when the block is shorter. -/
def memsetZero (blk : List Int) (n : Nat) : Option (List Int) :=
  if n ≤ blk.length then some (List.replicate n 0 ++ blk.drop n) else none

/-- The assignment `channel_list[ch].waveform[i] = data`. -/
def storeWave (s : k051649_state) (ch : Fin 5) (i : Fin 32) (data : Int) : k051649_state :=
  let v := s.channel_list ch
  let v2 : k051649_sound_channel :=
    { v with waveform := Function.update v.waveform i (toInt8 data) }
  { s with channel_list := Function.update s.channel_list ch v2 }

/-! ## Mixer table -/

/-- The body of the loop of `make_mixer_table` for index `i`. -/
def mixerFill (voices : Int) (lookup : Int) (tbl : List Int) (i : Nat) : Option (List Int) :=
  let gain : Int := 8
  let val0 : Int := Int.tdiv (mul32 (mul32 i gain) 16) voices
  let val : Int := if val0 > 32767 then 32767 else val0
  match storeAt tbl (lookup + i) (toInt16 val) with
  | none => none
  | some t1 => storeAt t1 (lookup - i) (toInt16 (-val))

/-- The function `make_mixer_table(voices)`. It is unfolded on request only:
the fill loop runs over the whole table. -/
@[irreducible] def make_mixer_table (env : BurnEnv) (s : k051649_state) (voices : Int) :
    Option k051649_state :=
  let count : Int := mul32 voices 256
  let tbl0 := BurnMalloc env (512 * voices).toNat
  let lookup : Int := 256 * voices
  match (List.range count.toNat).foldlM (mixerFill voices lookup) tbl0 with
  | none => none
  | some t => some { s with mixer_table := t, mixer_lookup := lookup }

/-- The read `info->mixer_lookup[i]`. -/
def mixerLookup (s : k051649_state) (i : Int) : Option Int :=
  loadAt s.mixer_table (s.mixer_lookup + i)

/-! ## Synthesis -/

/-- The waveform index `(c >> 16) & 0x1f` of `K051649Update`. -/
def waveOffs (c : Int) : Int := cand (sar c 16) 0x1f

/-- The inner loop of `K051649Update` for one voice: `n` samples are added to
the cells `mix` points at, `c` is the working counter. -/
def addContribution (w : Fin 32 → Int) (v step : Int) :
    Nat → Int → List Int → Option (Int × List Int)
  | 0, c, mix => some (c, mix)
  | _ + 1, _, [] => none
  | n + 1, c, m :: ms =>
    let c1 := add32 c step
    match waveIdx (waveOffs c1) with
    | none => none
    | some k =>
      match addContribution w v step n c1 ms with
      | none => none
      | some r => some (r.1, toInt16 (add32 m (sar (mul32 (w k) v) 3)) :: r.2)

/-- The body of the voice loop of `K051649Update` for one channel. -/
def updateVoice (step : Int) (samples : Nat) (voice : k051649_sound_channel)
    (mix : List Int) : Option (k051649_sound_channel × List Int) :=
  if voice.frequency > 8 then
    let v := mul32 voice.volume voice.key
    let c := ofBits32 (voice.counter % 4294967296)
    match addContribution voice.waveform v (toInt32 step) samples c mix with
    | none => none
    | some r => some ({ voice with counter := toUInt64 r.1 }, r.2)
  else some (voice, mix)

/-- One iteration `j` of the voice loop, on the channel array and the mix buffer. -/
def voiceStep (env : BurnEnv) (s : k051649_state) (samples : Nat)
    (acc : (Fin 5 → k051649_sound_channel) × List Int) (j : Fin 5) :
    Option ((Fin 5 → k051649_sound_channel) × List Int) :=
  let step := env.step s.mclock (acc.1 j).frequency s.rate s.nUpdateStep
  match updateVoice step samples (acc.1 j) acc.2 with
  | none => none
  | some r => some (Function.update acc.1 j r.1, r.2)

/-- The first half of `K051649Update`: the mix buffer is cleared and the five
voices are added to it. The result is the chip with its new counters and mix
buffer. -/
def generate (env : BurnEnv) (s : k051649_state) (samples : Nat) : Option k051649_state :=
  match memsetZero s.mixer_buffer samples with
  | none => none
  | some mix0 =>
    match [0, 1, 2, 3, 4].foldlM (voiceStep env s samples) (s.channel_list, mix0) with
    | none => none
    | some r => some { s with channel_list := r.1, mixer_buffer := r.2 }

/-- The value added to both output slots for the mix-buffer entry `m`. -/
def outputSample (s : k051649_state) (m : Int) : Option Int :=
  match mixerLookup s m with
  | none => none
  | some t =>
    let output := BURN_SND_CLIP t
    match scaleByGain output s.gain with
    | none => none
    | some output => some (BURN_SND_CLIP output)

/-- The body of the "mix it down" loop of `K051649Update` for the mix-buffer
entry `m`: the new contents of the slots `pBuf[0]` and `pBuf[1]`, which held
`p0` and `p1`. -/
def mixFrame (env : BurnEnv) (s : k051649_state) (m p0 p1 : Int) : Option (Int × Int) :=
  match outputSample s m with
  | none => none
  | some output =>
    let nLeftSample : Int :=
      if cand s.output_dir env.BURN_SND_ROUTE_LEFT = env.BURN_SND_ROUTE_LEFT
      then add32 0 output else 0
    let nRightSample : Int :=
      if cand s.output_dir env.BURN_SND_ROUTE_RIGHT = env.BURN_SND_ROUTE_RIGHT
      then add32 0 output else 0
    some (toInt16 (BURN_SND_CLIP (add32 p0 nLeftSample)),
          toInt16 (BURN_SND_CLIP (add32 p1 nRightSample)))

/-- The second half of `K051649Update` ("mix it down"): `n` mix-buffer entries
are routed into the interleaved buffer `pBuf` points at. -/
def mixDown (env : BurnEnv) (s : k051649_state) :
    Nat → List Int → List Int → Option (List Int)
  | 0, _, pBuf => some pBuf
  | n + 1, m :: ms, p0 :: p1 :: rest =>
    match mixFrame env s m p0 p1 with
    | none => none
    | some f =>
      match mixDown env s n ms rest with
      | none => none
      | some out => some (f.1 :: f.2 :: out)
  | _ + 1, _, _ => none

/-- The function `K051649Update(pBuf, samples)`: the chip afterwards and the
new contents of the caller's buffer. -/
def K051649Update (env : BurnEnv) (s : k051649_state) (pBuf : List Int) (samples : Nat) :
    Option (k051649_state × List Int) :=
  match generate env s samples with
  | none => none
  | some s1 =>
    match mixDown env s1 samples s1.mixer_buffer pBuf with
    | none => none
    | some out => some (s1, out)

/-- The `samples` mix-buffer entries a `K051649Update` call computes (the
buffer as the voice loop leaves it), empty when the call overruns it. -/
def mixValues (env : BurnEnv) (s : k051649_state) (samples : Nat) : List Int :=
  match generate env s samples with
  | none => []
  | some s1 => s1.mixer_buffer.take samples

/-! ## Lifecycle -/

/-- The channel `K051649Reset` leaves in every slot. -/
def zeroChannel : k051649_sound_channel :=
  { counter := 0, frequency := 0, volume := 0, key := 0, waveform := fun _ => 0 }

/-- The function `K051649Reset()`. -/
def K051649Reset (s : k051649_state) : k051649_state :=
  let resetVoice (v : k051649_sound_channel) : k051649_sound_channel :=
    { v with frequency := 0, volume := 0, key := 0, counter := 0, waveform := fun _ => 0 }
  { s with channel_list := fun i => resetVoice (s.channel_list i) }

/-- The assignments of `K051649Init(clock)` that precede the construction of
the mixer table: flag, rate, clock, gain, routing, `nUpdateStep` and a zeroed
mix buffer of `2 * rate` cells. -/
def initFields (env : BurnEnv) (s : k051649_state) (clock : Int) : k051649_state :=
  let rate := Int.tdiv clock 16
  { s with DebugSnd_K051649Initted := true, rate := rate, mclock := clock, gain := 1,
           output_dir := env.BURN_SND_ROUTE_BOTH,
           nUpdateStep := toUInt32 (toInt32 (env.updateStep rate env.nBurnSoundRate)),
           mixer_buffer := List.replicate (2 * rate).toNat 0 }

/-- The function `K051649Init(clock)`. -/
def K051649Init (env : BurnEnv) (s : k051649_state) (clock : Int) : Option k051649_state :=
  (make_mixer_table env (initFields env s clock) 5).map K051649Reset

/-- The function `K051649SetRoute(nVolume, nRouteDir)`. -/
def K051649SetRoute (s : k051649_state) (nVolume : ℚ) (nRouteDir : Int) : k051649_state :=
  { s with gain := nVolume, output_dir := nRouteDir }

/-- The function `K051649Exit()`. -/
def K051649Exit (s : k051649_state) : k051649_state :=
  if !s.DebugSnd_K051649Initted then s
  else { s with mixer_buffer := [], mixer_table := [], nUpdateStep := 0, DebugSnd_K051649Initted := false }

/-! ## Register interface -/

/-- The function `K051649WaveformWrite(offset, data)`. -/
def K051649WaveformWrite (s : k051649_state) (offset data : Int) : Option k051649_state :=
  match chanIdx (sar offset 5), waveIdx (cand offset 0x1f) with
  | some ch, some i =>
    let s1 := storeWave s ch i data
    if offset ≥ 0x60 then some (storeWave s1 4 i data) else some s1
  | _, _ => none

/-- The function `K051649WaveformRead(offset)`: the chip afterwards and the
`UINT8` returned. -/
def K051649WaveformRead (s : k051649_state) (offset : Int) : Option (k051649_state × Int) :=
  match chanIdx (sar offset 5), waveIdx (cand offset 0x1f) with
  | some ch, some i => some (s, toUInt8 ((s.channel_list ch).waveform i))
  | _, _ => none

/-- The function `K052539WaveformWrite(offset, data)`. -/
def K052539WaveformWrite (s : k051649_state) (offset data : Int) : Option k051649_state :=
  match chanIdx (sar offset 5), waveIdx (cand offset 0x1f) with
  | some ch, some i => some (storeWave s ch i data)
  | _, _ => none

/-- The function `K051649VolumeWrite(offset, data)`. -/
def K051649VolumeWrite (s : k051649_state) (offset data : Int) : Option k051649_state :=
  match chanIdx (cand offset 0x7) with
  | none => none
  | some ch =>
    let v := s.channel_list ch
    let v2 : k051649_sound_channel := { v with volume := cand data 0xf }
    some { s with channel_list := Function.update s.channel_list ch v2 }

/-- The function `K051649FrequencyWrite(offset, data)`. -/
def K051649FrequencyWrite (s : k051649_state) (offset data : Int) : Option k051649_state :=
  let freq_hi := cand offset 1
  match chanIdx (sar offset 1) with
  | none => none
  | some ch =>
    let v := s.channel_list ch
    let v1 : k051649_sound_channel :=
      if v.frequency < 9 then
        { v with counter := v.counter ||| ((1 <<< FREQBASEBITS) - 1) }
      else v
    let v2 : k051649_sound_channel :=
      if freq_hi ≠ 0 then
        { v1 with frequency := cor (cand v1.frequency 0x0ff) (cand (shl data 8) 0xf00) }
      else
        { v1 with frequency := cor (cand v1.frequency 0xf00) data }
    some { s with channel_list := Function.update s.channel_list ch v2 }

/-- The function `K051649KeyonoffWrite(data)`. -/
def K051649KeyonoffWrite (s : k051649_state) (data : Int) : k051649_state :=
  let setKey (v : k051649_sound_channel) (bit : Int) : k051649_sound_channel :=
    { v with key := if cand data bit ≠ 0 then 1 else 0 }
  let l0 := Function.update s.channel_list 0 (setKey (s.channel_list 0) 1)
  let l1 := Function.update l0 1 (setKey (l0 1) 2)
  let l2 := Function.update l1 2 (setKey (l1 2) 4)
  let l3 := Function.update l2 3 (setKey (l2 3) 8)
  let l4 := Function.update l3 4 (setKey (l3 4) 16)
  { s with channel_list := l4 }

/-! ## Invariants used in the proofs -/

/-- The values an `INT16` cell can hold. -/
def isInt16 (x : Int) : Prop := -32768 ≤ x ∧ x ≤ 32767

instance (x : Int) : Decidable (isInt16 x) := by
  unfold isInt16; infer_instance

/-- The values an `INT32` variable can hold. -/
def isInt32 (x : Int) : Prop := -2147483648 ≤ x ∧ x ≤ 2147483647

instance (x : Int) : Decidable (isInt32 x) := by
  unfold isInt32; infer_instance

/-- What the voice loop keeps true of the channel array and the mix buffer. -/
def VoiceInv (s : k051649_state) (acc : (Fin 5 → k051649_sound_channel) × List Int) : Prop :=
  acc.2.length = s.mixer_buffer.length ∧
  ∀ j, (acc.1 j).frequency = (s.channel_list j).frequency ∧
    (acc.1 j).volume = (s.channel_list j).volume ∧
    (acc.1 j).key = (s.channel_list j).key ∧
    (acc.1 j).waveform = (s.channel_list j).waveform ∧
    ((s.channel_list j).frequency ≤ 8 → acc.1 j = s.channel_list j)

/-- The value `make_mixer_table(5)` leaves in cell `p` of the table, counted
from the start of the block, for the cells it writes. -/
def mixerCell (p : Nat) : Int :=
  if 1280 ≤ p then ((p : Int) - 1280) * 128 / 5 else -((1280 - (p : Int)) * 128 / 5)

/-! ## Sequences of calls -/

/-- A call of the register interface or of the synthesis. -/
inductive ChipCall where
  | waveformWrite (offset data : Int)
  | waveformWriteK052539 (offset data : Int)
  | volumeWrite (offset data : Int)
  | frequencyWrite (offset data : Int)
  | keyonoffWrite (data : Int)
  | update (pBuf : List Int) (samples : Nat)

/-- The chip after one call; `none` when the call leaves an array. -/
def applyCall (env : BurnEnv) (s : k051649_state) : ChipCall → Option k051649_state
  | .waveformWrite offset data => K051649WaveformWrite s offset data
  | .waveformWriteK052539 offset data => K052539WaveformWrite s offset data
  | .volumeWrite offset data => K051649VolumeWrite s offset data
  | .frequencyWrite offset data => K051649FrequencyWrite s offset data
  | .keyonoffWrite data => some (K051649KeyonoffWrite s data)
  | .update pBuf samples => (K051649Update env s pBuf samples).map (fun r => r.1)

/-- The chip after a sequence of calls. -/
def runCalls (env : BurnEnv) (s : k051649_state) (calls : List ChipCall) :
    Option k051649_state :=
  calls.foldlM (applyCall env) s

/-! ## Closed forms of the synthesis -/

/-- The working counter after `k` executions of `c += step`, started at `c`. -/
def workCounter (step : Int) : Nat → Int → Int
  | 0, c => c
  | k + 1, c => workCounter step k (add32 c step)

/-- The waveform sample `w[offs]` read when the working counter is `c`. -/
def sampleAt (w : Fin 32 → Int) (c : Int) : Int :=
  match waveIdx (waveOffs c) with
  | some k => w k
  | none => 0

/-- The phase step of a voice in a synthesis call on the chip `s`. -/
def voiceStepSize (env : BurnEnv) (s : k051649_state) (voice : k051649_sound_channel) : Int :=
  toInt32 (env.step s.mclock voice.frequency s.rate s.nUpdateStep)

/-- The working counter of a voice at the start of a synthesis call. -/
def voiceStart (voice : k051649_sound_channel) : Int :=
  ofBits32 (voice.counter % 4294967296)

/-- The working counter of a voice after `k` samples of a synthesis call. -/
def voiceCounter (env : BurnEnv) (s : k051649_state) (voice : k051649_sound_channel)
    (k : Nat) : Int :=
  workCounter (voiceStepSize env s voice) k (voiceStart voice)

/-- The value `(w[offs] * v) >> 3` a voice adds to sample `i` of a call. -/
def voiceSample (env : BurnEnv) (s : k051649_state) (voice : k051649_sound_channel)
    (i : Nat) : Int :=
  sar (mul32 (sampleAt voice.waveform (voiceCounter env s voice (i + 1)))
    (mul32 voice.volume voice.key)) 3

/-- The mix-buffer cell of sample `i` after a voice has been added to a cell
holding `a`. -/
def addVoice (env : BurnEnv) (s : k051649_state) (i : Nat) (a : Int)
    (voice : k051649_sound_channel) : Int :=
  if voice.frequency > 8 then toInt16 (add32 a (voiceSample env s voice i)) else a

/-- The mix-buffer cell of sample `i` after the voice loop. -/
def mixEntry (env : BurnEnv) (s : k051649_state) (i : Nat) : Int :=
  ([0, 1, 2, 3, 4] : List (Fin 5)).foldl (fun a j => addVoice env s i a (s.channel_list j)) 0

/-- A voice after a synthesis call of `n` samples. -/
def advanceVoice (env : BurnEnv) (s : k051649_state) (n : Nat)
    (voice : k051649_sound_channel) : k051649_sound_channel :=
  if voice.frequency > 8 then { voice with counter := toUInt64 (voiceCounter env s voice n) }
  else voice

/-! ## The claims' own formulas, to compare with the code -/

/-- The term of one channel in the claimed mix value of sample `k`:
`floor(w * volume * key / 8)` for a channel with frequency above 8, where `w`
is the waveform sample at bits 16..20 of the stored counter plus `k + 1` steps,
and 0 for a halted channel. -/
def specVoiceTerm (env : BurnEnv) (s : k051649_state) (voice : k051649_sound_channel)
    (k : Nat) : Int :=
  if voice.frequency > 8 then
    (sampleAt voice.waveform
        ((voice.counter : Int) + ((k : Int) + 1) * voiceStepSize env s voice)
      * voice.volume * voice.key) / 8
  else 0

/-- The claimed mix value of sample `k`: the sum of the channels' terms. -/
def specMixValue (env : BurnEnv) (s : k051649_state) (k : Nat) : Int :=
  (([0, 1, 2, 3, 4] : List (Fin 5)).map
    (fun j => specVoiceTerm env s (s.channel_list j) k)).sum

/-- The register-interface invariant: every volume in 0..15, every key 0 or 1. -/
def RegistersInRange (s : k051649_state) : Prop :=
  ∀ j : Fin 5, (0 ≤ (s.channel_list j).volume ∧ (s.channel_list j).volume ≤ 15) ∧
    ((s.channel_list j).key = 0 ∨ (s.channel_list j).key = 1)

instance (s : k051649_state) : Decidable (RegistersInRange s) := by
  unfold RegistersInRange; infer_instance

/-- The waveform cells hold `INT8` values. -/
def WaveformsInt8 (s : k051649_state) : Prop :=
  ∀ (j : Fin 5) (k : Fin 32),
    -128 ≤ (s.channel_list j).waveform k ∧ (s.channel_list j).waveform k ≤ 127

instance (s : k051649_state) : Decidable (WaveformsInt8 s) := by
  unfold WaveformsInt8; infer_instance

/-! ## Concrete inputs -/

/-- A host environment: left = 1, right = 2, both = 3, 44100 Hz, fresh memory
filled with 7, a phase step of three waveform samples per output sample. -/
def exampleEnv : BurnEnv :=
  { BURN_SND_ROUTE_LEFT := 1, BURN_SND_ROUTE_RIGHT := 2, BURN_SND_ROUTE_BOTH := 3,
    nBurnSoundRate := 44100, heap := fun _ => 7,
    step := fun _ _ _ _ => 196608, updateStep := fun _ _ => 165919 }

/-- A chip whose channel 1 plays a small triangle and whose other channels are
halted; its mixer table has five cells around the middle and its mix buffer
four. -/
def exampleChip : k051649_state :=
  { channel_list := fun i =>
      if i = 1 then
        { counter := 0x12345, frequency := 300, volume := 2, key := 1,
          waveform := fun k => if (k : Nat) % 2 = 0 then 5 else -6 }
      else zeroChannel,
    mclock := 3579545, rate := 223721, gain := 1, output_dir := 1,
    mixer_table := [-50, -25, 0, 25, 50], mixer_lookup := 2,
    mixer_buffer := [9, 9, 9, 9],
    nUpdateStep := 165919, DebugSnd_K051649Initted := true }

/-- The example chip with the stored counter of channel 1 replaced. -/
def chipWithCounter (c : Nat) : k051649_state :=
  { exampleChip with
    channel_list := fun i =>
      if i = 1 then { exampleChip.channel_list 1 with counter := c }
      else exampleChip.channel_list i }

/-- The example chip with the volume field of channel 1 replaced. -/
def chipWithVolume (v : Int) : k051649_state :=
  { exampleChip with
    channel_list := fun i =>
      if i = 1 then { exampleChip.channel_list 1 with volume := v }
      else exampleChip.channel_list i }

/-- A sequence of calls: register writes of every kind, then two samples. -/
def exampleCalls : List ChipCall :=
  [.frequencyWrite 2 0x34, .volumeWrite 1 0xFF, .keyonoffWrite 0x2A,
   .waveformWrite 100 200, .waveformWriteK052539 33 (-7), .frequencyWrite 3 0x1,
   .update [1, 2, 3, 4] 2]

/-- The example chip with the initialisation flag unset. -/
def exampleUninitChip : k051649_state :=
  { exampleChip with DebugSnd_K051649Initted := false }

/-- The chip the example calls leave, started from the reset example chip. -/
def exampleRun : k051649_state :=
  (runCalls exampleEnv (K051649Reset exampleChip) exampleCalls).getD exampleChip

/-- A sequence of calls that sets three channels sounding: frequency writes
for channels 0, 3 and 4, one sample, then waveform, volume and key writes. -/
def exampleVoiceCalls : List ChipCall :=
  [.frequencyWrite 0 0x40, .frequencyWrite 6 0x10, .frequencyWrite 8 0x20,
   .update [1, 2, 3, 4] 1,
   .waveformWrite 6 (-100), .waveformWrite 9 0x7B, .waveformWrite 105 199,
   .volumeWrite 0 0xC, .volumeWrite 3 0x35, .volumeWrite 4 7, .keyonoffWrite 0x19]

/-- The chip those calls leave, started from the reset example chip. -/
def exampleVoiceRun : k051649_state :=
  (runCalls exampleEnv (K051649Reset exampleChip) exampleVoiceCalls).getD exampleChip

/-! ## Machine integer lemmas -/

theorem toInt32_of_small (x : Int) (h0 : -2147483648 ≤ x) (h1 : x < 2147483648) : toInt32 x = x := by
  unfold toInt32; omega

theorem bits32_lt (x : Int) : bits32 x < 4294967296 := by
  unfold bits32; omega

theorem bits32_toInt32 (x : Int) : bits32 (toInt32 x) = bits32 x := by
  unfold bits32 toInt32; omega

theorem bits32_natCast (n : Nat) : bits32 (n : Int) = n % 4294967296 := by
  unfold bits32; omega

theorem ofBits32_of_lt (n : Nat) (h : n < 2147483648) : ofBits32 n = (n : Int) := by
  unfold ofBits32; rw [if_pos h]

theorem bits32_ofBits32 (n : Nat) (h : n < 4294967296) : bits32 (ofBits32 n) = n := by
  unfold ofBits32 bits32
  split <;> omega

theorem bits32_cand (a b : Int) : bits32 (cand a b) = bits32 a &&& bits32 b := by
  unfold cand
  apply bits32_ofBits32
  exact lt_of_le_of_lt Nat.and_le_left (bits32_lt a)

theorem bits32_cor (a b : Int) : bits32 (cor a b) = bits32 a ||| bits32 b := by
  unfold cor
  apply bits32_ofBits32
  exact Nat.or_lt_two_pow (n := 32) (bits32_lt a) (bits32_lt b)

theorem nat_and_f00 (x : Nat) : x &&& 0xf00 = (x / 256 % 16) * 256 := by
  apply Nat.eq_of_testBit_eq
  intro i
  have h1 : (0xf00 : Nat) = (2 ^ 4 - 1) <<< 8 := by decide
  have h2 : (x / 256 % 16) * 256 = ((x >>> 8) % 2 ^ 4) <<< 8 := by
    simp [Nat.shiftLeft_eq, Nat.shiftRight_eq_div_pow]
  rw [h1, h2]
  simp only [Nat.testBit_and, Nat.testBit_shiftLeft, Nat.testBit_two_pow_sub_one,
    Nat.testBit_mod_two_pow, Nat.testBit_shiftRight]
  by_cases h : 8 ≤ i
  · have : 8 + (i - 8) = i := by omega
    simp [h, this, Bool.and_comm]
  · simp [h]

theorem nat_and_ff (x : Nat) : x &&& 0xff = x % 256 :=
  Nat.and_pow_two_sub_one_eq_mod x 8

theorem nat_or_aligned (q r : Nat) (hr : r < 256) : 256 * q ||| r = 256 * q + r :=
  (Nat.mul_add_lt_is_or (i := 8) hr q).symm

theorem sar_eq_div (x : Int) (k : Nat) : sar x k = x / 2 ^ k := by
  unfold sar
  have := Int.shiftRight_eq_div_pow x k
  simpa using this

theorem chanIdx_cast (c : Fin 5) : chanIdx ((c : Nat) : Int) = some c := by
  unfold chanIdx
  have h : 0 ≤ ((c : Nat) : Int) ∧ ((c : Nat) : Int) < 5 := by omega
  rw [dif_pos h]
  simp

/-- A mask of the `k` low bits is the remainder modulo `2 ^ k`. -/
theorem cand_low_mask (x : Int) (k : Nat) (hk : k ≤ 31) :
    cand x (((2 ^ k - 1 : Nat)) : Int) = x % ((2 ^ k : Nat) : Int) := by
  have hpow : 2 ^ k ≤ 2 ^ 31 := Nat.pow_le_pow_right (by decide) hk
  have hpos : 0 < 2 ^ k := Nat.pow_pos (by decide)
  have hm : bits32 (((2 ^ k - 1 : Nat)) : Int) = 2 ^ k - 1 := by
    rw [bits32_natCast]; apply Nat.mod_eq_of_lt; omega
  unfold cand
  rw [hm, Nat.and_pow_two_sub_one_eq_mod]
  have hlt : bits32 x % 2 ^ k < 2 ^ k := Nat.mod_lt _ hpos
  rw [ofBits32_of_lt _ (by omega)]
  unfold bits32
  rw [Int.natCast_mod, Int.toNat_of_nonneg (Int.emod_nonneg _ (by decide))]
  apply Int.emod_emod_of_dvd
  have : (4294967296 : Int) = ((2 ^ 32 : Nat) : Int) := by norm_num
  rw [this]
  exact Int.natCast_dvd_natCast.mpr (Nat.pow_dvd_pow 2 (by omega))

theorem cand_one (x : Int) : cand x 1 = x % 2 := by
  simpa using cand_low_mask x 1 (by decide)

theorem cand_7 (x : Int) : cand x 0x7 = x % 8 := by
  simpa using cand_low_mask x 3 (by decide)

theorem cand_f (x : Int) : cand x 0xf = x % 16 := by
  simpa using cand_low_mask x 4 (by decide)

theorem cand_1f (x : Int) : cand x 0x1f = x % 32 := by
  simpa using cand_low_mask x 5 (by decide)

theorem cand_ff (x : Int) : cand x 0xff = x % 256 := by
  simpa using cand_low_mask x 8 (by decide)

/-- The 12-bit value assembled by a low-byte write followed by a high-nibble write. -/
theorem freq_lo_hi (p f : Nat) (hf : f < 4096) :
    ((p &&& 0xf00 ||| f % 256) &&& 0xff) ||| ((f / 256 * 256) % 4294967296 &&& 0xf00) = f := by
  rw [nat_and_f00, nat_and_f00, nat_and_ff]
  have e1 : p / 256 % 16 * 256 ||| f % 256 = 256 * (p / 256 % 16) + f % 256 := by
    rw [Nat.mul_comm]; exact nat_or_aligned _ _ (by omega)
  rw [e1]
  have e2 : (256 * (p / 256 % 16) + f % 256) % 256 ||| f / 256 * 256 % 4294967296 / 256 % 16 * 256
      = 256 * (f / 256) + f % 256 := by
    rw [Nat.lor_comm]
    have : f / 256 * 256 % 4294967296 / 256 % 16 * 256 = 256 * (f / 256) := by omega
    rw [this]
    have : (256 * (p / 256 % 16) + f % 256) % 256 = f % 256 := by omega
    rw [this]
    exact nat_or_aligned _ _ (by omega)
  rw [e2]; omega

/-- The 12-bit value assembled by a high-nibble write followed by a low-byte write. -/
theorem freq_hi_lo (p f : Nat) (hf : f < 4096) :
    ((p &&& 0xff ||| ((f / 256 * 256) % 4294967296 &&& 0xf00)) &&& 0xf00) ||| f % 256 = f := by
  rw [nat_and_f00, nat_and_f00, nat_and_ff]
  have h1 : f / 256 * 256 % 4294967296 / 256 % 16 * 256 = 256 * (f / 256) := by omega
  rw [h1, Nat.lor_comm (p % 256), nat_or_aligned _ _ (by omega)]
  have h2 : (256 * (f / 256) + p % 256) / 256 % 16 * 256 = 256 * (f / 256) := by omega
  rw [h2, nat_or_aligned _ _ (by omega)]
  omega

/-- The channel after the halt quirk of `K051649FrequencyWrite` has been applied. -/
theorem freqWrite_even (s : k051649_state) (c : Fin 5) (data : Int) :
    ∃ s1, K051649FrequencyWrite s (2 * ((c : Nat) : Int)) data = some s1 ∧
      (s1.channel_list c).frequency = cor (cand (s.channel_list c).frequency 0xf00) data ∧
      (s1.channel_list c).counter =
        (if (s.channel_list c).frequency < 9 then (s.channel_list c).counter ||| 65535
         else (s.channel_list c).counter) := by
  have h1 : sar (2 * ((c : Nat) : Int)) 1 = ((c : Nat) : Int) := by
    rw [sar_eq_div]; omega
  have h2 : cand (2 * ((c : Nat) : Int)) 1 = 0 := by
    rw [cand_one]; omega
  unfold K051649FrequencyWrite
  simp only [h1, h2, chanIdx_cast]
  refine ⟨_, rfl, ?_, ?_⟩
  · simp
    split <;> rfl
  · simp
    split <;> simp [FREQBASEBITS]

theorem freqWrite_odd (s : k051649_state) (c : Fin 5) (data : Int) :
    ∃ s1, K051649FrequencyWrite s (2 * ((c : Nat) : Int) + 1) data = some s1 ∧
      (s1.channel_list c).frequency =
        cor (cand (s.channel_list c).frequency 0x0ff) (cand (shl data 8) 0xf00) ∧
      (s1.channel_list c).counter =
        (if (s.channel_list c).frequency < 9 then (s.channel_list c).counter ||| 65535
         else (s.channel_list c).counter) := by
  have h1 : sar (2 * ((c : Nat) : Int) + 1) 1 = ((c : Nat) : Int) := by
    rw [sar_eq_div]; omega
  have h2 : cand (2 * ((c : Nat) : Int) + 1) 1 = 1 := by
    rw [cand_one]; omega
  unfold K051649FrequencyWrite
  simp only [h1, h2, chanIdx_cast]
  refine ⟨_, rfl, ?_, ?_⟩
  · simp
    split <;> rfl
  · simp
    split <;> simp [FREQBASEBITS]

theorem cor_eq (a b : Int) : cor a b = ofBits32 (bits32 a ||| bits32 b) := rfl

theorem bits32_lit_f00 : bits32 0xf00 = 0xf00 := by unfold bits32; decide

theorem bits32_lit_ff : bits32 0xff = 0xff := by unfold bits32; decide

theorem bits32_high_nibble (n : Nat) :
    bits32 (shl (sar (n : Int) 8) 8) = (n / 256 * 256) % 4294967296 := by
  rw [sar_eq_div, shl, bits32_toInt32, bits32]
  have : ((n : Int) / 2 ^ 8) * 2 ^ 8 = ((n / 256 * 256 : Nat) : Int) := by
    norm_num
  rw [this]; omega

theorem freq_value_lo_hi (f0 : Int) (n : Nat) (hn : n < 4096) :
    cor (cand (cor (cand f0 0xf00) (cand (n : Int) 0xFF)) 0x0ff)
      (cand (shl (sar (n : Int) 8) 8) 0xf00) = (n : Int) := by
  rw [cor_eq]
  simp only [bits32_cand, bits32_cor, bits32_lit_f00, bits32_lit_ff, bits32_high_nibble,
    bits32_natCast]
  have h : n % 4294967296 &&& 0xff = n % 256 := by rw [nat_and_ff]; omega
  rw [h, freq_lo_hi _ _ hn]
  exact ofBits32_of_lt _ (by omega)

theorem freq_value_hi_lo (f0 : Int) (n : Nat) (hn : n < 4096) :
    cor (cand (cor (cand f0 0x0ff) (cand (shl (sar (n : Int) 8) 8) 0xf00)) 0xf00)
      (cand (n : Int) 0xFF) = (n : Int) := by
  rw [cor_eq]
  simp only [bits32_cand, bits32_cor, bits32_lit_f00, bits32_lit_ff, bits32_high_nibble,
    bits32_natCast]
  have h : n % 4294967296 &&& 0xff = n % 256 := by rw [nat_and_ff]; omega
  rw [h, freq_hi_lo _ _ hn]
  exact ofBits32_of_lt _ (by omega)

/-- C1: for every channel `c` of the five, every prior chip state and every
12-bit value `f`, writing the low byte `f & 0xFF` at offset `2c` and the high
nibble `f >> 8` at offset `2c+1`, in either order, succeeds and leaves the
frequency of channel `c` equal to `f`. -/
theorem frequency_write_round_trip (s : k051649_state) (c : Fin 5) (f : Int)
    (hf : 0 ≤ f ∧ f ≤ 4095) :
    ((K051649FrequencyWrite s (2 * ((c : Nat) : Int)) (cand f 0xFF)).bind
        (fun s1 => K051649FrequencyWrite s1 (2 * ((c : Nat) : Int) + 1) (sar f 8))).map
      (fun s2 => (s2.channel_list c).frequency) = some f ∧
    ((K051649FrequencyWrite s (2 * ((c : Nat) : Int) + 1) (sar f 8)).bind
        (fun s1 => K051649FrequencyWrite s1 (2 * ((c : Nat) : Int)) (cand f 0xFF))).map
      (fun s2 => (s2.channel_list c).frequency) = some f := by
  obtain ⟨n, rfl⟩ := Int.eq_ofNat_of_zero_le hf.1
  have hn : n < 4096 := by omega
  constructor
  · obtain ⟨s1, e1, f1, -⟩ := freqWrite_even s c (cand (n : Int) 0xFF)
    obtain ⟨s2, e2, f2, -⟩ := freqWrite_odd s1 c (sar (n : Int) 8)
    rw [e1, Option.some_bind, e2, Option.map_some', f2, f1]
    exact congrArg some (freq_value_lo_hi _ n hn)
  · obtain ⟨s1, e1, f1, -⟩ := freqWrite_odd s c (sar (n : Int) 8)
    obtain ⟨s2, e2, f2, -⟩ := freqWrite_even s1 c (cand (n : Int) 0xFF)
    rw [e1, Option.some_bind, e2, Option.map_some', f2, f1]
    exact congrArg some (freq_value_hi_lo _ n hn)

theorem or_mask_low (n : Nat) : (n ||| 65535) &&& 0xFFFF = 0xFFFF := by
  apply Nat.eq_of_testBit_eq
  intro i
  simp only [Nat.testBit_and, Nat.testBit_or]
  cases Nat.testBit n i <;> cases Nat.testBit 65535 i <;> rfl

theorem or_mask_high (n : Nat) : (n ||| 65535) >>> 16 = n >>> 16 := by
  apply Nat.eq_of_testBit_eq
  intro i
  have h : Nat.testBit 65535 (16 + i) = false := by
    have := Nat.testBit_two_pow_sub_one 16 (16 + i)
    simpa using this
  simp only [Nat.testBit_shiftRight, Nat.testBit_or, h, Bool.or_false]

/-- C2: for every channel `c`, every data value and either byte select
(offset `2c` or `2c+1`), when the frequency of channel `c` is below 9 before
`K051649FrequencyWrite`, the write succeeds and afterwards the low 16 bits of
the channel's counter are all ones while the bits above bit 15 are those of
the counter before the write. -/
theorem frequency_write_halted_counter (s : k051649_state) (c : Fin 5) (offset data : Int)
    (hoff : offset = 2 * ((c : Nat) : Int) ∨ offset = 2 * ((c : Nat) : Int) + 1)
    (hhalt : (s.channel_list c).frequency < 9) :
    ∃ s1, K051649FrequencyWrite s offset data = some s1 ∧
      (s1.channel_list c).counter &&& 0xFFFF = 0xFFFF ∧
      (s1.channel_list c).counter >>> 16 = (s.channel_list c).counter >>> 16 := by
  rcases hoff with rfl | rfl
  · obtain ⟨s1, e1, -, c1⟩ := freqWrite_even s c data
    rw [if_pos hhalt] at c1
    exact ⟨s1, e1, by rw [c1]; exact or_mask_low _, by rw [c1]; exact or_mask_high _⟩
  · obtain ⟨s1, e1, -, c1⟩ := freqWrite_odd s c data
    rw [if_pos hhalt] at c1
    exact ⟨s1, e1, by rw [c1]; exact or_mask_low _, by rw [c1]; exact or_mask_high _⟩

/-- Witness of C1: channel 1 of the example chip, `f = 0x5A3`. -/
theorem frequency_write_round_trip_witness :
    (0 ≤ (0x5A3 : Int) ∧ (0x5A3 : Int) ≤ 4095) ∧
    (((K051649FrequencyWrite exampleChip (2 * (((1 : Fin 5) : Nat) : Int)) (cand 0x5A3 0xFF)).bind
        (fun s1 => K051649FrequencyWrite s1 (2 * (((1 : Fin 5) : Nat) : Int) + 1)
          (sar 0x5A3 8))).map
      (fun s2 => (s2.channel_list 1).frequency) = some 0x5A3 ∧
    ((K051649FrequencyWrite exampleChip (2 * (((1 : Fin 5) : Nat) : Int) + 1) (sar 0x5A3 8)).bind
        (fun s1 => K051649FrequencyWrite s1 (2 * (((1 : Fin 5) : Nat) : Int))
          (cand 0x5A3 0xFF))).map
      (fun s2 => (s2.channel_list 1).frequency) = some 0x5A3) :=
  ⟨by decide, frequency_write_round_trip exampleChip 1 0x5A3 (by decide)⟩

/-- Witness of C2: the halted channel 3 of the example chip, offset 7. -/
theorem frequency_write_halted_counter_witness :
    (exampleChip.channel_list 3).frequency < 9 ∧
    ∃ s1, K051649FrequencyWrite exampleChip 7 0xAB = some s1 ∧
      (s1.channel_list 3).counter &&& 0xFFFF = 0xFFFF ∧
      (s1.channel_list 3).counter >>> 16 = (exampleChip.channel_list 3).counter >>> 16 :=
  ⟨by decide, frequency_write_halted_counter exampleChip 3 7 0xAB (Or.inr (by decide))
    (by decide)⟩

/-! ## Waveform RAM -/

theorem storeWave_waveform (s : k051649_state) (ch : Fin 5) (i : Fin 32) (d : Int)
    (ch2 : Fin 5) (i2 : Fin 32) :
    ((storeWave s ch i d).channel_list ch2).waveform i2 =
      if ch2 = ch ∧ i2 = i then toInt8 d else (s.channel_list ch2).waveform i2 := by
  unfold storeWave
  by_cases hc : ch2 = ch
  · subst hc
    by_cases hi : i2 = i
    · subst hi; simp
    · simp [Function.update_noteq hi, hi]
  · simp [Function.update_noteq hc, hc]

theorem storeWave_registers (s : k051649_state) (ch : Fin 5) (i : Fin 32) (d : Int)
    (ch2 : Fin 5) :
    ((storeWave s ch i d).channel_list ch2).frequency = (s.channel_list ch2).frequency ∧
    ((storeWave s ch i d).channel_list ch2).volume = (s.channel_list ch2).volume ∧
    ((storeWave s ch i d).channel_list ch2).key = (s.channel_list ch2).key ∧
    ((storeWave s ch i d).channel_list ch2).counter = (s.channel_list ch2).counter := by
  unfold storeWave
  by_cases hc : ch2 = ch
  · subst hc; simp
  · simp [Function.update_noteq hc]

/-- For an offset inside the 160 bytes of waveform RAM both indices exist. -/
theorem waveform_indices (offset : Int) (h : 0 ≤ offset ∧ offset ≤ 159) :
    ∃ ch i, chanIdx (sar offset 5) = some ch ∧ waveIdx (cand offset 0x1f) = some i ∧
      chanIdx (offset / 32) = some ch ∧ waveIdx (offset % 32) = some i ∧
      ((ch : Nat) : Int) = offset / 32 ∧ ((i : Nat) : Int) = offset % 32 := by
  have h1 : sar offset 5 = offset / 32 := by rw [sar_eq_div]; norm_num
  have h2 : cand offset 0x1f = offset % 32 := cand_1f offset
  have hc : 0 ≤ offset / 32 ∧ offset / 32 < 5 := by omega
  have hi : 0 ≤ offset % 32 ∧ offset % 32 < 32 := by omega
  rw [h1, h2]
  refine ⟨⟨(offset / 32).toNat, by omega⟩, ⟨(offset % 32).toNat, by omega⟩, ?_, ?_, ?_, ?_, ?_, ?_⟩
  · exact dif_pos hc
  · exact dif_pos hi
  · exact dif_pos hc
  · exact dif_pos hi
  · simp only; omega
  · simp only; omega

/-- C3: on the sharing variant, a write at an offset in 96..159 succeeds and
leaves the written sample (the data truncated to a signed 8-bit value) both in
the addressed channel `offset / 32` and in channel 4, at sample index
`offset mod 32`; a write at an offset in 0..95 succeeds, stores the sample in
channel `offset / 32` and leaves the waveform of channel 4 as it was. -/
theorem waveform_write_mirrors_high_offsets (s : k051649_state) (offset data : Int)
    (hoff : 0 ≤ offset ∧ offset ≤ 159) :
    ∃ s1 ch i, K051649WaveformWrite s offset data = some s1 ∧
      chanIdx (offset / 32) = some ch ∧ waveIdx (offset % 32) = some i ∧
      (s1.channel_list ch).waveform i = toInt8 data ∧
      (if 96 ≤ offset then (s1.channel_list 4).waveform i = toInt8 data
       else (s1.channel_list 4).waveform = (s.channel_list 4).waveform) := by
  obtain ⟨ch, i, e1, e2, e3, e4, hch, -⟩ := waveform_indices offset hoff
  by_cases h96 : 96 ≤ offset
  · refine ⟨storeWave (storeWave s ch i data) 4 i data, ch, i, ?_, e3, e4, ?_, ?_⟩
    · unfold K051649WaveformWrite
      rw [e1, e2]
      simp [h96]
    · rw [storeWave_waveform, storeWave_waveform]
      simp
    · rw [if_pos h96, storeWave_waveform]
      simp
  · refine ⟨storeWave s ch i data, ch, i, ?_, e3, e4, ?_, ?_⟩
    · unfold K051649WaveformWrite
      rw [e1, e2]
      simp [h96]
    · rw [storeWave_waveform]
      simp
    · rw [if_neg h96]
      have hne : (4 : Fin 5) ≠ ch := by
        intro h
        rw [← h] at hch
        have : (((4 : Fin 5) : Nat) : Int) = 4 := rfl
        omega
      funext k
      rw [storeWave_waveform]
      simp [hne]

/-- C4: on the non-sharing variant, a write at an offset in 0..159 succeeds
and sets the waveform cell of channel `offset / 32` at sample index
`offset mod 32` to the data truncated to a signed 8-bit value; every other
waveform cell of every channel keeps its value (all of channel 4 when
`offset < 128`), and so does every frequency, volume, key and counter. -/
theorem K052539_write_changes_one_cell (s : k051649_state) (offset data : Int)
    (hoff : 0 ≤ offset ∧ offset ≤ 159) :
    ∃ s1 ch i, K052539WaveformWrite s offset data = some s1 ∧
      chanIdx (offset / 32) = some ch ∧ waveIdx (offset % 32) = some i ∧
      (∀ ch2 i2, (s1.channel_list ch2).waveform i2 =
        if ch2 = ch ∧ i2 = i then toInt8 data else (s.channel_list ch2).waveform i2) ∧
      (if offset < 128 then (s1.channel_list 4).waveform = (s.channel_list 4).waveform
       else ch = 4) ∧
      (∀ ch2, (s1.channel_list ch2).frequency = (s.channel_list ch2).frequency ∧
        (s1.channel_list ch2).volume = (s.channel_list ch2).volume ∧
        (s1.channel_list ch2).key = (s.channel_list ch2).key ∧
        (s1.channel_list ch2).counter = (s.channel_list ch2).counter) := by
  obtain ⟨ch, i, e1, e2, e3, e4, hch, -⟩ := waveform_indices offset hoff
  refine ⟨storeWave s ch i data, ch, i, ?_, e3, e4, ?_, ?_, ?_⟩
  · unfold K052539WaveformWrite
    rw [e1, e2]
  · intro ch2 i2
    exact storeWave_waveform s ch i data ch2 i2
  · by_cases h : offset < 128
    · rw [if_pos h]
      have hne : (4 : Fin 5) ≠ ch := by
        intro h4
        rw [← h4] at hch
        have : (((4 : Fin 5) : Nat) : Int) = 4 := rfl
        omega
      funext k
      rw [storeWave_waveform]
      simp [hne]
    · rw [if_neg h]
      apply Fin.ext
      have h4 : ((ch : Nat) : Int) = 4 := by omega
      have : ((4 : Fin 5) : Nat) = 4 := rfl
      omega
  · intro ch2
    exact storeWave_registers s ch i data ch2

theorem toUInt8_toInt8 (d : Int) : toUInt8 (toInt8 d) = d % 256 := by
  unfold toUInt8 toInt8; omega

/-- C5: for an offset in 0..159, `K051649WaveformRead(offset)` right after
`K051649WaveformWrite(offset, data)`, and likewise right after
`K052539WaveformWrite(offset, data)`, returns `data mod 256`, and the chip the
read leaves is the chip it was called on. -/
theorem waveform_read_after_write (s : k051649_state) (offset data : Int)
    (hoff : 0 ≤ offset ∧ offset ≤ 159) :
    (∃ s1, K051649WaveformWrite s offset data = some s1 ∧
      K051649WaveformRead s1 offset = some (s1, data % 256)) ∧
    (∃ s1, K052539WaveformWrite s offset data = some s1 ∧
      K051649WaveformRead s1 offset = some (s1, data % 256)) := by
  obtain ⟨ch, i, e1, e2, -, -, -, -⟩ := waveform_indices offset hoff
  constructor
  · by_cases h96 : 96 ≤ offset
    · refine ⟨storeWave (storeWave s ch i data) 4 i data, ?_, ?_⟩
      · unfold K051649WaveformWrite
        rw [e1, e2]
        simp [h96]
      · unfold K051649WaveformRead
        rw [e1, e2]
        simp only [storeWave_waveform]
        simp [toUInt8_toInt8]
    · refine ⟨storeWave s ch i data, ?_, ?_⟩
      · unfold K051649WaveformWrite
        rw [e1, e2]
        simp [h96]
      · unfold K051649WaveformRead
        rw [e1, e2]
        simp only [storeWave_waveform]
        simp [toUInt8_toInt8]
  · refine ⟨storeWave s ch i data, ?_, ?_⟩
    · unfold K052539WaveformWrite
      rw [e1, e2]
    · unfold K051649WaveformRead
      rw [e1, e2]
      simp only [storeWave_waveform]
      simp [toUInt8_toInt8]

/-- Witness of C3: offset 100 (channel 3, sample 4), data 200. -/
theorem waveform_write_mirrors_high_offsets_witness :
    (0 ≤ (100 : Int) ∧ (100 : Int) ≤ 159) ∧
    ∃ s1 ch i, K051649WaveformWrite exampleChip 100 200 = some s1 ∧
      chanIdx ((100 : Int) / 32) = some ch ∧ waveIdx ((100 : Int) % 32) = some i ∧
      (s1.channel_list ch).waveform i = toInt8 200 ∧
      (if 96 ≤ (100 : Int) then (s1.channel_list 4).waveform i = toInt8 200
       else (s1.channel_list 4).waveform = (exampleChip.channel_list 4).waveform) :=
  ⟨by decide, waveform_write_mirrors_high_offsets exampleChip 100 200 (by decide)⟩

/-- Witness of C4: offset 100 (channel 3, sample 4), data 200. -/
theorem K052539_write_changes_one_cell_witness :
    (0 ≤ (100 : Int) ∧ (100 : Int) ≤ 159) ∧
    ∃ s1 ch i, K052539WaveformWrite exampleChip 100 200 = some s1 ∧
      chanIdx ((100 : Int) / 32) = some ch ∧ waveIdx ((100 : Int) % 32) = some i ∧
      (∀ ch2 i2, (s1.channel_list ch2).waveform i2 =
        if ch2 = ch ∧ i2 = i then toInt8 200 else (exampleChip.channel_list ch2).waveform i2) ∧
      (if (100 : Int) < 128 then
        (s1.channel_list 4).waveform = (exampleChip.channel_list 4).waveform
       else ch = 4) ∧
      (∀ ch2, (s1.channel_list ch2).frequency = (exampleChip.channel_list ch2).frequency ∧
        (s1.channel_list ch2).volume = (exampleChip.channel_list ch2).volume ∧
        (s1.channel_list ch2).key = (exampleChip.channel_list ch2).key ∧
        (s1.channel_list ch2).counter = (exampleChip.channel_list ch2).counter) :=
  ⟨by decide, K052539_write_changes_one_cell exampleChip 100 200 (by decide)⟩

/-- Witness of C5: offset 130 (channel 4, sample 2), data -3. -/
theorem waveform_read_after_write_witness :
    (0 ≤ (130 : Int) ∧ (130 : Int) ≤ 159) ∧
    (∃ s1, K051649WaveformWrite exampleChip 130 (-3) = some s1 ∧
      K051649WaveformRead s1 130 = some (s1, (-3 : Int) % 256)) ∧
    (∃ s1, K052539WaveformWrite exampleChip 130 (-3) = some s1 ∧
      K051649WaveformRead s1 130 = some (s1, (-3 : Int) % 256)) :=
  ⟨by decide, waveform_read_after_write exampleChip 130 (-3) (by decide)⟩

/-- The waveform index is the remainder of `c >> 16` modulo 32. -/
theorem waveOffs_eq (c : Int) : waveOffs c = (c / 65536) % 32 := by
  unfold waveOffs
  rw [cand_1f, sar_eq_div]
  norm_num

theorem waveOffs_range (c : Int) : 0 ≤ waveOffs c ∧ waveOffs c ≤ 31 := by
  rw [waveOffs_eq]; omega

theorem waveIdx_of_range (x : Int) (h : 0 ≤ x ∧ x < 32) :
    ∃ k : Fin 32, waveIdx x = some k ∧ ((k : Nat) : Int) = x := by
  refine ⟨⟨x.toNat, by omega⟩, dif_pos h, ?_⟩
  simp only; omega

theorem waveIdx_waveOffs (c : Int) :
    ∃ k : Fin 32, waveIdx (waveOffs c) = some k ∧ ((k : Nat) : Int) = waveOffs c := by
  have h : 0 ≤ waveOffs c ∧ waveOffs c < 32 := by
    have := waveOffs_range c; omega
  exact waveIdx_of_range _ h

theorem addContribution_succ (w : Fin 32 → Int) (v step : Int) (n : Nat) (c m : Int)
    (ms : List Int) (k : Fin 32) (hk : waveIdx (waveOffs (add32 c step)) = some k) :
    addContribution w v step (n + 1) c (m :: ms) =
      (addContribution w v step n (add32 c step) ms).map
        (fun r => (r.1, toInt16 (add32 m (sar (mul32 (w k) v) 3)) :: r.2)) := by
  rw [addContribution]
  simp only [hk]
  cases addContribution w v step n (add32 c step) ms <;> rfl

/-- The inner loop never leaves the waveform or a long enough mix buffer. -/
theorem addContribution_total (w : Fin 32 → Int) (v step : Int) (n : Nat) :
    ∀ (c : Int) (mix : List Int), n ≤ mix.length →
      ∃ r, addContribution w v step n c mix = some r ∧ r.2.length = mix.length := by
  induction n with
  | zero => intro c mix _; exact ⟨(c, mix), by rw [addContribution], rfl⟩
  | succ n ih =>
    intro c mix hlen
    cases mix with
    | nil => simp at hlen
    | cons m ms =>
      obtain ⟨k, hk, -⟩ := waveIdx_waveOffs (add32 c step)
      obtain ⟨r, hr, hl⟩ := ih (add32 c step) ms (by simpa using hlen)
      refine ⟨(r.1, toInt16 (add32 m (sar (mul32 (w k) v) 3)) :: r.2), ?_, ?_⟩
      · rw [addContribution_succ w v step n c m ms k hk, hr]; rfl
      · simp [hl]

/-- The voice loop skips a channel whose frequency is at most 8. -/
theorem updateVoice_halted (step : Int) (n : Nat) (voice : k051649_sound_channel)
    (mix : List Int) (h : voice.frequency ≤ 8) :
    updateVoice step n voice mix = some (voice, mix) := by
  unfold updateVoice
  rw [if_neg (by omega)]

/-- The voice loop body succeeds on a long enough mix buffer and writes only
the counter of its channel. -/
theorem updateVoice_total (step : Int) (n : Nat) (voice : k051649_sound_channel)
    (mix : List Int) (hlen : n ≤ mix.length) :
    ∃ r, updateVoice step n voice mix = some r ∧ r.2.length = mix.length ∧
      r.1.frequency = voice.frequency ∧ r.1.volume = voice.volume ∧
      r.1.key = voice.key ∧ r.1.waveform = voice.waveform := by
  by_cases h : voice.frequency > 8
  · obtain ⟨r, hr, hl⟩ := addContribution_total voice.waveform
      (mul32 voice.volume voice.key) (toInt32 step) n
      (ofBits32 (voice.counter % 4294967296)) mix hlen
    refine ⟨({ voice with counter := toUInt64 r.1 }, r.2), ?_, hl, rfl, rfl, rfl, rfl⟩
    unfold updateVoice
    rw [if_pos h]
    simp only [hr]
  · exact ⟨(voice, mix), updateVoice_halted step n voice mix (by omega), rfl, rfl, rfl, rfl, rfl⟩

theorem voiceStep_inv (env : BurnEnv) (s : k051649_state) (n : Nat)
    (hcap : n ≤ s.mixer_buffer.length)
    (acc : (Fin 5 → k051649_sound_channel) × List Int) (j : Fin 5) (hacc : VoiceInv s acc) :
    ∃ r, voiceStep env s n acc j = some r ∧ VoiceInv s r := by
  obtain ⟨hl, hreg⟩ := hacc
  obtain ⟨r, hr, hrl, hf, hv, hk, hw⟩ := updateVoice_total
    (env.step s.mclock (acc.1 j).frequency s.rate s.nUpdateStep) n (acc.1 j) acc.2
    (by omega)
  refine ⟨(Function.update acc.1 j r.1, r.2), ?_, ?_, ?_⟩
  · unfold voiceStep
    simp only [hr]
  · simp only; omega
  · intro k
    by_cases hkj : k = j
    · subst hkj
      obtain ⟨h1, h2, h3, h4, h5⟩ := hreg k
      simp only [Function.update_same]
      refine ⟨hf.trans h1, hv.trans h2, hk.trans h3, hw.trans h4, ?_⟩
      intro hh
      have := updateVoice_halted
        (env.step s.mclock (acc.1 k).frequency s.rate s.nUpdateStep) n (acc.1 k) acc.2
        (by omega)
      rw [this] at hr
      cases hr
      exact h5 hh
    · simp only [Function.update_noteq hkj]
      exact hreg k

theorem voiceLoop_inv (env : BurnEnv) (s : k051649_state) (n : Nat)
    (hcap : n ≤ s.mixer_buffer.length) (js : List (Fin 5)) :
    ∀ acc, VoiceInv s acc →
      ∃ r, js.foldlM (voiceStep env s n) acc = some r ∧ VoiceInv s r := by
  induction js with
  | nil => intro acc h; exact ⟨acc, rfl, h⟩
  | cons j js ih =>
    intro acc h
    obtain ⟨r1, e1, h1⟩ := voiceStep_inv env s n hcap acc j h
    obtain ⟨r2, e2, h2⟩ := ih r1 h1
    refine ⟨r2, ?_, h2⟩
    rw [List.foldlM_cons, e1]
    exact e2

theorem memsetZero_ok (blk : List Int) (n : Nat) (h : n ≤ blk.length) :
    ∃ m, memsetZero blk n = some m ∧ m.length = blk.length := by
  refine ⟨List.replicate n 0 ++ blk.drop n, ?_, ?_⟩
  · unfold memsetZero; rw [if_pos h]
  · simp; omega

/-- The first half of `K051649Update` succeeds whenever the mix buffer holds
`samples` entries; it keeps every register and every halted channel. -/
theorem generate_total (env : BurnEnv) (s : k051649_state) (n : Nat)
    (hcap : n ≤ s.mixer_buffer.length) :
    ∃ s1, generate env s n = some s1 ∧
      VoiceInv s (s1.channel_list, s1.mixer_buffer) ∧
      s1.mixer_table = s.mixer_table ∧ s1.mixer_lookup = s.mixer_lookup ∧
      s1.gain = s.gain ∧ s1.output_dir = s.output_dir := by
  obtain ⟨m, hm, hml⟩ := memsetZero_ok s.mixer_buffer n hcap
  have h0 : VoiceInv s (s.channel_list, m) :=
    ⟨hml, fun j => ⟨rfl, rfl, rfl, rfl, fun _ => rfl⟩⟩
  obtain ⟨r, hr, hinv⟩ := voiceLoop_inv env s n hcap [0, 1, 2, 3, 4] _ h0
  refine ⟨{ s with channel_list := r.1, mixer_buffer := r.2 }, ?_, hinv, rfl, rfl, rfl, rfl⟩
  unfold generate
  simp only [hm, hr]

/-- One iteration of the voice loop on a chip in which the halted channel `j`
has been replaced by another halted channel. -/
theorem voiceStep_replace_halted (env : BurnEnv) (s : k051649_state) (n : Nat) (j : Fin 5)
    (ch2 : k051649_sound_channel) (h2 : ch2.frequency ≤ 8)
    (chs : Fin 5 → k051649_sound_channel) (mix : List Int) (hj : (chs j).frequency ≤ 8)
    (i : Fin 5) :
    voiceStep env { s with channel_list := Function.update s.channel_list j ch2 } n
        (Function.update chs j ch2, mix) i =
      (voiceStep env s n (chs, mix) i).map (fun r => (Function.update r.1 j ch2, r.2)) ∧
    ∀ r, voiceStep env s n (chs, mix) i = some r → (r.1 j).frequency ≤ 8 := by
  by_cases hij : i = j
  · subst hij
    have e1 := updateVoice_halted (env.step s.mclock ch2.frequency s.rate s.nUpdateStep) n
      ch2 mix h2
    have e2 := updateVoice_halted (env.step s.mclock (chs i).frequency s.rate s.nUpdateStep) n
      (chs i) mix hj
    constructor
    · unfold voiceStep
      simp only [Function.update_same, e1, e2, Option.map_some', Function.update_eq_self,
        Function.update_idem]
    · intro r hr
      unfold voiceStep at hr
      simp only [e2, Function.update_eq_self] at hr
      cases hr
      exact hj
  · constructor
    · unfold voiceStep
      simp only [Function.update_noteq hij]
      cases updateVoice (env.step s.mclock (chs i).frequency s.rate s.nUpdateStep) n
          (chs i) mix with
      | none => rfl
      | some r =>
        simp only [Option.map_some']
        rw [Function.update_comm hij]
    · intro r hr
      unfold voiceStep at hr
      cases hu : updateVoice (env.step s.mclock (chs i).frequency s.rate s.nUpdateStep) n
          (chs i) mix with
      | none => simp only [hu] at hr; cases hr
      | some r1 =>
        simp only [hu] at hr
        cases hr
        simp only [Function.update_noteq (Ne.symm hij)]
        exact hj

theorem voiceLoop_replace_halted (env : BurnEnv) (s : k051649_state) (n : Nat) (j : Fin 5)
    (ch2 : k051649_sound_channel) (h2 : ch2.frequency ≤ 8) (js : List (Fin 5)) :
    ∀ (chs : Fin 5 → k051649_sound_channel) (mix : List Int), (chs j).frequency ≤ 8 →
      js.foldlM (voiceStep env { s with channel_list := Function.update s.channel_list j ch2 } n)
          (Function.update chs j ch2, mix) =
        (js.foldlM (voiceStep env s n) (chs, mix)).map
          (fun r => (Function.update r.1 j ch2, r.2)) := by
  induction js with
  | nil => intro chs mix _; rfl
  | cons i js ih =>
    intro chs mix hj
    obtain ⟨e, hkeep⟩ := voiceStep_replace_halted env s n j ch2 h2 chs mix hj i
    rw [List.foldlM_cons, List.foldlM_cons, e]
    cases hv : voiceStep env s n (chs, mix) i with
    | none => rfl
    | some r =>
      simp only [Option.map_some', Option.some_bind, bind, Option.bind]
      exact ih r.1 r.2 (hkeep r hv)

/-- The mix values of a call do not depend on what a halted channel holds. -/
theorem mixValues_replace_halted (env : BurnEnv) (s : k051649_state) (n : Nat) (j : Fin 5)
    (ch2 : k051649_sound_channel) (h2 : ch2.frequency ≤ 8)
    (hj : (s.channel_list j).frequency ≤ 8) :
    mixValues env { s with channel_list := Function.update s.channel_list j ch2 } n =
      mixValues env s n := by
  unfold mixValues generate
  simp only
  cases memsetZero s.mixer_buffer n with
  | none => rfl
  | some mix0 =>
    simp only
    rw [voiceLoop_replace_halted env s n j ch2 h2 [0, 1, 2, 3, 4] s.channel_list mix0 hj]
    cases List.foldlM (voiceStep env s n) (s.channel_list, mix0) [0, 1, 2, 3, 4] with
    | none => rfl
    | some r => rfl

/-- C6: a channel whose frequency is at most 8 is silent. Its iteration of the
voice loop leaves every entry of the mix buffer, whatever the buffer holds,
and the channel itself as they were (it adds exactly 0 to each of the `n`
entries); the `n` mix values of the call are the same whatever volume, key
and waveform (and counter) the halted channel holds; and the whole synthesis
call, which succeeds when the mix buffer holds `n` entries, leaves the channel
with the phase counter it had. -/
theorem halted_channel_is_silent (env : BurnEnv) (s : k051649_state) (n : Nat) (j : Fin 5)
    (hhalt : (s.channel_list j).frequency ≤ 8) (hcap : n ≤ s.mixer_buffer.length) :
    (∀ acc : (Fin 5 → k051649_sound_channel) × List Int,
      acc.1 j = s.channel_list j → voiceStep env s n acc j = some acc) ∧
    (∀ ch2 : k051649_sound_channel, ch2.frequency ≤ 8 →
      mixValues env { s with channel_list := Function.update s.channel_list j ch2 } n =
        mixValues env s n) ∧
    (∃ s1, generate env s n = some s1 ∧ s1.channel_list j = s.channel_list j ∧
      (s1.channel_list j).counter = (s.channel_list j).counter) ∧
    (∀ pBuf r, K051649Update env s pBuf n = some r →
      (r.1.channel_list j).counter = (s.channel_list j).counter) := by
  obtain ⟨s1, hs1, hinv, -⟩ := generate_total env s n hcap
  have hj : s1.channel_list j = s.channel_list j := (hinv.2 j).2.2.2.2 hhalt
  refine ⟨?_, ?_, ⟨s1, hs1, hj, by rw [hj]⟩, ?_⟩
  · intro acc hacc
    have hu := updateVoice_halted
      (env.step s.mclock (acc.1 j).frequency s.rate s.nUpdateStep) n (acc.1 j) acc.2
      (by rw [hacc]; exact hhalt)
    unfold voiceStep
    simp only [hu, Function.update_eq_self]
  · intro ch2 h2
    exact mixValues_replace_halted env s n j ch2 h2 hhalt
  · intro pBuf r hr
    unfold K051649Update at hr
    rw [hs1] at hr
    simp only at hr
    cases hmd : mixDown env s1 n s1.mixer_buffer pBuf with
    | none => rw [hmd] at hr; cases hr
    | some out =>
      rw [hmd] at hr
      cases hr
      simp only [hj]

/-- C9: whatever the stored 64-bit counter and the step are, the waveform
index `(c >> 16) & 0x1f` computed from any value `c` of the working counter
lies in 0..31 and addresses a cell of the 32-entry waveform, so the inner loop
of `K051649Update` completes for every sample count the mix buffer holds. -/
theorem waveform_index_in_bounds (w : Fin 32 → Int) (v step : Int) (counter : Nat) (n : Nat)
    (mix : List Int) (hlen : n ≤ mix.length) :
    (∀ c : Int, 0 ≤ waveOffs c ∧ waveOffs c ≤ 31 ∧ (waveIdx (waveOffs c)).isSome = true) ∧
    (addContribution w v step n (ofBits32 (counter % 4294967296)) mix).isSome = true := by
  constructor
  · intro c
    obtain ⟨k, hk, -⟩ := waveIdx_waveOffs c
    exact ⟨(waveOffs_range c).1, (waveOffs_range c).2, by rw [hk]; rfl⟩
  · obtain ⟨r, hr, -⟩ := addContribution_total w v step n
      (ofBits32 (counter % 4294967296)) mix hlen
    rw [hr]; rfl

/-- Witness of C6: channel 3 of the example chip, four samples. -/
theorem halted_channel_is_silent_witness :
    ((exampleChip.channel_list 3).frequency ≤ 8 ∧ 4 ≤ exampleChip.mixer_buffer.length) ∧
    ((∀ acc : (Fin 5 → k051649_sound_channel) × List Int,
      acc.1 3 = exampleChip.channel_list 3 → voiceStep exampleEnv exampleChip 4 acc 3 = some acc) ∧
    (∀ ch2 : k051649_sound_channel, ch2.frequency ≤ 8 →
      mixValues exampleEnv
          { exampleChip with channel_list := Function.update exampleChip.channel_list 3 ch2 } 4 =
        mixValues exampleEnv exampleChip 4) ∧
    (∃ s1, generate exampleEnv exampleChip 4 = some s1 ∧
      s1.channel_list 3 = exampleChip.channel_list 3 ∧
      (s1.channel_list 3).counter = (exampleChip.channel_list 3).counter) ∧
    (∀ pBuf r, K051649Update exampleEnv exampleChip pBuf 4 = some r →
      (r.1.channel_list 3).counter = (exampleChip.channel_list 3).counter)) :=
  ⟨⟨by decide, by decide⟩,
    halted_channel_is_silent exampleEnv exampleChip 4 3 (by decide) (by decide)⟩

/-- Witness of C9: a stored counter whose 32-bit truncation is negative. -/
theorem waveform_index_in_bounds_witness :
    2 ≤ [5, 6, 7].length ∧
    ((∀ c : Int, 0 ≤ waveOffs c ∧ waveOffs c ≤ 31 ∧ (waveIdx (waveOffs c)).isSome = true) ∧
    (addContribution (fun _ => -128) 15 196608 2
      (ofBits32 (0xFFFFFFFF80000000 % 4294967296)) [5, 6, 7]).isSome = true) :=
  ⟨by decide, waveform_index_in_bounds (fun _ => -128) 15 196608 0xFFFFFFFF80000000 2
    [5, 6, 7] (by decide)⟩

/-! ## The mixer table -/

theorem storeAt_ok (blk : List Int) (pos : Int) (x : Int)
    (h : 0 ≤ pos ∧ pos < blk.length) : storeAt blk pos x = some (blk.set pos.toNat x) := by
  unfold storeAt; rw [if_pos h]

/-- One iteration of the fill loop of the five-voice table. -/
theorem mixerFill_five (tbl : List Int) (i : Nat) (hi : i < 1280) (hl : tbl.length = 2560) :
    mixerFill 5 1280 tbl i =
      some ((tbl.set (1280 + i) ((i : Int) * 128 / 5)).set (1280 - i)
        (-((i : Int) * 128 / 5))) := by
  have h1 : mul32 (mul32 (i : Int) 8) 16 = (i : Int) * 128 := by
    unfold mul32 toInt32; omega
  have h2 : Int.tdiv ((i : Int) * 128) 5 = (i : Int) * 128 / 5 :=
    Int.tdiv_eq_ediv (by omega) (by omega)
  have h3 : ¬ ((i : Int) * 128 / 5 > 32767) := by omega
  have h4 : toInt16 ((i : Int) * 128 / 5) = (i : Int) * 128 / 5 := by
    unfold toInt16; omega
  have h5 : toInt16 (-((i : Int) * 128 / 5)) = -((i : Int) * 128 / 5) := by
    unfold toInt16; omega
  unfold mixerFill
  simp only [h1, h2, if_neg h3, h4, h5]
  rw [storeAt_ok tbl _ _ (by omega)]
  simp only
  rw [storeAt_ok _ _ _ (by rw [List.length_set]; omega)]
  have e1 : ((1280 : Int) + (i : Int)).toNat = 1280 + i := by omega
  have e2 : ((1280 : Int) - (i : Int)).toNat = 1280 - i := by omega
  rw [e1, e2]

/-- The table after the first `k` iterations of the fill loop. -/
theorem mixerFill_loop (env : BurnEnv) (k : Nat) (hk : k ≤ 1280) :
    ∃ t, (List.range k).foldlM (mixerFill 5 1280) (BurnMalloc env 2560) = some t ∧
      t.length = 2560 ∧
      ∀ p, p < 2560 →
        t[p]? = some (if 1280 < p + k ∧ p < 1280 + k then mixerCell p else env.heap p) := by
  induction k with
  | zero =>
    refine ⟨BurnMalloc env 2560, rfl, by simp [BurnMalloc], ?_⟩
    intro p hp
    have : ¬ (1280 < p + 0 ∧ p < 1280 + 0) := by omega
    rw [if_neg this]
    simp [BurnMalloc, List.getElem?_range hp]
  | succ k ih =>
    obtain ⟨t, ht, hl, hcell⟩ := ih (by omega)
    refine ⟨(t.set (1280 + k) ((k : Int) * 128 / 5)).set (1280 - k)
        (-((k : Int) * 128 / 5)), ?_, ?_, ?_⟩
    · rw [List.range_succ, List.foldlM_append, ht]
      simp only [List.foldlM_cons, List.foldlM_nil, Option.some_bind, bind_pure]
      simp only [bind, Option.some_bind]
      exact mixerFill_five t k (by omega) hl
    · simp [hl]
    · intro p hp
      rw [List.getElem?_set, List.getElem?_set]
      simp only [List.length_set, hl]
      by_cases h1 : 1280 - k = p
      · have hlt : 1280 - k < 2560 := by omega
        have hw : 1280 < p + (k + 1) ∧ p < 1280 + (k + 1) := by omega
        rw [if_pos h1, if_pos hlt, if_pos hw]
        unfold mixerCell
        by_cases hp0 : 1280 ≤ p
        · have hk0 : k = 0 := by omega
          subst hk0
          rw [if_pos hp0]
          have : p = 1280 := by omega
          subst this
          norm_num
        · rw [if_neg hp0]
          have : (1280 : Int) - (p : Int) = (k : Int) := by omega
          rw [this]
      · rw [if_neg h1]
        by_cases h2 : 1280 + k = p
        · have hlt : 1280 + k < 2560 := by omega
          have hw : 1280 < p + (k + 1) ∧ p < 1280 + (k + 1) := by omega
          rw [if_pos h2, if_pos hlt, if_pos hw]
          unfold mixerCell
          have hp0 : 1280 ≤ p := by omega
          rw [if_pos hp0]
          have : (p : Int) - 1280 = (k : Int) := by omega
          rw [this]
        · rw [if_neg h2, hcell p hp]
          by_cases hw : 1280 < p + k ∧ p < 1280 + k
          · have hw2 : 1280 < p + (k + 1) ∧ p < 1280 + (k + 1) := by omega
            rw [if_pos hw, if_pos hw2]
          · have hw2 : ¬ (1280 < p + (k + 1) ∧ p < 1280 + (k + 1)) := by omega
            rw [if_neg hw, if_neg hw2]

theorem make_mixer_table_of_fold (env : BurnEnv) (s : k051649_state) (voices lookup : Int)
    (n m : Nat) (t : List Int) (hn : (mul32 voices 256).toNat = n)
    (hm : (512 * voices).toNat = m) (hlk : 256 * voices = lookup)
    (hf : (List.range n).foldlM (mixerFill voices lookup) (BurnMalloc env m) = some t) :
    make_mixer_table env s voices =
      some { s with mixer_table := t, mixer_lookup := lookup } := by
  subst hn hm hlk
  unfold make_mixer_table
  simp only [hf]

/-- The five-voice table: 2560 cells, the lookup pointer at cell 1280, every
cell but the first written by the fill loop. -/
theorem make_mixer_table_five (env : BurnEnv) (s : k051649_state) :
    ∃ t, make_mixer_table env s 5 = some { s with mixer_table := t, mixer_lookup := 1280 } ∧
      t.length = 2560 ∧
      ∀ p, p < 2560 → t[p]? = some (if 0 < p then mixerCell p else env.heap p) := by
  obtain ⟨t, ht, hl, hcell⟩ := mixerFill_loop env 1280 (le_refl _)
  refine ⟨t, ?_, hl, ?_⟩
  · exact make_mixer_table_of_fold env s 5 1280 1280 2560 t (by decide) (by decide)
      (by decide) ht
  · intro p hp
    rw [hcell p hp]
    by_cases h0 : 0 < p
    · rw [if_pos h0, if_pos (by omega)]
    · rw [if_neg h0, if_neg (by omega)]

/-- A lookup in the five-voice table at an index the fill loop has written. -/
theorem mixerLookup_written (s : k051649_state) (h0 : Int) (i : Int)
    (hlk : s.mixer_lookup = 1280)
    (hcell : ∀ p, p < 2560 → s.mixer_table[p]? = some (if 0 < p then mixerCell p else h0))
    (hi : -1279 ≤ i ∧ i ≤ 1279) :
    mixerLookup s i = some (if 0 ≤ i then i * 128 / 5 else -(-i * 128 / 5)) := by
  unfold mixerLookup loadAt
  rw [hlk, if_pos (by omega), hcell _ (by omega), if_pos (by omega)]
  unfold mixerCell
  by_cases hnn : 0 ≤ i
  · rw [if_pos hnn, if_pos (by omega)]
    have : (((1280 + i).toNat : Nat) : Int) - 1280 = i := by omega
    rw [this]
  · rw [if_neg hnn, if_neg (by omega)]
    have : 1280 - (((1280 + i).toNat : Nat) : Int) = -i := by omega
    rw [this]

/-- C8, as the code has it: in the table built by `make_mixer_table(5)`, for
every index `i` in -1279..1279 (the cells the fill loop writes) the entry at
`-i` is the negation of the entry at `i`, and no such entry exceeds 32767 in
absolute value. -/
theorem mixer_table_symmetric (env : BurnEnv) (s : k051649_state) (i : Int)
    (hi : -1279 ≤ i ∧ i ≤ 1279) :
    ∃ s1 a, make_mixer_table env s 5 = some s1 ∧
      mixerLookup s1 i = some a ∧ mixerLookup s1 (-i) = some (-a) ∧
      -32767 ≤ a ∧ a ≤ 32767 := by
  obtain ⟨t, ht, hl, hcell⟩ := make_mixer_table_five env s
  have hcell2 : ∀ p, p < 2560 →
      t[p]? = some (if 0 < p then mixerCell p else env.heap 0) := by
    intro p hp
    rw [hcell p hp]
    by_cases h0 : 0 < p
    · rw [if_pos h0, if_pos h0]
    · have : p = 0 := by omega
      subst this
      rfl
  have e1 := mixerLookup_written { s with mixer_table := t, mixer_lookup := 1280 }
    (env.heap 0) i rfl hcell2 hi
  have e2 := mixerLookup_written { s with mixer_table := t, mixer_lookup := 1280 }
    (env.heap 0) (-i) rfl hcell2 (by omega)
  refine ⟨_, _, ht, e1, ?_, ?_, ?_⟩
  · rw [e2]
    by_cases hnn : 0 ≤ i
    · by_cases hz : i = 0
      · subst hz; rfl
      · rw [if_pos hnn, if_neg (by omega)]
        simp
    · rw [if_neg hnn, if_pos (by omega)]
      simp
  · split <;> omega
  · split <;> omega

/-- Witness of C8 as amended: index -240. -/
theorem mixer_table_symmetric_witness :
    (-1279 ≤ (-240 : Int) ∧ (-240 : Int) ≤ 1279) ∧
    ∃ s1 a, make_mixer_table exampleEnv exampleChip 5 = some s1 ∧
      mixerLookup s1 (-240) = some a ∧ mixerLookup s1 (-(-240)) = some (-a) ∧
      -32767 ≤ a ∧ a ≤ 32767 :=
  ⟨by decide, mixer_table_symmetric exampleEnv exampleChip (-240) (by decide)⟩

/-- Counterexample to C8 as stated: the lowest addressable index of the
five-voice table, -1280, holds what the allocator left there, and its mirror
index 1280 is outside the table, so the symmetry `table[-i] = -table[i]`
fails at `i = -1280`. -/
theorem mixer_table_lowest_index_unmirrored :
    ∃ s1, make_mixer_table exampleEnv exampleChip 5 = some s1 ∧
      mixerLookup s1 (-1280) = some 7 ∧ mixerLookup s1 1280 = none ∧
      ¬ (∀ i : Int, -1280 ≤ i ∧ i ≤ 1279 →
          ∃ a, mixerLookup s1 i = some a ∧ mixerLookup s1 (-i) = some (-a)) := by
  obtain ⟨t, ht, hl, hcell⟩ := make_mixer_table_five exampleEnv exampleChip
  have hhi : mixerLookup { exampleChip with mixer_table := t, mixer_lookup := 1280 } 1280
      = none := by
    unfold mixerLookup loadAt
    simp only
    rw [if_pos (by omega)]
    have : ((1280 : Int) + 1280).toNat = 2560 := by omega
    rw [this]
    exact List.getElem?_eq_none (by omega)
  refine ⟨_, ht, ?_, hhi, ?_⟩
  · unfold mixerLookup loadAt
    simp only
    rw [if_pos (by omega)]
    have : ((1280 : Int) + -1280).toNat = 0 := by omega
    rw [this, hcell 0 (by omega)]
    rfl
  · intro hall
    obtain ⟨a, -, h2⟩ := hall (-1280) (by omega)
    have : (-(-1280 : Int)) = 1280 := by omega
    rw [this, hhi] at h2
    cases h2

/-! ## Lifecycle -/

theorem K051649Reset_channel (s : k051649_state) (j : Fin 5) :
    (K051649Reset s).channel_list j = zeroChannel := rfl

/-- Initialisation succeeds and ends with the reset of every channel. -/
theorem K051649Init_ok (env : BurnEnv) (s : k051649_state) (clock : Int) :
    ∃ s1, K051649Init env s clock = some s1 ∧ s1.channel_list = fun _ => zeroChannel := by
  obtain ⟨t, ht, -⟩ := make_mixer_table_five env (initFields env s clock)
  refine ⟨K051649Reset { initFields env s clock with mixer_table := t, mixer_lookup := 1280 },
    ?_, rfl⟩
  unfold K051649Init
  rw [ht, Option.map_some']

/-- C7: after `K051649Reset`, called on any chip state whatever (so on every
state that register writes and synthesis calls can reach), each of the five
channels has frequency 0, volume 0, key 0, counter 0 and 32 waveform samples
equal to 0, and the channel array equals that of a chip freshly initialised
by `K051649Init`, which succeeds for every clock. -/
theorem reset_restores_zero_state (env : BurnEnv) (s s0 : k051649_state) (clock : Int) :
    (∀ j : Fin 5,
      ((K051649Reset s).channel_list j).frequency = 0 ∧
      ((K051649Reset s).channel_list j).volume = 0 ∧
      ((K051649Reset s).channel_list j).key = 0 ∧
      ((K051649Reset s).channel_list j).counter = 0 ∧
      ∀ k : Fin 32, ((K051649Reset s).channel_list j).waveform k = 0) ∧
    ∃ fresh, K051649Init env s0 clock = some fresh ∧
      (K051649Reset s).channel_list = fresh.channel_list := by
  constructor
  · intro j
    exact ⟨rfl, rfl, rfl, rfl, fun _ => rfl⟩
  · obtain ⟨fresh, hf, hc⟩ := K051649Init_ok env s0 clock
    refine ⟨fresh, hf, ?_⟩
    rw [hc]
    rfl

/-! ## Synthesis: the output stage -/

theorem BURN_SND_CLIP_of_isInt16 (x : Int) (h : isInt16 x) : BURN_SND_CLIP x = x := by
  unfold isInt16 at h
  unfold BURN_SND_CLIP
  rw [if_neg (by omega), if_neg (by omega)]

theorem BURN_SND_CLIP_isInt16 (x : Int) : isInt16 (BURN_SND_CLIP x) := by
  unfold isInt16 BURN_SND_CLIP
  split
  · omega
  · split <;> omega

theorem toInt16_of_isInt16 (x : Int) (h : isInt16 x) : toInt16 x = x := by
  unfold isInt16 at h
  unfold toInt16; omega

theorem leadingBit_le (fuel : Nat) :
    ∀ n k : Nat, n < 2 ^ (k + 1) → leadingBit fuel n ≤ k := by
  induction fuel with
  | zero =>
    intro n k _
    rw [leadingBit]
    omega
  | succ f ih =>
    intro n k h
    rw [leadingBit]
    split
    · cases k with
      | zero => omega
      | succ k =>
        have h2 : n / 2 < 2 ^ (k + 1) := by
          rw [pow_succ] at h
          omega
        have := ih (n / 2) k h2
        omega
    · omega

/-- An integer below `2 ^ 53` is a `double`: rounding and the cast give it back. -/
theorem truncDouble_int (n : Nat) (h : n < 2 ^ 53) : truncDouble n 1 = n := by
  unfold truncDouble
  split
  · omega
  · have he : binadeOf n 1 ≤ 52 := by
      have h1 := leadingBit_le n n 52 h
      have h2 : leadingBit 1 1 = 0 := rfl
      unfold binadeOf
      simp only [h2]
      split <;> omega
    have hz : (binadeOf n 1 - 52).toNat = 0 := by omega
    simp only [hz, pow_zero, mul_one]
    unfold roundHalfEven
    simp only [Nat.div_one, Nat.mod_one, Nat.mul_zero, Nat.lt_one_iff, if_true, Nat.zero_lt_one]
    exact Nat.mul_div_cancel _ (Nat.pow_pos (by decide))

/-- The cast on some products that are not `double` values: with the gain
`0.7` (the `double` 3152519739159347 / 2 ^ 52) the product for -50 rounds to
-35.0, the one for 32767 to 22936.9 and the one for -32768 to -22937.6; with
gain 70000.0 the product for 32767 is outside `INT32`. -/
theorem scaleByGain_rounds :
    scaleByGain (-50) (Rat.divInt 3152519739159347 4503599627370496) = some (-35) ∧
    scaleByGain 32767 (Rat.divInt 3152519739159347 4503599627370496) = some 22936 ∧
    scaleByGain (-32768) (Rat.divInt 3152519739159347 4503599627370496) = some (-22937) ∧
    scaleByGain 32767 70000 = none := by
  decide

/-- With gain 1.0 the cast of the product gives the sample back. -/
theorem scaleByGain_one (x : Int) (h : isInt16 x) : scaleByGain x 1 = some x := by
  unfold isInt16 at h
  unfold scaleByGain
  simp only [Rat.num_one, Rat.den_one, mul_one]
  rw [truncDouble_int _ (by omega)]
  have hr : (if x < 0 then -((x.natAbs : Nat) : Int) else ((x.natAbs : Nat) : Int)) = x := by
    split <;> omega
  rw [hr, if_pos (by omega)]

theorem mixerLookup_mem (s : k051649_state) (m t : Int) (h : mixerLookup s m = some t) :
    t ∈ s.mixer_table := by
  unfold mixerLookup loadAt at h
  split at h
  · exact List.getElem?_mem h
  · cases h

/-- With gain 1.0 and a table of `INT16` cells the value added to the output
slots is the table entry itself. -/
theorem outputSample_gain_one (s : k051649_state) (m t : Int) (hg : s.gain = 1)
    (htab : ∀ x ∈ s.mixer_table, isInt16 x) (ht : mixerLookup s m = some t) :
    outputSample s m = some t := by
  have h16 : isInt16 t := htab t (mixerLookup_mem s m t ht)
  unfold outputSample
  simp only [ht, hg]
  rw [BURN_SND_CLIP_of_isInt16 t h16, scaleByGain_one t h16]
  simp only
  rw [BURN_SND_CLIP_of_isInt16 t h16]

/-- One frame of the output loop with gain 1.0: each slot receives the clipped
sum of its old content and the routed table entry. -/
theorem mixFrame_gain_one (env : BurnEnv) (s : k051649_state) (m t p0 p1 : Int)
    (hg : s.gain = 1) (htab : ∀ x ∈ s.mixer_table, isInt16 x)
    (ht : mixerLookup s m = some t) (h0 : isInt16 p0) (h1 : isInt16 p1) :
    mixFrame env s m p0 p1 = some
      (BURN_SND_CLIP (p0 +
        (if cand s.output_dir env.BURN_SND_ROUTE_LEFT = env.BURN_SND_ROUTE_LEFT
          then t else 0)),
       BURN_SND_CLIP (p1 +
        (if cand s.output_dir env.BURN_SND_ROUTE_RIGHT = env.BURN_SND_ROUTE_RIGHT
          then t else 0))) := by
  have h16 : isInt16 t := htab t (mixerLookup_mem s m t ht)
  have hz : add32 0 t = t := by
    unfold isInt16 at h16
    unfold add32 toInt32; omega
  have hadd : ∀ p l : Int, isInt16 p → isInt16 l → add32 p l = p + l := by
    intro p l hp hl
    unfold isInt16 at hp hl
    unfold add32 toInt32; omega
  have hzero : isInt16 0 := by unfold isInt16; omega
  unfold mixFrame
  simp only [outputSample_gain_one s m t hg htab ht, hz]
  congr 2
  · split
    · rw [hadd p0 t h0 h16, toInt16_of_isInt16 _ (BURN_SND_CLIP_isInt16 _)]
    · rw [hadd p0 0 h0 hzero, toInt16_of_isInt16 _ (BURN_SND_CLIP_isInt16 _)]
  · split
    · rw [hadd p1 t h1 h16, toInt16_of_isInt16 _ (BURN_SND_CLIP_isInt16 _)]
    · rw [hadd p1 0 h1 hzero, toInt16_of_isInt16 _ (BURN_SND_CLIP_isInt16 _)]

/-- The output loop with gain 1.0, on `INT16` buffers and with every lookup
inside the table: it succeeds, frame `k` receives the routed entry of
mix value `k`, and the cells past frame `n` are not written. -/
theorem mixDown_gain_one (env : BurnEnv) (s : k051649_state) (hg : s.gain = 1)
    (htab : ∀ x ∈ s.mixer_table, isInt16 x) (n : Nat) :
    ∀ (ms pBuf : List Int), n ≤ ms.length → 2 * n ≤ pBuf.length →
      (∀ x ∈ pBuf, isInt16 x) →
      (∀ m ∈ ms.take n, (mixerLookup s m).isSome = true) →
      ∃ out, mixDown env s n ms pBuf = some out ∧ out.length = pBuf.length ∧
        (∀ k, k < n → ∃ m t, ms[k]? = some m ∧ mixerLookup s m = some t ∧
          out.getD (2 * k) 0 = BURN_SND_CLIP (pBuf.getD (2 * k) 0 +
            (if cand s.output_dir env.BURN_SND_ROUTE_LEFT = env.BURN_SND_ROUTE_LEFT
              then t else 0)) ∧
          out.getD (2 * k + 1) 0 = BURN_SND_CLIP (pBuf.getD (2 * k + 1) 0 +
            (if cand s.output_dir env.BURN_SND_ROUTE_RIGHT = env.BURN_SND_ROUTE_RIGHT
              then t else 0))) ∧
        (∀ p, 2 * n ≤ p → out.getD p 0 = pBuf.getD p 0) := by
  induction n with
  | zero =>
    intro ms pBuf _ _ _ _
    refine ⟨pBuf, by rw [mixDown], rfl, ?_, fun _ _ => rfl⟩
    intro k hk
    omega
  | succ n ih =>
    intro ms pBuf hms hpb h16 hlook
    match ms, pBuf, hms, hpb, h16, hlook with
    | [], _, hms, _, _, _ => simp at hms
    | _ :: _, [], _, hpb, _, _ => simp at hpb
    | _ :: _, [_], _, hpb, _, _ => simp at hpb; omega
    | m :: ms1, p0 :: p1 :: rest, hms, hpb, h16, hlook =>
      have hm : (mixerLookup s m).isSome = true :=
        hlook m (by rw [List.take_succ_cons]; exact List.mem_cons_self _ _)
      obtain ⟨t, ht⟩ := Option.isSome_iff_exists.mp hm
      have hf := mixFrame_gain_one env s m t p0 p1 hg htab ht
        (h16 p0 (by simp)) (h16 p1 (by simp))
      obtain ⟨out1, ho, hlen, hfr, hrest⟩ := ih ms1 rest
        (by simpa using hms) (by simp at hpb; omega)
        (fun x hx => h16 x (by simp [hx]))
        (fun m1 hm1 => hlook m1 (by rw [List.take_succ_cons]; exact List.mem_cons_of_mem _ hm1))
      refine ⟨BURN_SND_CLIP (p0 +
          (if cand s.output_dir env.BURN_SND_ROUTE_LEFT = env.BURN_SND_ROUTE_LEFT
            then t else 0)) ::
         BURN_SND_CLIP (p1 +
          (if cand s.output_dir env.BURN_SND_ROUTE_RIGHT = env.BURN_SND_ROUTE_RIGHT
            then t else 0)) :: out1, ?_, ?_, ?_, ?_⟩
      · rw [mixDown]
        simp only [hf, ho]
      · simp [hlen]
      · intro k hk
        cases k with
        | zero => exact ⟨m, t, by simp, ht, rfl, rfl⟩
        | succ k =>
          obtain ⟨m1, t1, e1, e2, e3, e4⟩ := hfr k (by omega)
          refine ⟨m1, t1, ?_, e2, ?_, ?_⟩
          · simpa using e1
          · have : 2 * (k + 1) = (2 * k + 1) + 1 := by omega
            rw [this, List.getD_cons_succ, List.getD_cons_succ, List.getD_cons_succ,
              List.getD_cons_succ]
            exact e3
          · have : 2 * (k + 1) + 1 = (2 * k + 1 + 1) + 1 := by omega
            rw [this, List.getD_cons_succ, List.getD_cons_succ, List.getD_cons_succ,
              List.getD_cons_succ]
            exact e4
      · intro p hp
        obtain ⟨q, rfl⟩ : ∃ q, p = q + 1 + 1 := ⟨p - 2, by omega⟩
        rw [List.getD_cons_succ, List.getD_cons_succ, List.getD_cons_succ,
          List.getD_cons_succ]
        exact hrest q (by omega)

theorem mixerLookup_congr (s s1 : k051649_state) (h1 : s1.mixer_table = s.mixer_table)
    (h2 : s1.mixer_lookup = s.mixer_lookup) (m : Int) : mixerLookup s1 m = mixerLookup s m := by
  unfold mixerLookup; rw [h1, h2]

/-- C10: with gain 1.0, for every routing mask and every prior content of the
caller's buffer, a `K051649Update` call for `n` samples (the mix buffer holds
`n` entries, the caller's buffer `2n`, and every mix value is an index inside
the mixer table) succeeds, and for every sample `k < n` the new left slot is
the clip of the old left slot plus `L` and the new right slot the clip of the
old right slot plus `R`, where `L` is the table entry of mix value `k` when the
left route bit is set and 0 otherwise, and `R` likewise for the right route
bit; a slot whose route bit is clear keeps its content, and the cells at
positions `2n` and beyond are untouched. -/
theorem update_output_additive_routed (env : BurnEnv) (s : k051649_state) (pBuf : List Int)
    (n : Nat) (hg : s.gain = 1) (hcap : n ≤ s.mixer_buffer.length)
    (hbuf : 2 * n ≤ pBuf.length) (hpb : ∀ x ∈ pBuf, isInt16 x)
    (htab : ∀ x ∈ s.mixer_table, isInt16 x)
    (hlook : ∀ m ∈ mixValues env s n, (mixerLookup s m).isSome = true) :
    ∃ s1 out, K051649Update env s pBuf n = some (s1, out) ∧ out.length = pBuf.length ∧
      (∀ k, k < n → ∃ m t, (mixValues env s n)[k]? = some m ∧ mixerLookup s m = some t ∧
        out.getD (2 * k) 0 = BURN_SND_CLIP (pBuf.getD (2 * k) 0 +
          (if cand s.output_dir env.BURN_SND_ROUTE_LEFT = env.BURN_SND_ROUTE_LEFT
            then t else 0)) ∧
        out.getD (2 * k + 1) 0 = BURN_SND_CLIP (pBuf.getD (2 * k + 1) 0 +
          (if cand s.output_dir env.BURN_SND_ROUTE_RIGHT = env.BURN_SND_ROUTE_RIGHT
            then t else 0)) ∧
        (cand s.output_dir env.BURN_SND_ROUTE_LEFT ≠ env.BURN_SND_ROUTE_LEFT →
          out.getD (2 * k) 0 = pBuf.getD (2 * k) 0) ∧
        (cand s.output_dir env.BURN_SND_ROUTE_RIGHT ≠ env.BURN_SND_ROUTE_RIGHT →
          out.getD (2 * k + 1) 0 = pBuf.getD (2 * k + 1) 0)) ∧
      (∀ p, 2 * n ≤ p → out.getD p 0 = pBuf.getD p 0) := by
  obtain ⟨s1, hs1, hinv, ht1, hl1, hg1, hd1⟩ := generate_total env s n hcap
  have hmv : mixValues env s n = s1.mixer_buffer.take n := by
    unfold mixValues; rw [hs1]
  have hlk : ∀ m, mixerLookup s1 m = mixerLookup s m := mixerLookup_congr s s1 ht1 hl1
  obtain ⟨out, ho, hlen, hfr, hrest⟩ := mixDown_gain_one env s1 (by rw [hg1]; exact hg)
    (by rw [ht1]; exact htab) n s1.mixer_buffer pBuf (by rw [hinv.1]; exact hcap) hbuf hpb
    (by intro m hm; rw [hlk]; exact hlook m (by rw [hmv]; exact hm))
  refine ⟨s1, out, ?_, hlen, ?_, hrest⟩
  · unfold K051649Update
    simp only [hs1, ho]
  · intro k hk
    obtain ⟨m, t, e1, e2, e3, e4⟩ := hfr k hk
    rw [hd1] at e3 e4
    have hin : ∀ q, q < pBuf.length → BURN_SND_CLIP (pBuf.getD q 0 + 0) = pBuf.getD q 0 := by
      intro q hq
      rw [add_zero]
      apply BURN_SND_CLIP_of_isInt16
      apply hpb
      rw [List.getD_eq_getElem _ _ hq]
      exact List.getElem_mem _
    refine ⟨m, t, ?_, (hlk m).symm.trans e2, e3, e4, ?_, ?_⟩
    · rw [hmv, List.getElem?_take_of_lt hk]
      exact e1
    · intro hne
      rw [e3, if_neg hne]
      exact hin _ (by omega)
    · intro hne
      rw [e4, if_neg hne]
      exact hin _ (by omega)

/-- Witness of C10: two samples of the example chip, routed left only. -/
theorem update_output_additive_routed_witness :
    (exampleChip.gain = 1 ∧ 2 ≤ exampleChip.mixer_buffer.length ∧
      2 * 2 ≤ [100, -200, 32767, 5, 9].length ∧
      (∀ x ∈ [100, -200, 32767, 5, 9], isInt16 x) ∧
      (∀ x ∈ exampleChip.mixer_table, isInt16 x) ∧
      (∀ m ∈ mixValues exampleEnv exampleChip 2, (mixerLookup exampleChip m).isSome = true)) ∧
    ∃ s1 out, K051649Update exampleEnv exampleChip [100, -200, 32767, 5, 9] 2 = some (s1, out) ∧
      out.length = [100, -200, 32767, 5, 9].length ∧
      (∀ k, k < 2 → ∃ m t, (mixValues exampleEnv exampleChip 2)[k]? = some m ∧
        mixerLookup exampleChip m = some t ∧
        out.getD (2 * k) 0 = BURN_SND_CLIP (([100, -200, 32767, 5, 9] : List Int).getD (2 * k) 0 +
          (if cand exampleChip.output_dir exampleEnv.BURN_SND_ROUTE_LEFT =
              exampleEnv.BURN_SND_ROUTE_LEFT then t else 0)) ∧
        out.getD (2 * k + 1) 0 =
          BURN_SND_CLIP (([100, -200, 32767, 5, 9] : List Int).getD (2 * k + 1) 0 +
          (if cand exampleChip.output_dir exampleEnv.BURN_SND_ROUTE_RIGHT =
              exampleEnv.BURN_SND_ROUTE_RIGHT then t else 0)) ∧
        (cand exampleChip.output_dir exampleEnv.BURN_SND_ROUTE_LEFT ≠
            exampleEnv.BURN_SND_ROUTE_LEFT →
          out.getD (2 * k) 0 = ([100, -200, 32767, 5, 9] : List Int).getD (2 * k) 0) ∧
        (cand exampleChip.output_dir exampleEnv.BURN_SND_ROUTE_RIGHT ≠
            exampleEnv.BURN_SND_ROUTE_RIGHT →
          out.getD (2 * k + 1) 0 = ([100, -200, 32767, 5, 9] : List Int).getD (2 * k + 1) 0)) ∧
      (∀ p, 2 * 2 ≤ p → out.getD p 0 = ([100, -200, 32767, 5, 9] : List Int).getD p 0) :=
  ⟨⟨by decide, by decide, by decide, by decide, by decide, by decide⟩,
    update_output_additive_routed exampleEnv exampleChip [100, -200, 32767, 5, 9] 2
      (by decide) (by decide) (by decide) (by decide) (by decide) (by decide)⟩

/-! ## Closed forms of the synthesis -/

theorem workCounter_succ (step : Int) (k : Nat) (c : Int) :
    workCounter step (k + 1) c = workCounter step k (add32 c step) := by
  rw [workCounter]

theorem workCounter_zero (step : Int) (c : Int) : workCounter step 0 c = c := by
  rw [workCounter]

theorem sampleAt_of_idx (w : Fin 32 → Int) (c : Int) (k : Fin 32)
    (h : waveIdx (waveOffs c) = some k) : sampleAt w c = w k := by
  unfold sampleAt; rw [h]

/-- The inner loop in closed form: the working counter it returns and every
cell of the mix buffer it leaves. -/
theorem addContribution_closed (w : Fin 32 → Int) (v step : Int) (n : Nat) :
    ∀ (c : Int) (mix : List Int), n ≤ mix.length →
      ∃ r, addContribution w v step n c mix = some r ∧ r.1 = workCounter step n c ∧
        r.2.length = mix.length ∧
        ∀ i, r.2.getD i 0 =
          if i < n then
            toInt16 (add32 (mix.getD i 0)
              (sar (mul32 (sampleAt w (workCounter step (i + 1) c)) v) 3))
          else mix.getD i 0 := by
  induction n with
  | zero =>
    intro c mix _
    refine ⟨(c, mix), by rw [addContribution], (workCounter_zero step c).symm, rfl, ?_⟩
    intro i
    rw [if_neg (by omega)]
  | succ n ih =>
    intro c mix hlen
    cases mix with
    | nil => simp at hlen
    | cons m ms =>
      obtain ⟨k, hk, -⟩ := waveIdx_waveOffs (add32 c step)
      obtain ⟨r, hr, hc, hl, hcell⟩ := ih (add32 c step) ms (by simpa using hlen)
      refine ⟨(r.1, toInt16 (add32 m (sar (mul32 (w k) v) 3)) :: r.2), ?_, ?_, ?_, ?_⟩
      · rw [addContribution_succ w v step n c m ms k hk, hr]; rfl
      · rw [workCounter_succ]; exact hc
      · simp [hl]
      · intro i
        cases i with
        | zero =>
          rw [if_pos (by omega), workCounter_succ, workCounter_zero,
            sampleAt_of_idx w _ k hk]
          rfl
        | succ i =>
          rw [List.getD_cons_succ, List.getD_cons_succ, hcell i, workCounter_succ step (i + 1) c]
          by_cases hi : i < n
          · rw [if_pos hi, if_pos (by omega)]
          · rw [if_neg hi, if_neg (by omega)]

/-- The body of the voice loop in closed form. -/
theorem updateVoice_closed (env : BurnEnv) (s : k051649_state) (n : Nat)
    (voice : k051649_sound_channel) (mix : List Int) (hlen : n ≤ mix.length) :
    ∃ r, updateVoice (env.step s.mclock voice.frequency s.rate s.nUpdateStep) n voice mix
        = some r ∧
      r.1 = advanceVoice env s n voice ∧ r.2.length = mix.length ∧
      ∀ i, r.2.getD i 0 =
        if i < n then addVoice env s i (mix.getD i 0) voice else mix.getD i 0 := by
  by_cases h : voice.frequency > 8
  · obtain ⟨r, hr, hc, hl, hcell⟩ := addContribution_closed voice.waveform
      (mul32 voice.volume voice.key)
      (toInt32 (env.step s.mclock voice.frequency s.rate s.nUpdateStep)) n
      (ofBits32 (voice.counter % 4294967296)) mix hlen
    refine ⟨({ voice with counter := toUInt64 r.1 }, r.2), ?_, ?_, hl, ?_⟩
    · unfold updateVoice
      rw [if_pos h]
      simp only [hr]
    · unfold advanceVoice voiceCounter voiceStepSize voiceStart
      rw [if_pos h, hc]
    · intro i
      rw [hcell i]
      unfold addVoice voiceSample voiceCounter voiceStepSize voiceStart
      rw [if_pos h]
  · refine ⟨(voice, mix), updateVoice_halted _ n voice mix (by omega), ?_, rfl, ?_⟩
    · unfold advanceVoice; rw [if_neg h]
    · intro i
      unfold addVoice
      rw [if_neg h, ite_self]

/-- The voice loop over the channels `js`, in closed form. -/
theorem voiceLoop_closed (env : BurnEnv) (s : k051649_state) (n : Nat) (js : List (Fin 5)) :
    js.Nodup → ∀ acc : (Fin 5 → k051649_sound_channel) × List Int, n ≤ acc.2.length →
      ∃ r, js.foldlM (voiceStep env s n) acc = some r ∧ r.2.length = acc.2.length ∧
        (∀ j, r.1 j = if j ∈ js then advanceVoice env s n (acc.1 j) else acc.1 j) ∧
        ∀ i, r.2.getD i 0 =
          if i < n then js.foldl (fun a j => addVoice env s i a (acc.1 j)) (acc.2.getD i 0)
          else acc.2.getD i 0 := by
  induction js with
  | nil =>
    intro _ acc _
    refine ⟨acc, rfl, rfl, fun j => by simp, fun i => by simp⟩
  | cons j js ih =>
    intro hnd acc hlen
    obtain ⟨hj, hnd2⟩ := List.nodup_cons.mp hnd
    obtain ⟨r1, e1, hv1, hl1, hc1⟩ := updateVoice_closed env s n (acc.1 j) acc.2 hlen
    have hstep : voiceStep env s n acc j = some (Function.update acc.1 j r1.1, r1.2) := by
      unfold voiceStep
      simp only [e1]
    obtain ⟨r, e2, hl2, hv2, hc2⟩ := ih hnd2 (Function.update acc.1 j r1.1, r1.2)
      (by simp only; omega)
    refine ⟨r, ?_, ?_, ?_, ?_⟩
    · rw [List.foldlM_cons, hstep]
      exact e2
    · rw [hl2]; exact hl1
    · intro k
      rw [hv2 k]
      by_cases hkj : k = j
      · subst hkj
        simp only [hj, if_false, Function.update_same, List.mem_cons, true_or, if_true]
        exact hv1
      · simp only [Function.update_noteq hkj, List.mem_cons, hkj, false_or]
    · intro i
      rw [hc2 i]
      simp only
      rw [hc1 i]
      by_cases hi : i < n
      · rw [if_pos hi, if_pos hi, if_pos hi, List.foldl_cons]
        apply List.foldl_ext
        intro a b hb
        have hbj : b ≠ j := fun h => hj (h ▸ hb)
        rw [Function.update_noteq hbj]
      · rw [if_neg hi, if_neg hi, if_neg hi]

theorem memsetZero_closed (blk : List Int) (n : Nat) (h : n ≤ blk.length) :
    ∃ m, memsetZero blk n = some m ∧ m.length = blk.length ∧
      ∀ i, m.getD i 0 = if i < n then 0 else blk.getD i 0 := by
  refine ⟨List.replicate n 0 ++ blk.drop n, ?_, ?_, ?_⟩
  · unfold memsetZero; rw [if_pos h]
  · simp; omega
  · intro i
    by_cases hi : i < n
    · rw [if_pos hi, List.getD_eq_getElem?_getD, List.getElem?_append_left (by simpa using hi)]
      simp [List.getElem?_replicate, hi]
    · rw [if_neg hi, List.getD_eq_getElem?_getD, List.getD_eq_getElem?_getD,
        List.getElem?_append_right (by simp; omega)]
      simp only [List.length_replicate, List.getElem?_drop]
      congr 2
      omega

/-- The first half of `K051649Update` in closed form: every voice is advanced
by `n` samples and cell `i < n` of the mix buffer holds `mixEntry env s i`. -/
theorem generate_closed (env : BurnEnv) (s : k051649_state) (n : Nat)
    (hcap : n ≤ s.mixer_buffer.length) :
    ∃ s1, generate env s n = some s1 ∧
      (∀ j, s1.channel_list j = advanceVoice env s n (s.channel_list j)) ∧
      s1.mixer_buffer.length = s.mixer_buffer.length ∧
      (∀ i, s1.mixer_buffer.getD i 0 =
        if i < n then mixEntry env s i else s.mixer_buffer.getD i 0) ∧
      s1.mclock = s.mclock ∧ s1.rate = s.rate ∧ s1.nUpdateStep = s.nUpdateStep := by
  obtain ⟨m, hm, hml, hmc⟩ := memsetZero_closed s.mixer_buffer n hcap
  obtain ⟨r, hr, hl, hv, hc⟩ := voiceLoop_closed env s n [0, 1, 2, 3, 4] (by decide)
    (s.channel_list, m) (by simp only; omega)
  refine ⟨{ s with channel_list := r.1, mixer_buffer := r.2 }, ?_, ?_, ?_, ?_, rfl, rfl, rfl⟩
  · unfold generate
    simp only [hm, hr]
  · intro j
    have hmem : j ∈ ([0, 1, 2, 3, 4] : List (Fin 5)) := by
      revert j; decide
    simp only
    rw [hv j, if_pos hmem]
  · simp only
    rw [hl]; exact hml
  · intro i
    simp only
    rw [hc i, hmc i]
    by_cases hi : i < n
    · rw [if_pos hi, if_pos hi, if_pos hi]
      rfl
    · rw [if_neg hi, if_neg hi, if_neg hi]

/-- The mix values of a call, in closed form. -/
theorem mixValues_closed (env : BurnEnv) (s : k051649_state) (n : Nat)
    (hcap : n ≤ s.mixer_buffer.length) :
    mixValues env s n = (List.range n).map (mixEntry env s) := by
  obtain ⟨s1, hs1, -, hl, hc, -⟩ := generate_closed env s n hcap
  unfold mixValues
  rw [hs1]
  simp only
  apply List.ext_getElem?
  intro i
  by_cases hi : i < n
  · have h1 : (List.take n s1.mixer_buffer)[i]? = some (s1.mixer_buffer.getD i 0) := by
      rw [List.getElem?_take_of_lt hi, List.getD_eq_getElem?_getD]
      have : i < s1.mixer_buffer.length := by omega
      rw [List.getElem?_eq_getElem this]
      rfl
    rw [h1, hc i, if_pos hi, List.getElem?_map, List.getElem?_range hi]
    rfl
  · have h1 : (List.take n s1.mixer_buffer)[i]? = none := by
      apply List.getElem?_eq_none
      simp; omega
    have h2 : (List.map (mixEntry env s) (List.range n))[i]? = none := by
      apply List.getElem?_eq_none
      simp; omega
    rw [h1, h2]

/-! ## Phase continuity -/

theorem workCounter_add (step : Int) (n m : Nat) :
    ∀ c, workCounter step (n + m) c = workCounter step m (workCounter step n c) := by
  induction n with
  | zero => intro c; rw [Nat.zero_add, workCounter_zero]
  | succ n ih =>
    intro c
    have : n + 1 + m = (n + m) + 1 := by omega
    rw [this, workCounter_succ, workCounter_succ, ih]

theorem add32_isInt32 (a b : Int) : isInt32 (add32 a b) := by
  unfold isInt32 add32 toInt32; omega

theorem workCounter_isInt32 (step : Int) (n : Nat) :
    ∀ c, isInt32 c → isInt32 (workCounter step n c) := by
  induction n with
  | zero => intro c h; rw [workCounter_zero]; exact h
  | succ n ih =>
    intro c _
    rw [workCounter_succ]
    exact ih _ (add32_isInt32 c step)

theorem voiceStart_isInt32 (voice : k051649_sound_channel) : isInt32 (voiceStart voice) := by
  unfold voiceStart ofBits32 isInt32
  split <;> omega

/-- Storing the working counter and loading it in the next call gives it back. -/
theorem ofBits32_toUInt64 (x : Int) (h : isInt32 x) :
    ofBits32 (toUInt64 x % 4294967296) = x := by
  unfold isInt32 at h
  unfold ofBits32 toUInt64
  split <;> omega

theorem voiceCounter_isInt32 (env : BurnEnv) (s : k051649_state)
    (voice : k051649_sound_channel) (k : Nat) : isInt32 (voiceCounter env s voice k) :=
  workCounter_isInt32 _ k _ (voiceStart_isInt32 voice)

theorem voiceCounter_eq (env : BurnEnv) (s : k051649_state) (voice : k051649_sound_channel)
    (k : Nat) :
    voiceCounter env s voice k = workCounter (voiceStepSize env s voice) k (voiceStart voice) :=
  rfl

/-- A voice advanced by `n` samples and then by `m` is the voice advanced by
`n + m`, when the second call sees the clock, rate and step factor of the
first. -/
theorem advanceVoice_add (env : BurnEnv) (s s1 : k051649_state) (n m : Nat)
    (voice : k051649_sound_channel) (h1 : s1.mclock = s.mclock) (h2 : s1.rate = s.rate)
    (h3 : s1.nUpdateStep = s.nUpdateStep) :
    advanceVoice env s1 m (advanceVoice env s n voice) = advanceVoice env s (n + m) voice ∧
    ∀ i a, addVoice env s1 i a (advanceVoice env s n voice) = addVoice env s (n + i) a voice := by
  by_cases h : voice.frequency > 8
  · have hstart : voiceStart { voice with counter := toUInt64 (voiceCounter env s voice n) }
        = voiceCounter env s voice n := by
      unfold voiceStart
      exact ofBits32_toUInt64 _ (voiceCounter_isInt32 env s voice n)
    have hcnt : ∀ k, voiceCounter env s1
        { voice with counter := toUInt64 (voiceCounter env s voice n) } k =
        voiceCounter env s voice (n + k) := by
      intro k
      have hsz : voiceStepSize env s1
          { voice with counter := toUInt64 (voiceCounter env s voice n) } =
          voiceStepSize env s voice := by
        unfold voiceStepSize
        simp only [h1, h2, h3]
      rw [voiceCounter_eq env s1 _ k, hstart, hsz, voiceCounter_eq env s voice (n + k),
        workCounter_add, ← voiceCounter_eq env s voice n]
    constructor
    · unfold advanceVoice
      simp only [if_pos h]
      rw [hcnt m]
    · intro i a
      unfold advanceVoice addVoice voiceSample
      simp only [if_pos h]
      rw [hcnt (i + 1)]
      rfl
  · constructor
    · unfold advanceVoice
      simp only [if_neg h]
    · intro i a
      unfold advanceVoice addVoice
      simp only [if_neg h]

/-- The mix values of a second call continue those of the first. -/
theorem mixEntry_continue (env : BurnEnv) (s s1 : k051649_state) (n : Nat)
    (h1 : s1.mclock = s.mclock) (h2 : s1.rate = s.rate) (h3 : s1.nUpdateStep = s.nUpdateStep)
    (hv : ∀ j, s1.channel_list j = advanceVoice env s n (s.channel_list j)) (i : Nat) :
    mixEntry env s1 i = mixEntry env s (n + i) := by
  unfold mixEntry
  simp only [List.foldl_cons, List.foldl_nil, hv,
    (advanceVoice_add env s s1 n 0 _ h1 h2 h3).2]

theorem update_generate (env : BurnEnv) (s : k051649_state) (pBuf : List Int) (n : Nat)
    (r : k051649_state × List Int) (h : K051649Update env s pBuf n = some r) :
    generate env s n = some r.1 := by
  unfold K051649Update at h
  cases hg : generate env s n with
  | none => rw [hg] at h; cases h
  | some s1 =>
    rw [hg] at h
    simp only at h
    cases hm : mixDown env s1 n s1.mixer_buffer pBuf with
    | none => rw [hm] at h; cases h
    | some out => rw [hm] at h; cases h; rfl

/-- C11: for every chip state and all sample counts `n` and `m` whose sum the
mix buffer holds, with no register write in between, the synthesis of `n`
samples followed by the synthesis of `m` samples succeeds like the synthesis
of `n + m` samples, ends with the same channel array (so the same phase
counter in every channel), and the `n` mix values of the first call followed
by the `m` of the second are the `n + m` mix values of the single call; what
holds of the two halves of the calls holds of every successful `K051649Update`. -/
theorem phase_continuity (env : BurnEnv) (s : k051649_state) (n m : Nat)
    (hcap : n + m ≤ s.mixer_buffer.length) :
    (∃ s1 s2 s3, generate env s n = some s1 ∧ generate env s1 m = some s2 ∧
      generate env s (n + m) = some s3 ∧
      s2.channel_list = s3.channel_list ∧
      (∀ j, (s2.channel_list j).counter = (s3.channel_list j).counter) ∧
      mixValues env s n ++ mixValues env s1 m = mixValues env s (n + m)) ∧
    (∀ p1 p2 p3 r1 r2 r3, K051649Update env s p1 n = some r1 →
      K051649Update env r1.1 p2 m = some r2 → K051649Update env s p3 (n + m) = some r3 →
      (∀ j, (r2.1.channel_list j).counter = (r3.1.channel_list j).counter) ∧
      r1.1.mixer_buffer.take n ++ r2.1.mixer_buffer.take m =
        r3.1.mixer_buffer.take (n + m)) := by
  obtain ⟨s1, hs1, hv1, hl1, -, hm1, hr1, hu1⟩ := generate_closed env s n (by omega)
  obtain ⟨s2, hs2, hv2, -⟩ := generate_closed env s1 m (by omega)
  obtain ⟨s3, hs3, hv3, -⟩ := generate_closed env s (n + m) hcap
  have hch : s2.channel_list = s3.channel_list := by
    funext j
    rw [hv2 j, hv3 j, hv1 j]
    exact (advanceVoice_add env s s1 n m _ hm1 hr1 hu1).1
  have hmix : mixValues env s n ++ mixValues env s1 m = mixValues env s (n + m) := by
    rw [mixValues_closed env s n (by omega), mixValues_closed env s1 m (by omega),
      mixValues_closed env s (n + m) hcap, List.range_add, List.map_append, List.map_map]
    congr 1
    apply List.map_congr_left
    intro i _
    exact mixEntry_continue env s s1 n hm1 hr1 hu1 hv1 i
  refine ⟨⟨s1, s2, s3, hs1, hs2, hs3, hch, fun j => by rw [hch], hmix⟩, ?_⟩
  intro p1 p2 p3 r1 r2 r3 e1 e2 e3
  have g1 := update_generate env s p1 n r1 e1
  have g2 := update_generate env r1.1 p2 m r2 e2
  have g3 := update_generate env s p3 (n + m) r3 e3
  rw [hs1] at g1
  cases g1
  rw [hs2] at g2
  cases g2
  rw [hs3] at g3
  cases g3
  refine ⟨fun j => by rw [hch], ?_⟩
  have k1 : mixValues env s n = r1.1.mixer_buffer.take n := by
    unfold mixValues; rw [hs1]
  have k2 : mixValues env r1.1 m = r2.1.mixer_buffer.take m := by
    unfold mixValues; rw [hs2]
  have k3 : mixValues env s (n + m) = r3.1.mixer_buffer.take (n + m) := by
    unfold mixValues; rw [hs3]
  rw [← k1, ← k2, ← k3]
  exact hmix

/-- Witness of C11: one sample, then two, on the example chip. -/
theorem phase_continuity_witness :
    (1 + 2 ≤ exampleChip.mixer_buffer.length) ∧
    ((∃ s1 s2 s3, generate exampleEnv exampleChip 1 = some s1 ∧
      generate exampleEnv s1 2 = some s2 ∧
      generate exampleEnv exampleChip (1 + 2) = some s3 ∧
      s2.channel_list = s3.channel_list ∧
      (∀ j, (s2.channel_list j).counter = (s3.channel_list j).counter) ∧
      mixValues exampleEnv exampleChip 1 ++ mixValues exampleEnv s1 2 =
        mixValues exampleEnv exampleChip (1 + 2)) ∧
    (∀ p1 p2 p3 r1 r2 r3, K051649Update exampleEnv exampleChip p1 1 = some r1 →
      K051649Update exampleEnv r1.1 p2 2 = some r2 →
      K051649Update exampleEnv exampleChip p3 (1 + 2) = some r3 →
      (∀ j, (r2.1.channel_list j).counter = (r3.1.channel_list j).counter) ∧
      r1.1.mixer_buffer.take 1 ++ r2.1.mixer_buffer.take 2 =
        r3.1.mixer_buffer.take (1 + 2))) :=
  ⟨by decide, phase_continuity exampleEnv exampleChip 1 2 (by decide)⟩

/-! ## The value of a mix-buffer entry -/

theorem add32_emod (a b : Int) : add32 a b % 4294967296 = (a + b) % 4294967296 := by
  unfold add32 toInt32; omega

/-- The working counter is the stored counter plus `k` steps, modulo `2 ^ 32`. -/
theorem workCounter_emod (step : Int) (k : Nat) :
    ∀ c, workCounter step k c % 4294967296 = (c + (k : Int) * step) % 4294967296 := by
  induction k with
  | zero => intro c; rw [workCounter_zero]; simp
  | succ k ih =>
    intro c
    rw [workCounter_succ, ih]
    have h1 := add32_emod c step
    have h2 : ((k + 1 : Nat) : Int) * step = (k : Int) * step + step := by
      push_cast; ring
    rw [h2]
    omega

theorem waveOffs_congr (a b : Int) (h : a % 4294967296 = b % 4294967296) :
    waveOffs a = waveOffs b := by
  rw [waveOffs_eq, waveOffs_eq]; omega

theorem sampleAt_congr (w : Fin 32 → Int) (a b : Int)
    (h : a % 4294967296 = b % 4294967296) : sampleAt w a = sampleAt w b := by
  unfold sampleAt; rw [waveOffs_congr a b h]

theorem voiceStart_emod (voice : k051649_sound_channel) :
    voiceStart voice % 4294967296 = (voice.counter : Int) % 4294967296 := by
  unfold voiceStart ofBits32
  split <;> omega

/-- The working counter of a voice after `k` samples is its stored counter plus
`k` steps, modulo `2 ^ 32`. -/
theorem voiceCounter_emod (env : BurnEnv) (s : k051649_state)
    (voice : k051649_sound_channel) (k : Nat) :
    voiceCounter env s voice k % 4294967296 =
      ((voice.counter : Int) + (k : Int) * voiceStepSize env s voice) % 4294967296 := by
  rw [voiceCounter_eq, workCounter_emod]
  have := voiceStart_emod voice
  omega

theorem sampleAt_range (w : Fin 32 → Int) (c : Int)
    (hw : ∀ k, -128 ≤ w k ∧ w k ≤ 127) : -128 ≤ sampleAt w c ∧ sampleAt w c ≤ 127 := by
  obtain ⟨k, hk, -⟩ := waveIdx_waveOffs c
  rw [sampleAt_of_idx w c k hk]
  exact hw k

/-- The scaled sample `(w * v) >> 3` with `v = volume * key`, for registers in
range: no product wraps and the shift is the floor of the division by 8. -/
theorem scaled_sample (w vol key : Int) (hw : -128 ≤ w ∧ w ≤ 127)
    (hv : 0 ≤ vol ∧ vol ≤ 15) (hk : key = 0 ∨ key = 1) :
    sar (mul32 w (mul32 vol key)) 3 = w * vol * key / 8 ∧
    -240 ≤ w * vol * key / 8 ∧ w * vol * key / 8 ≤ 238 := by
  have h1 : -1920 ≤ w * vol := by nlinarith
  have h2 : w * vol ≤ 1905 := by nlinarith
  rw [sar_eq_div]
  rcases hk with rfl | rfl
  · simp [mul32, toInt32]
  · have e1 : mul32 vol 1 = vol := by
      unfold mul32 toInt32; omega
    have e2 : mul32 w vol = w * vol := by
      unfold mul32 toInt32; omega
    rw [e1, e2, mul_one]
    norm_num
    omega

/-- The value a voice adds to sample `i` is the claimed term, for registers in
range, and lies in -240..238. -/
theorem voiceSample_spec (env : BurnEnv) (s : k051649_state) (voice : k051649_sound_channel)
    (i : Nat) (hw : ∀ k, -128 ≤ voice.waveform k ∧ voice.waveform k ≤ 127)
    (hv : 0 ≤ voice.volume ∧ voice.volume ≤ 15) (hk : voice.key = 0 ∨ voice.key = 1)
    (hf : voice.frequency > 8) :
    voiceSample env s voice i = specVoiceTerm env s voice i ∧
    -240 ≤ specVoiceTerm env s voice i ∧ specVoiceTerm env s voice i ≤ 238 := by
  have hs : sampleAt voice.waveform (voiceCounter env s voice (i + 1)) =
      sampleAt voice.waveform
        ((voice.counter : Int) + ((i : Int) + 1) * voiceStepSize env s voice) := by
    apply sampleAt_congr
    rw [voiceCounter_emod]
    push_cast
    rfl
  have h := scaled_sample _ voice.volume voice.key
    (sampleAt_range voice.waveform
      ((voice.counter : Int) + ((i : Int) + 1) * voiceStepSize env s voice) hw) hv hk
  unfold voiceSample specVoiceTerm
  rw [if_pos hf, hs]
  exact h

/-- Adding a voice to a cell that is far from the `INT16` limits adds the
claimed term, without wrapping. -/
theorem addVoice_spec (env : BurnEnv) (s : k051649_state) (voice : k051649_sound_channel)
    (i : Nat) (a : Int) (ha : -1000 ≤ a ∧ a ≤ 1000)
    (hw : ∀ k, -128 ≤ voice.waveform k ∧ voice.waveform k ≤ 127)
    (hv : 0 ≤ voice.volume ∧ voice.volume ≤ 15) (hk : voice.key = 0 ∨ voice.key = 1) :
    addVoice env s i a voice = a + specVoiceTerm env s voice i ∧
    -240 ≤ specVoiceTerm env s voice i ∧ specVoiceTerm env s voice i ≤ 238 := by
  by_cases hf : voice.frequency > 8
  · obtain ⟨e, hlo, hhi⟩ := voiceSample_spec env s voice i hw hv hk hf
    refine ⟨?_, hlo, hhi⟩
    unfold addVoice
    rw [if_pos hf, e]
    unfold toInt16 add32 toInt32
    omega
  · have hz : specVoiceTerm env s voice i = 0 := by
      unfold specVoiceTerm; rw [if_neg hf]
    rw [hz]
    refine ⟨?_, by omega, by omega⟩
    unfold addVoice
    rw [if_neg hf, add_zero]

/-- For registers in range the mix-buffer entry is the claimed sum and lies in
-1200..1190. -/
theorem mixEntry_spec (env : BurnEnv) (s : k051649_state) (i : Nat)
    (hreg : RegistersInRange s) (hw : WaveformsInt8 s) :
    mixEntry env s i = specMixValue env s i ∧
    -1200 ≤ mixEntry env s i ∧ mixEntry env s i ≤ 1190 := by
  have h0 := addVoice_spec env s (s.channel_list 0) i 0 (by omega) (hw 0) (hreg 0).1 (hreg 0).2
  have h1 := addVoice_spec env s (s.channel_list 1) i
    (addVoice env s i 0 (s.channel_list 0)) (by rw [h0.1]; omega) (hw 1)
    (hreg 1).1 (hreg 1).2
  have h2 := addVoice_spec env s (s.channel_list 2) i
    (addVoice env s i (addVoice env s i 0 (s.channel_list 0)) (s.channel_list 1))
    (by rw [h1.1, h0.1]; omega) (hw 2) (hreg 2).1 (hreg 2).2
  have h3 := addVoice_spec env s (s.channel_list 3) i
    (addVoice env s i
      (addVoice env s i (addVoice env s i 0 (s.channel_list 0)) (s.channel_list 1))
      (s.channel_list 2))
    (by rw [h2.1, h1.1, h0.1]; omega) (hw 3) (hreg 3).1 (hreg 3).2
  have h4 := addVoice_spec env s (s.channel_list 4) i
    (addVoice env s i
      (addVoice env s i
        (addVoice env s i (addVoice env s i 0 (s.channel_list 0)) (s.channel_list 1))
        (s.channel_list 2))
      (s.channel_list 3))
    (by rw [h3.1, h2.1, h1.1, h0.1]; omega) (hw 4) (hreg 4).1 (hreg 4).2
  have e : mixEntry env s i = specMixValue env s i := by
    unfold mixEntry specMixValue
    simp only [List.foldl_cons, List.foldl_nil, List.map_cons, List.map_nil, List.sum_cons,
      List.sum_nil]
    rw [h4.1, h3.1, h2.1, h1.1, h0.1]
    ring
  refine ⟨e, ?_, ?_⟩
  · rw [e]
    unfold specMixValue
    simp only [List.map_cons, List.map_nil, List.sum_cons, List.sum_nil]
    omega
  · rw [e]
    unfold specMixValue
    simp only [List.map_cons, List.map_nil, List.sum_cons, List.sum_nil]
    omega

theorem mixValues_getElem (env : BurnEnv) (s : k051649_state) (n k : Nat)
    (hcap : n ≤ s.mixer_buffer.length) (hk : k < n) :
    (mixValues env s n)[k]? = some (mixEntry env s k) := by
  rw [mixValues_closed env s n hcap, List.getElem?_map, List.getElem?_range hk]
  rfl

theorem mixValues_mem (env : BurnEnv) (s : k051649_state) (n : Nat) (m : Int)
    (hcap : n ≤ s.mixer_buffer.length) (hm : m ∈ mixValues env s n) :
    ∃ k, k < n ∧ m = mixEntry env s k := by
  rw [mixValues_closed env s n hcap, List.mem_map] at hm
  obtain ⟨k, hk, e⟩ := hm
  exact ⟨k, List.mem_range.mp hk, e.symm⟩

/-- The sample read for a counter value is the waveform cell at bits 16..20. -/
theorem sampleAt_bits (w : Fin 32 → Int) (c : Int) :
    ∃ idx : Fin 32, ((idx : Nat) : Int) = c / 65536 % 32 ∧ sampleAt w c = w idx := by
  obtain ⟨k, hk, hv⟩ := waveIdx_waveOffs c
  exact ⟨k, by rw [hv, waveOffs_eq], sampleAt_of_idx w c k hk⟩

/-- For every chip state whose volumes are in 0..15 and keys 0 or 1 (with
`INT8` waveform cells), entry `k` of the mix buffer of a `K051649Update` call
is the sum, over the channels with frequency above 8, of
`floor(w * volume * key / 8)`, where `w` is the channel's waveform sample at
the index in bits 16..20 of its counter after `k + 1` additions of the step;
a channel with key 0 or volume 0 contributes 0. -/
theorem mixValue_of_invariant (env : BurnEnv) (s : k051649_state) (n k : Nat)
    (hcap : n ≤ s.mixer_buffer.length) (hk : k < n)
    (hreg : RegistersInRange s) (hw : WaveformsInt8 s) :
    (mixValues env s n)[k]? = some (specMixValue env s k) ∧
    (∀ j : Fin 5, (s.channel_list j).key = 0 ∨ (s.channel_list j).volume = 0 →
      specVoiceTerm env s (s.channel_list j) k = 0) ∧
    (∀ (j : Fin 5) (c : Int), ∃ idx : Fin 32, ((idx : Nat) : Int) = c / 65536 % 32 ∧
      sampleAt (s.channel_list j).waveform c = (s.channel_list j).waveform idx) := by
  refine ⟨?_, ?_, fun j c => sampleAt_bits _ c⟩
  · rw [mixValues_getElem env s n k hcap hk, (mixEntry_spec env s k hreg hw).1]
  · intro j hz
    unfold specVoiceTerm
    split
    · rcases hz with h | h <;> rw [h] <;> simp
    · rfl

/-- The register invariant is needed for the sum: with 60000 in the volume
field of channel 1 (a value the `INT32` field holds but no sequence of calls
stores, see `runCalls_inRange`) the sum for sample 0 is 37500, while the
`INT16` mix buffer holds -28036. -/
theorem mix_value_wraps_out_of_range :
    ((chipWithVolume 60000).channel_list 1).frequency = 300 ∧
    specMixValue exampleEnv (chipWithVolume 60000) 0 = 37500 ∧
    (mixValues exampleEnv (chipWithVolume 60000) 1)[0]? = some (-28036) ∧
    (mixValues exampleEnv (chipWithVolume 60000) 1)[0]? ≠
      some (specMixValue exampleEnv (chipWithVolume 60000) 0) := by
  decide

/-- C20: for every chip state whose volumes are in 0..15 and keys 0 or 1, with
`INT8` waveform cells and arbitrary frequencies and counters, every mix-buffer
entry a `K051649Update` call computes lies in -1200..1190, so it is an
`INT16` value reached without wraparound (it is the unwrapped sum of the
channels' terms) and an index in -1279..1279 at which the table built by
`make_mixer_table(5)` holds the entry its fill loop wrote. -/
theorem mix_values_index_mixer_table (env : BurnEnv) (s : k051649_state) (n : Nat)
    (hcap : n ≤ s.mixer_buffer.length) (hreg : RegistersInRange s) (hw : WaveformsInt8 s) :
    ∃ st, make_mixer_table env s 5 = some st ∧ st.channel_list = s.channel_list ∧
      mixValues env st n = mixValues env s n ∧
      (∀ k, k < n → (mixValues env s n)[k]? = some (specMixValue env s k)) ∧
      ∀ m ∈ mixValues env s n,
        (-1200 ≤ m ∧ m ≤ 1190) ∧ isInt16 m ∧ (-1279 ≤ m ∧ m ≤ 1279) ∧
        mixerLookup st m = some (if 0 ≤ m then m * 128 / 5 else -(-m * 128 / 5)) := by
  obtain ⟨t, ht, -, hcell⟩ := make_mixer_table_five env s
  have hcell2 : ∀ p, p < 2560 →
      t[p]? = some (if 0 < p then mixerCell p else env.heap 0) := by
    intro p hp
    rw [hcell p hp]
    by_cases h0 : 0 < p
    · rw [if_pos h0, if_pos h0]
    · have : p = 0 := by omega
      subst this
      rfl
  refine ⟨{ s with mixer_table := t, mixer_lookup := 1280 }, ht, rfl, ?_, ?_, ?_⟩
  · rw [mixValues_closed env s n hcap,
      mixValues_closed env { s with mixer_table := t, mixer_lookup := 1280 } n hcap]
    rfl
  · intro k hk
    rw [mixValues_getElem env s n k hcap hk, (mixEntry_spec env s k hreg hw).1]
  · intro m hm
    obtain ⟨k, -, rfl⟩ := mixValues_mem env s n m hcap hm
    obtain ⟨-, hlo, hhi⟩ := mixEntry_spec env s k hreg hw
    refine ⟨⟨hlo, hhi⟩, ?_, ⟨by omega, by omega⟩, ?_⟩
    · unfold isInt16; omega
    · exact mixerLookup_written { s with mixer_table := t, mixer_lookup := 1280 }
        (env.heap 0) _ rfl hcell2 ⟨by omega, by omega⟩

/-- Witness of C20: four samples of the example chip. -/
theorem mix_values_index_mixer_table_witness :
    (4 ≤ exampleChip.mixer_buffer.length ∧ RegistersInRange exampleChip ∧
      WaveformsInt8 exampleChip) ∧
    ∃ st, make_mixer_table exampleEnv exampleChip 5 = some st ∧
      st.channel_list = exampleChip.channel_list ∧
      mixValues exampleEnv st 4 = mixValues exampleEnv exampleChip 4 ∧
      (∀ k, k < 4 → (mixValues exampleEnv exampleChip 4)[k]? =
        some (specMixValue exampleEnv exampleChip k)) ∧
      ∀ m ∈ mixValues exampleEnv exampleChip 4,
        (-1200 ≤ m ∧ m ≤ 1190) ∧ isInt16 m ∧ (-1279 ≤ m ∧ m ≤ 1279) ∧
        mixerLookup st m = some (if 0 ≤ m then m * 128 / 5 else -(-m * 128 / 5)) :=
  ⟨⟨by decide, by decide, by decide⟩,
    mix_values_index_mixer_table exampleEnv exampleChip 4 (by decide) (by decide) (by decide)⟩

/-! ## The phase counter -/

/-- The working counter after `k` samples is the 32-bit wrap of the stored
counter plus `k` steps. -/
theorem voiceCounter_wrap (env : BurnEnv) (s : k051649_state)
    (voice : k051649_sound_channel) (k : Nat) :
    voiceCounter env s voice k =
      toInt32 ((voice.counter : Int) + (k : Int) * voiceStepSize env s voice) := by
  have h1 := voiceCounter_emod env s voice k
  have h2 := voiceCounter_isInt32 env s voice k
  unfold isInt32 at h2
  unfold toInt32
  omega

/-- C18, as the code has it: for a channel with frequency above 8, stored
counter `c`, step `s` and sample count `n`, the counter `K051649Update`
persists is the 64-bit sign extension of the 32-bit wrap of `c + n * s`: it
agrees with `c + n * s` modulo `2 ^ 32`, and it is `c + n * s` itself (so not
below `c`) when `s >= 0` and `c + n * s` does not exceed 2147483647. -/
theorem persisted_counter_is_wrapped (env : BurnEnv) (s : k051649_state) (n : Nat)
    (j : Fin 5) (hcap : n ≤ s.mixer_buffer.length)
    (hf : (s.channel_list j).frequency > 8) :
    ∃ s1, generate env s n = some s1 ∧
      (s1.channel_list j).counter =
        toUInt64 (toInt32 (((s.channel_list j).counter : Int) +
          (n : Int) * voiceStepSize env s (s.channel_list j))) ∧
      ((s1.channel_list j).counter : Int) % 4294967296 =
        (((s.channel_list j).counter : Int) +
          (n : Int) * voiceStepSize env s (s.channel_list j)) % 4294967296 ∧
      (0 ≤ voiceStepSize env s (s.channel_list j) →
        ((s.channel_list j).counter : Int) +
          (n : Int) * voiceStepSize env s (s.channel_list j) ≤ 2147483647 →
        ((s1.channel_list j).counter : Int) = ((s.channel_list j).counter : Int) +
          (n : Int) * voiceStepSize env s (s.channel_list j) ∧
        (s.channel_list j).counter ≤ (s1.channel_list j).counter) := by
  obtain ⟨s1, hs1, hv, -⟩ := generate_closed env s n hcap
  have hc : (s1.channel_list j).counter =
      toUInt64 (toInt32 (((s.channel_list j).counter : Int) +
        (n : Int) * voiceStepSize env s (s.channel_list j))) := by
    rw [hv j]
    unfold advanceVoice
    rw [if_pos hf, voiceCounter_wrap]
  refine ⟨s1, hs1, hc, ?_, ?_⟩
  · rw [hc]
    unfold toUInt64 toInt32
    omega
  · intro hstep hle
    have hm : 0 ≤ (n : Int) * voiceStepSize env s (s.channel_list j) :=
      mul_nonneg (by omega) hstep
    rw [hc]
    unfold toUInt64 toInt32
    constructor <;> omega

/-- Witness of C18 as amended: channel 1 of the example chip, two samples. -/
theorem persisted_counter_is_wrapped_witness :
    (2 ≤ exampleChip.mixer_buffer.length ∧ (exampleChip.channel_list 1).frequency > 8) ∧
    ∃ s1, generate exampleEnv exampleChip 2 = some s1 ∧
      (s1.channel_list 1).counter =
        toUInt64 (toInt32 (((exampleChip.channel_list 1).counter : Int) +
          (2 : Nat) * voiceStepSize exampleEnv exampleChip (exampleChip.channel_list 1))) ∧
      ((s1.channel_list 1).counter : Int) % 4294967296 =
        (((exampleChip.channel_list 1).counter : Int) +
          (2 : Nat) * voiceStepSize exampleEnv exampleChip (exampleChip.channel_list 1))
            % 4294967296 ∧
      (0 ≤ voiceStepSize exampleEnv exampleChip (exampleChip.channel_list 1) →
        ((exampleChip.channel_list 1).counter : Int) +
          (2 : Nat) * voiceStepSize exampleEnv exampleChip (exampleChip.channel_list 1)
            ≤ 2147483647 →
        ((s1.channel_list 1).counter : Int) = ((exampleChip.channel_list 1).counter : Int) +
          (2 : Nat) * voiceStepSize exampleEnv exampleChip (exampleChip.channel_list 1) ∧
        (exampleChip.channel_list 1).counter ≤ (s1.channel_list 1).counter) :=
  ⟨⟨by decide, by decide⟩,
    persisted_counter_is_wrapped exampleEnv exampleChip 2 1 (by decide) (by decide)⟩

/-- Counterexample to C18 as stated: with stored counter 0x7FFF0000 and step
196608 one sample leaves 0xFFFFFFFF80020000, not 0x7FFF0000 + 196608 =
0x80020000; and with stored counter 0xFFFFFFFFFFFF0000 one sample leaves
131072, a smaller value. -/
theorem persisted_counter_not_64_bit_sum :
    ((chipWithCounter 0x7FFF0000).channel_list 1).frequency > 8 ∧
    voiceStepSize exampleEnv (chipWithCounter 0x7FFF0000)
      ((chipWithCounter 0x7FFF0000).channel_list 1) = 196608 ∧
    (generate exampleEnv (chipWithCounter 0x7FFF0000) 1).map
      (fun s1 => (s1.channel_list 1).counter) = some 0xFFFFFFFF80020000 ∧
    (0x7FFF0000 + 1 * 196608) % 18446744073709551616 = 0x80020000 ∧
    (generate exampleEnv (chipWithCounter 0x7FFF0000) 1).map
      (fun s1 => (s1.channel_list 1).counter) ≠
        some ((0x7FFF0000 + 1 * 196608) % 18446744073709551616) ∧
    (generate exampleEnv (chipWithCounter 0xFFFFFFFFFFFF0000) 1).map
      (fun s1 => (s1.channel_list 1).counter) = some 131072 := by
  decide

/-- The waveform index of the working counter after `k` steps is bits 16..20
of the start value plus `k` steps. -/
theorem waveOffs_workCounter (step : Int) (k : Nat) (c : Int) :
    waveOffs (workCounter step k c) = (c + (k : Int) * step) / 65536 % 32 := by
  rw [← waveOffs_eq]
  apply waveOffs_congr
  exact workCounter_emod step k c

/-- With a step of one waveform sample the index advances by `i` in `i` samples. -/
theorem waveOffs_unit_step (k i : Nat) (c : Int) :
    waveOffs (workCounter 65536 (k + i) c) = (waveOffs (workCounter 65536 k c) + i) % 32 := by
  rw [waveOffs_workCounter, waveOffs_workCounter]
  push_cast
  omega

/-- C19: for every starting counter, the index used for the `k`-th sample of a
run (the working counter after `k` additions, across any 32-bit wraparound) is
bits 16..20 of the starting counter plus `k` steps, whether the start is the
working counter or the stored 64-bit counter it was loaded from; when the step
is exactly `2 ^ 16`, the index of sample `k + 1` is the index of sample `k`
plus 1 modulo 32, and 32 consecutive samples use 32 different indices, each
index of 0..31 once; the inner loop of `K051649Update` reads the waveform at
these indices. -/
theorem waveform_indices_cycle (w : Fin 32 → Int) (v step : Int) (counter : Nat) (n : Nat)
    (mix : List Int) (hlen : n ≤ mix.length) :
    (∀ (k : Nat) (c : Int),
      waveOffs (workCounter step k c) = (c + (k : Int) * step) / 65536 % 32) ∧
    (∀ k : Nat, waveOffs (workCounter step k (ofBits32 (counter % 4294967296))) =
      ((counter : Int) + (k : Int) * step) / 65536 % 32) ∧
    (∀ (k : Nat) (c : Int), waveOffs (workCounter 65536 (k + 1) c) =
      (waveOffs (workCounter 65536 k c) + 1) % 32) ∧
    (∀ (k : Nat) (c : Int) (idx : Int), 0 ≤ idx ∧ idx ≤ 31 →
      ∃ i, i < 32 ∧ waveOffs (workCounter 65536 (k + i) c) = idx ∧
        ∀ i2, i2 < 32 → waveOffs (workCounter 65536 (k + i2) c) = idx → i2 = i) ∧
    (∃ r, addContribution w v step n (ofBits32 (counter % 4294967296)) mix = some r ∧
      ∀ i, i < n → r.2.getD i 0 =
        toInt16 (add32 (mix.getD i 0)
          (sar (mul32 (sampleAt w
            (workCounter step (i + 1) (ofBits32 (counter % 4294967296)))) v) 3))) := by
  refine ⟨fun k c => waveOffs_workCounter step k c, ?_, ?_, ?_, ?_⟩
  · intro k
    rw [← waveOffs_eq]
    apply waveOffs_congr
    rw [workCounter_emod]
    have : ofBits32 (counter % 4294967296) % 4294967296 = (counter : Int) % 4294967296 := by
      unfold ofBits32
      split <;> omega
    omega
  · intro k c
    have := waveOffs_unit_step k 1 c
    simpa using this
  · intro k c idx hidx
    have hb := waveOffs_range (workCounter 65536 k c)
    refine ⟨((idx - waveOffs (workCounter 65536 k c)) % 32).toNat, by omega, ?_, ?_⟩
    · rw [waveOffs_unit_step]
      omega
    · intro i2 hi2 h2
      rw [waveOffs_unit_step] at h2
      omega
  · obtain ⟨r, hr, -, -, hcell⟩ := addContribution_closed w v step n
      (ofBits32 (counter % 4294967296)) mix hlen
    refine ⟨r, hr, ?_⟩
    intro i hi
    rw [hcell i, if_pos hi]

/-- Witness of C19: a stored counter past `2 ^ 32`, two samples. -/
theorem waveform_indices_cycle_witness :
    (2 ≤ [5, 6, 7].length) ∧
    ((∀ (k : Nat) (c : Int),
      waveOffs (workCounter 65536 k c) = (c + (k : Int) * 65536) / 65536 % 32) ∧
    (∀ k : Nat, waveOffs (workCounter 65536 k (ofBits32 (0x1FFFF0000 % 4294967296))) =
      (((0x1FFFF0000 : Nat) : Int) + (k : Int) * 65536) / 65536 % 32) ∧
    (∀ (k : Nat) (c : Int), waveOffs (workCounter 65536 (k + 1) c) =
      (waveOffs (workCounter 65536 k c) + 1) % 32) ∧
    (∀ (k : Nat) (c : Int) (idx : Int), 0 ≤ idx ∧ idx ≤ 31 →
      ∃ i, i < 32 ∧ waveOffs (workCounter 65536 (k + i) c) = idx ∧
        ∀ i2, i2 < 32 → waveOffs (workCounter 65536 (k + i2) c) = idx → i2 = i) ∧
    (∃ r, addContribution (fun _ => -128) 15 65536 2
        (ofBits32 (0x1FFFF0000 % 4294967296)) [5, 6, 7] = some r ∧
      ∀ i, i < 2 → r.2.getD i 0 =
        toInt16 (add32 (([5, 6, 7] : List Int).getD i 0)
          (sar (mul32 (sampleAt (fun _ => -128)
            (workCounter 65536 (i + 1) (ofBits32 (0x1FFFF0000 % 4294967296)))) 15) 3)))) :=
  ⟨by decide, waveform_indices_cycle (fun _ => -128) 15 65536 0x1FFFF0000 2 [5, 6, 7]
    (by decide)⟩

/-! ## Register invariants -/

/-- A single-bit mask selects the bit: the key expression `(data & bit) ? 1 : 0`
is bit `i` of `data`. -/
theorem key_bit (data : Int) (i : Nat) (hi : i < 5) :
    (if cand data ((2 ^ i : Nat) : Int) ≠ 0 then (1 : Int) else 0) =
      data / ((2 ^ i : Nat) : Int) % 2 := by
  have hb : bits32 ((2 ^ i : Nat) : Int) = 2 ^ i := by
    rw [bits32_natCast]
    apply Nat.mod_eq_of_lt
    interval_cases i <;> decide
  have hv : ((bits32 data / 2 ^ i % 2 : Nat) : Int) = data / ((2 ^ i : Nat) : Int) % 2 := by
    unfold bits32
    interval_cases i <;> omega
  unfold cand
  rw [hb, Nat.and_two_pow, Nat.toNat_testBit, ← hv]
  have h2 : bits32 data / 2 ^ i % 2 < 2 := Nat.mod_lt _ (by decide)
  have hlt : bits32 data / 2 ^ i % 2 * 2 ^ i < 2147483648 := by
    interval_cases i <;> omega
  rw [ofBits32_of_lt _ hlt]
  have hpos : 0 < 2 ^ i := Nat.pow_pos (by decide)
  by_cases h1 : bits32 data / 2 ^ i % 2 = 0
  · rw [h1]; simp
  · have h1' : bits32 data / 2 ^ i % 2 = 1 := by omega
    rw [h1']
    simp

/-- The effect of `K051649KeyonoffWrite`: key `i` becomes bit `i` of the data,
nothing else changes. -/
theorem keyonoff_effect (s : k051649_state) (data : Int) (i : Fin 5) :
    ((K051649KeyonoffWrite s data).channel_list i).key =
      data / ((2 ^ (i : Nat) : Nat) : Int) % 2 ∧
    ((K051649KeyonoffWrite s data).channel_list i).volume = (s.channel_list i).volume ∧
    ((K051649KeyonoffWrite s data).channel_list i).frequency = (s.channel_list i).frequency ∧
    ((K051649KeyonoffWrite s data).channel_list i).counter = (s.channel_list i).counter ∧
    ((K051649KeyonoffWrite s data).channel_list i).waveform = (s.channel_list i).waveform := by
  have k0 := key_bit data 0 (by decide)
  have k1 := key_bit data 1 (by decide)
  have k2 := key_bit data 2 (by decide)
  have k3 := key_bit data 3 (by decide)
  have k4 := key_bit data 4 (by decide)
  unfold K051649KeyonoffWrite
  fin_cases i
  · exact ⟨k0, rfl, rfl, rfl, rfl⟩
  · exact ⟨k1, rfl, rfl, rfl, rfl⟩
  · exact ⟨k2, rfl, rfl, rfl, rfl⟩
  · exact ⟨k3, rfl, rfl, rfl, rfl⟩
  · exact ⟨k4, rfl, rfl, rfl, rfl⟩

theorem chanIdx_of_range (x : Int) (h : 0 ≤ x ∧ x < 5) :
    ∃ ch : Fin 5, chanIdx x = some ch ∧ ((ch : Nat) : Int) = x := by
  refine ⟨⟨x.toNat, by omega⟩, dif_pos h, ?_⟩
  simp only; omega

/-- The effect of `K051649VolumeWrite` at an offset whose low three bits name
a channel: the volume of that channel becomes `data & 0xF`, nothing else
changes. -/
theorem volumeWrite_effect (s : k051649_state) (offset data : Int)
    (hoff : cand offset 0x7 ≤ 4) :
    ∃ s1 ch, K051649VolumeWrite s offset data = some s1 ∧
      chanIdx (cand offset 0x7) = some ch ∧ ((ch : Nat) : Int) = offset % 8 ∧
      (s1.channel_list ch).volume = cand data 0xf ∧ cand data 0xf = data % 16 ∧
      (s1.channel_list ch).key = (s.channel_list ch).key ∧
      (s1.channel_list ch).frequency = (s.channel_list ch).frequency ∧
      (s1.channel_list ch).counter = (s.channel_list ch).counter ∧
      (s1.channel_list ch).waveform = (s.channel_list ch).waveform ∧
      ∀ j, j ≠ ch → s1.channel_list j = s.channel_list j := by
  rw [cand_7] at hoff
  obtain ⟨ch, hch, hv⟩ := chanIdx_of_range (offset % 8) (by omega)
  have hsome : ∃ s1, K051649VolumeWrite s offset data = some s1 := by
    unfold K051649VolumeWrite
    rw [cand_7, hch]
    exact ⟨_, rfl⟩
  obtain ⟨s1, h1⟩ := hsome
  have h2 := h1
  unfold K051649VolumeWrite at h2
  rw [cand_7, hch] at h2
  simp only [Option.some.injEq] at h2
  subst h2
  refine ⟨_, ch, h1, by rw [cand_7]; exact hch, hv, ?_, cand_f data, ?_, ?_, ?_, ?_, ?_⟩
  · simp
  · simp
  · simp
  · simp
  · simp
  · intro j hj
    simp [Function.update_noteq hj]

/-- A successful `K051649VolumeWrite` keeps volumes and keys in range. -/
theorem volumeWrite_inRange (s s1 : k051649_state) (offset data : Int)
    (h : K051649VolumeWrite s offset data = some s1) (hs : RegistersInRange s) :
    RegistersInRange s1 := by
  unfold K051649VolumeWrite at h
  cases hc : chanIdx (cand offset 0x7) with
  | none => rw [hc] at h; cases h
  | some ch =>
    rw [hc] at h
    simp only [Option.some.injEq] at h
    subst h
    intro j
    by_cases hj : j = ch
    · subst hj
      simp only [Function.update_same]
      have := cand_f data
      exact ⟨by omega, (hs j).2⟩
    · simp only [Function.update_noteq hj]
      exact hs j

/-- A successful `K051649FrequencyWrite` keeps volumes and keys. -/
theorem frequencyWrite_inRange (s s1 : k051649_state) (offset data : Int)
    (h : K051649FrequencyWrite s offset data = some s1) (hs : RegistersInRange s) :
    RegistersInRange s1 := by
  unfold K051649FrequencyWrite at h
  cases hc : chanIdx (sar offset 1) with
  | none => rw [hc] at h; cases h
  | some ch =>
    rw [hc] at h
    simp only [Option.some.injEq] at h
    subst h
    intro j
    by_cases hj : j = ch
    · subst hj
      simp only [Function.update_same]
      have := hs j
      split <;> split <;> exact this
    · simp only [Function.update_noteq hj]
      exact hs j

theorem storeWave_inRange (s : k051649_state) (ch : Fin 5) (i : Fin 32) (d : Int)
    (hs : RegistersInRange s) : RegistersInRange (storeWave s ch i d) := by
  intro j
  obtain ⟨-, h2, h3, -⟩ := storeWave_registers s ch i d j
  rw [h2, h3]
  exact hs j

theorem waveformWrite_inRange (s s1 : k051649_state) (offset data : Int)
    (h : K051649WaveformWrite s offset data = some s1) (hs : RegistersInRange s) :
    RegistersInRange s1 := by
  unfold K051649WaveformWrite at h
  cases hc : chanIdx (sar offset 5) with
  | none => rw [hc] at h; cases h
  | some ch =>
    cases hi : waveIdx (cand offset 0x1f) with
    | none => rw [hc, hi] at h; cases h
    | some i =>
      rw [hc, hi] at h
      simp only at h
      split at h
      · cases h
        exact storeWave_inRange _ _ _ _ (storeWave_inRange _ _ _ _ hs)
      · cases h
        exact storeWave_inRange _ _ _ _ hs

theorem waveformWriteK052539_inRange (s s1 : k051649_state) (offset data : Int)
    (h : K052539WaveformWrite s offset data = some s1) (hs : RegistersInRange s) :
    RegistersInRange s1 := by
  unfold K052539WaveformWrite at h
  cases hc : chanIdx (sar offset 5) with
  | none => rw [hc] at h; cases h
  | some ch =>
    cases hi : waveIdx (cand offset 0x1f) with
    | none => rw [hc, hi] at h; cases h
    | some i =>
      rw [hc, hi] at h
      cases h
      exact storeWave_inRange _ _ _ _ hs

theorem keyonoffWrite_inRange (s : k051649_state) (data : Int) (hs : RegistersInRange s) :
    RegistersInRange (K051649KeyonoffWrite s data) := by
  intro j
  obtain ⟨hk, hv, -⟩ := keyonoff_effect s data j
  rw [hk, hv]
  exact ⟨(hs j).1, by omega⟩

theorem update_inRange (env : BurnEnv) (s : k051649_state) (pBuf : List Int) (n : Nat)
    (r : k051649_state × List Int) (h : K051649Update env s pBuf n = some r)
    (hs : RegistersInRange s) : RegistersInRange r.1 := by
  have hg := update_generate env s pBuf n r h
  have hcap : n ≤ s.mixer_buffer.length := by
    unfold generate at hg
    unfold memsetZero at hg
    by_contra hn
    rw [if_neg hn] at hg
    cases hg
  obtain ⟨s1, hs1, hinv, -⟩ := generate_total env s n hcap
  rw [hs1] at hg
  cases hg
  intro j
  obtain ⟨-, h2, h3, -⟩ := hinv.2 j
  rw [h2, h3]
  exact hs j

theorem reset_inRange (s : k051649_state) : RegistersInRange (K051649Reset s) := by
  intro j
  have h1 : ((K051649Reset s).channel_list j).volume = 0 := rfl
  have h2 : ((K051649Reset s).channel_list j).key = 0 := rfl
  rw [h1, h2]
  exact ⟨⟨by omega, by omega⟩, Or.inl rfl⟩

theorem applyCall_inRange (env : BurnEnv) (s s1 : k051649_state) (c : ChipCall)
    (h : applyCall env s c = some s1) (hs : RegistersInRange s) : RegistersInRange s1 := by
  cases c with
  | waveformWrite offset data => exact waveformWrite_inRange s s1 offset data h hs
  | waveformWriteK052539 offset data =>
    exact waveformWriteK052539_inRange s s1 offset data h hs
  | volumeWrite offset data => exact volumeWrite_inRange s s1 offset data h hs
  | frequencyWrite offset data => exact frequencyWrite_inRange s s1 offset data h hs
  | keyonoffWrite data =>
    simp only [applyCall, Option.some.injEq] at h
    subst h
    exact keyonoffWrite_inRange s data hs
  | update pBuf samples =>
    simp only [applyCall] at h
    cases hu : K051649Update env s pBuf samples with
    | none => rw [hu] at h; cases h
    | some r =>
      rw [hu] at h
      simp only [Option.map_some', Option.some.injEq] at h
      subst h
      exact update_inRange env s pBuf samples r hu hs

theorem runCalls_inRange (env : BurnEnv) (calls : List ChipCall) :
    ∀ s s1, runCalls env s calls = some s1 → RegistersInRange s → RegistersInRange s1 := by
  induction calls with
  | nil =>
    intro s s1 h hs
    simp only [runCalls, List.foldlM_nil] at h
    cases h
    exact hs
  | cons c cs ih =>
    intro s s1 h hs
    unfold runCalls at h
    rw [List.foldlM_cons] at h
    cases hc : applyCall env s c with
    | none => rw [hc] at h; cases h
    | some s2 =>
      rw [hc] at h
      exact ih s2 s1 h (applyCall_inRange env s s2 c hc hs)

/-- C12: in every state that a sequence of register writes and synthesis calls
reaches from `K051649Reset` (the sequence succeeds, so its offsets are in
range; data values are arbitrary), every volume is in 0..15 and every key is
0 or 1; `K051649VolumeWrite(offset, data)` sets the volume of channel
`offset & 7` to `data & 0xF`, and `K051649KeyonoffWrite(data)` sets the key of
channel `i` to bit `i` of `data`. -/
theorem volume_and_key_in_range (env : BurnEnv) (s0 s : k051649_state)
    (calls : List ChipCall) (offset data : Int)
    (hrun : runCalls env (K051649Reset s0) calls = some s) (hoff : cand offset 0x7 ≤ 4) :
    (∀ j : Fin 5, (0 ≤ (s.channel_list j).volume ∧ (s.channel_list j).volume ≤ 15) ∧
      ((s.channel_list j).key = 0 ∨ (s.channel_list j).key = 1)) ∧
    (∃ s1 ch, K051649VolumeWrite s offset data = some s1 ∧
      chanIdx (cand offset 0x7) = some ch ∧
      (s1.channel_list ch).volume = cand data 0xF ∧
      0 ≤ cand data 0xF ∧ cand data 0xF ≤ 15) ∧
    (∀ i : Fin 5, ((K051649KeyonoffWrite s data).channel_list i).key =
      data / ((2 ^ (i : Nat) : Nat) : Int) % 2) := by
  refine ⟨runCalls_inRange env calls _ s hrun (reset_inRange s0), ?_, ?_⟩
  · obtain ⟨s1, ch, h1, h2, -, h4, h5, -⟩ := volumeWrite_effect s offset data hoff
    refine ⟨s1, ch, h1, h2, h4, ?_, ?_⟩
    · have : cand data 0xF = data % 16 := h5
      omega
    · have : cand data 0xF = data % 16 := h5
      omega
  · intro i
    exact (keyonoff_effect s data i).1

/-- Witness of C12: the example calls, then a volume write at offset 9 (channel
1) with data 0x1F3. -/
theorem volume_and_key_in_range_witness :
    (runCalls exampleEnv (K051649Reset exampleChip) exampleCalls = some exampleRun ∧
      cand 9 0x7 ≤ 4) ∧
    ((∀ j : Fin 5, (0 ≤ (exampleRun.channel_list j).volume ∧
        (exampleRun.channel_list j).volume ≤ 15) ∧
      ((exampleRun.channel_list j).key = 0 ∨ (exampleRun.channel_list j).key = 1)) ∧
    (∃ s1 ch, K051649VolumeWrite exampleRun 9 0x1F3 = some s1 ∧
      chanIdx (cand 9 0x7) = some ch ∧
      (s1.channel_list ch).volume = cand 0x1F3 0xF ∧
      0 ≤ cand 0x1F3 0xF ∧ cand 0x1F3 0xF ≤ 15) ∧
    (∀ i : Fin 5, ((K051649KeyonoffWrite exampleRun 0x1F3).channel_list i).key =
      (0x1F3 : Int) / ((2 ^ (i : Nat) : Nat) : Int) % 2)) :=
  ⟨⟨rfl, by decide⟩,
    volume_and_key_in_range exampleEnv exampleChip exampleRun exampleCalls 9 0x1F3 rfl
      (by decide)⟩

/-! ## Use before initialisation, unmasked data and offsets -/

/-- C13, as the code has it: when the initialisation flag is unset,
`K051649Exit` returns leaving the chip as it is; the register writes and
`K051649Reset` do not test the flag, they act on the chip exactly as they do
when it is set. -/
theorem uninitialised_exit_only (s : k051649_state) (offset data : Int)
    (h : s.DebugSnd_K051649Initted = false) :
    K051649Exit s = s ∧
    K051649WaveformWrite s offset data =
      (K051649WaveformWrite { s with DebugSnd_K051649Initted := true } offset data).map
        (fun s1 => { s1 with DebugSnd_K051649Initted := false }) ∧
    K052539WaveformWrite s offset data =
      (K052539WaveformWrite { s with DebugSnd_K051649Initted := true } offset data).map
        (fun s1 => { s1 with DebugSnd_K051649Initted := false }) ∧
    K051649VolumeWrite s offset data =
      (K051649VolumeWrite { s with DebugSnd_K051649Initted := true } offset data).map
        (fun s1 => { s1 with DebugSnd_K051649Initted := false }) ∧
    K051649FrequencyWrite s offset data =
      (K051649FrequencyWrite { s with DebugSnd_K051649Initted := true } offset data).map
        (fun s1 => { s1 with DebugSnd_K051649Initted := false }) ∧
    K051649KeyonoffWrite s data =
      { K051649KeyonoffWrite { s with DebugSnd_K051649Initted := true } data with
        DebugSnd_K051649Initted := false } ∧
    K051649Reset s =
      { K051649Reset { s with DebugSnd_K051649Initted := true } with
        DebugSnd_K051649Initted := false } := by
  cases s with
  | mk channel_list mclock rate gain output_dir mixer_table mixer_lookup mixer_buffer
      nUpdateStep flag =>
    simp only at h
    subst h
    refine ⟨?_, ?_, ?_, ?_, ?_, rfl, rfl⟩
    · unfold K051649Exit
      simp
    · unfold K051649WaveformWrite
      cases chanIdx (sar offset 5) with
      | none => rfl
      | some ch =>
        cases waveIdx (cand offset 0x1f) with
        | none => rfl
        | some i =>
          simp only
          split <;> rfl
    · unfold K052539WaveformWrite
      cases chanIdx (sar offset 5) with
      | none => rfl
      | some ch =>
        cases waveIdx (cand offset 0x1f) with
        | none => rfl
        | some i => rfl
    · unfold K051649VolumeWrite
      cases chanIdx (cand offset 0x7) with
      | none => rfl
      | some ch => rfl
    · unfold K051649FrequencyWrite
      cases chanIdx (sar offset 1) with
      | none => rfl
      | some ch => rfl

/-- Witness of C13 as amended: the example chip with the flag unset. -/
theorem uninitialised_exit_only_witness :
    (exampleUninitChip.DebugSnd_K051649Initted = false) ∧
    (K051649Exit exampleUninitChip = exampleUninitChip ∧
    K051649WaveformWrite exampleUninitChip 100 7 =
      (K051649WaveformWrite { exampleUninitChip with DebugSnd_K051649Initted := true }
        100 7).map (fun s1 => { s1 with DebugSnd_K051649Initted := false }) ∧
    K052539WaveformWrite exampleUninitChip 100 7 =
      (K052539WaveformWrite { exampleUninitChip with DebugSnd_K051649Initted := true }
        100 7).map (fun s1 => { s1 with DebugSnd_K051649Initted := false }) ∧
    K051649VolumeWrite exampleUninitChip 100 7 =
      (K051649VolumeWrite { exampleUninitChip with DebugSnd_K051649Initted := true }
        100 7).map (fun s1 => { s1 with DebugSnd_K051649Initted := false }) ∧
    K051649FrequencyWrite exampleUninitChip 100 7 =
      (K051649FrequencyWrite { exampleUninitChip with DebugSnd_K051649Initted := true }
        100 7).map (fun s1 => { s1 with DebugSnd_K051649Initted := false }) ∧
    K051649KeyonoffWrite exampleUninitChip 7 =
      { K051649KeyonoffWrite { exampleUninitChip with DebugSnd_K051649Initted := true } 7 with
        DebugSnd_K051649Initted := false } ∧
    K051649Reset exampleUninitChip =
      { K051649Reset { exampleUninitChip with DebugSnd_K051649Initted := true } with
        DebugSnd_K051649Initted := false }) :=
  ⟨by decide, uninitialised_exit_only exampleUninitChip 100 7 (by decide)⟩

/-- Counterexample to C13 as stated: with the flag unset,
`K051649VolumeWrite(0, 9)` changes the volume of channel 0 from 0 to 9,
`K051649FrequencyWrite(2, 0x34)` changes the frequency of channel 1 from 300
to 308, and `K051649Reset` clears that frequency. -/
theorem uninitialised_writes_take_effect :
    exampleUninitChip.DebugSnd_K051649Initted = false ∧
    (exampleUninitChip.channel_list 0).volume = 0 ∧
    (K051649VolumeWrite exampleUninitChip 0 9).map (fun s => (s.channel_list 0).volume)
      = some 9 ∧
    (exampleUninitChip.channel_list 1).frequency = 300 ∧
    (K051649FrequencyWrite exampleUninitChip 2 0x34).map
      (fun s => (s.channel_list 1).frequency) = some 308 ∧
    ((K051649Reset exampleUninitChip).channel_list 1).frequency = 0 := by
  decide

/-- Counterexample to C14 as stated: after `K051649Reset`, the low-byte write
`K051649FrequencyWrite(0, 0x1234)` leaves frequency 0x1234 in channel 0, above
4095, and `K051649FrequencyWrite(0, -1)` leaves -1: the low-byte branch ORs
`data` in as given. The high-nibble branch masks its data:
`K051649FrequencyWrite(1, 0x1234)` leaves 0x400. -/
theorem frequency_low_byte_not_masked :
    (K051649FrequencyWrite (K051649Reset exampleChip) 0 0x1234).map
      (fun s => (s.channel_list 0).frequency) = some 0x1234 ∧
    ¬ ((0x1234 : Int) ≤ 4095) ∧
    (K051649FrequencyWrite (K051649Reset exampleChip) 0 (-1)).map
      (fun s => (s.channel_list 0).frequency) = some (-1) ∧
    (K051649FrequencyWrite (K051649Reset exampleChip) 1 0x1234).map
      (fun s => (s.channel_list 0).frequency) = some 0x400 := by
  decide

/-- Counterexample to C15 as stated: after `K051649Reset`,
`K051649WaveformWrite(128, 5)` stores 5 in sample 0 of channel 4 and leaves
sample 0 of channel 3 at 0, so the two waveforms differ; a write at offset 96
stores its sample in both channels. -/
theorem waveform_write_high_range_not_shared :
    (K051649WaveformWrite (K051649Reset exampleChip) 128 5).map
      (fun s => ((s.channel_list 3).waveform 0, (s.channel_list 4).waveform 0))
        = some (0, 5) ∧
    (K051649WaveformWrite (K051649Reset exampleChip) 96 5).map
      (fun s => ((s.channel_list 3).waveform 0, (s.channel_list 4).waveform 0))
        = some (5, 5) := by
  decide

/-- C16, as the code has it: the sample index `offset & 0x1f` is in 0..31 for
every integer offset; the channel index is one of the five channels, and the
call succeeds, for waveform offsets 0..159 (`offset >> 5`), frequency offsets
0..9 (`offset >> 1`) and volume offsets whose low three bits are at most 4
(`offset & 7`). -/
theorem register_indices_on_documented_ranges (s : k051649_state)
    (offW offF offV data : Int) (hw : 0 ≤ offW ∧ offW ≤ 159)
    (hf : 0 ≤ offF ∧ offF ≤ 9) (hv : cand offV 0x7 ≤ 4) :
    (∀ offset : Int, 0 ≤ cand offset 0x1f ∧ cand offset 0x1f ≤ 31 ∧
      (waveIdx (cand offset 0x1f)).isSome = true) ∧
    ((chanIdx (sar offW 5)).isSome = true ∧
      (K051649WaveformWrite s offW data).isSome = true ∧
      (K052539WaveformWrite s offW data).isSome = true ∧
      (K051649WaveformRead s offW).isSome = true) ∧
    ((chanIdx (sar offF 1)).isSome = true ∧
      (K051649FrequencyWrite s offF data).isSome = true) ∧
    ((chanIdx (cand offV 0x7)).isSome = true ∧
      (K051649VolumeWrite s offV data).isSome = true) := by
  refine ⟨?_, ?_, ?_, ?_⟩
  · intro offset
    have h := cand_1f offset
    obtain ⟨k, hk, -⟩ := waveIdx_of_range (offset % 32) (by omega)
    rw [h, hk]
    exact ⟨by omega, by omega, rfl⟩
  · obtain ⟨ch, i, e1, e2, -⟩ := waveform_indices offW hw
    refine ⟨by rw [e1]; rfl, ?_, ?_, ?_⟩
    · unfold K051649WaveformWrite
      rw [e1, e2]
      simp only
      split <;> rfl
    · unfold K052539WaveformWrite
      rw [e1, e2]
      rfl
    · unfold K051649WaveformRead
      rw [e1, e2]
      rfl
  · have h1 : sar offF 1 = offF / 2 := by rw [sar_eq_div]; norm_num
    obtain ⟨ch, hch, -⟩ := chanIdx_of_range (offF / 2) (by omega)
    refine ⟨by rw [h1, hch]; rfl, ?_⟩
    unfold K051649FrequencyWrite
    rw [h1, hch]
    rfl
  · obtain ⟨s1, ch, h1, h2, -⟩ := volumeWrite_effect s offV data hv
    exact ⟨by rw [h2]; rfl, by rw [h1]; rfl⟩

/-- Witness of C16 as amended: waveform offset 159, frequency offset 9, volume
offset 0x8C. -/
theorem register_indices_on_documented_ranges_witness :
    ((0 ≤ (159 : Int) ∧ (159 : Int) ≤ 159) ∧ (0 ≤ (9 : Int) ∧ (9 : Int) ≤ 9) ∧
      cand 0x8C 0x7 ≤ 4) ∧
    ((∀ offset : Int, 0 ≤ cand offset 0x1f ∧ cand offset 0x1f ≤ 31 ∧
      (waveIdx (cand offset 0x1f)).isSome = true) ∧
    ((chanIdx (sar 159 5)).isSome = true ∧
      (K051649WaveformWrite exampleChip 159 77).isSome = true ∧
      (K052539WaveformWrite exampleChip 159 77).isSome = true ∧
      (K051649WaveformRead exampleChip 159).isSome = true) ∧
    ((chanIdx (sar 9 1)).isSome = true ∧
      (K051649FrequencyWrite exampleChip 9 77).isSome = true) ∧
    ((chanIdx (cand 0x8C 0x7)).isSome = true ∧
      (K051649VolumeWrite exampleChip 0x8C 77).isSome = true)) :=
  ⟨⟨by decide, by decide, by decide⟩,
    register_indices_on_documented_ranges exampleChip 159 9 0x8C 77 (by decide) (by decide)
      (by decide)⟩

/-- Counterexample to C16 as stated: `offset & 7` is 5 at offset 5,
`offset >> 5` is 5 at offset 160 and -1 at offset -1, `offset >> 1` is 5 at
offset 10; none of them is a channel, and the calls leave the channel array. -/
theorem register_indices_leave_the_array :
    cand 5 0x7 = 5 ∧ (chanIdx (cand 5 0x7)).isSome = false ∧
    (K051649VolumeWrite exampleChip 5 0).isSome = false ∧
    sar 160 5 = 5 ∧ (chanIdx (sar 160 5)).isSome = false ∧
    (K051649WaveformWrite exampleChip 160 0).isSome = false ∧
    (K052539WaveformWrite exampleChip 160 0).isSome = false ∧
    (K051649WaveformRead exampleChip 160).isSome = false ∧
    sar (-1) 5 = -1 ∧ (K051649WaveformWrite exampleChip (-1) 0).isSome = false ∧
    sar 10 1 = 5 ∧ (chanIdx (sar 10 1)).isSome = false ∧
    (K051649FrequencyWrite exampleChip 10 0).isSome = false := by
  decide

/-! ## The frequency register for byte data -/

/-- The high-nibble branch of `K051649FrequencyWrite` yields a 12-bit value
for every data value: the data is masked by `0xf00`. -/
theorem freq_high_nibble_range (f data : Int) :
    0 ≤ cor (cand f 0x0ff) (cand (shl data 8) 0xf00) ∧
    cor (cand f 0x0ff) (cand (shl data 8) 0xf00) ≤ 4095 := by
  rw [cor_eq]
  simp only [bits32_cand, bits32_lit_f00, bits32_lit_ff]
  rw [nat_and_ff, nat_and_f00, Nat.lor_comm, Nat.mul_comm,
    nat_or_aligned _ _ (Nat.mod_lt _ (by decide))]
  have h1 : bits32 (shl data 8) / 256 % 16 < 16 := Nat.mod_lt _ (by decide)
  have h2 : bits32 f % 256 < 256 := Nat.mod_lt _ (by decide)
  rw [ofBits32_of_lt _ (by omega)]
  omega

/-- The low-byte branch of `K051649FrequencyWrite` yields a 12-bit value when
the data is a byte. -/
theorem freq_low_byte_range (f data : Int) (hd : 0 ≤ data ∧ data ≤ 255) :
    0 ≤ cor (cand f 0xf00) data ∧ cor (cand f 0xf00) data ≤ 4095 := by
  rw [cor_eq]
  simp only [bits32_cand, bits32_lit_f00]
  have hb : bits32 data = data.toNat := by unfold bits32; omega
  have hlt : data.toNat < 256 := by omega
  rw [hb, nat_and_f00, Nat.mul_comm, nat_or_aligned _ _ hlt]
  have h1 : bits32 f / 256 % 16 < 16 := Nat.mod_lt _ (by decide)
  rw [ofBits32_of_lt _ (by omega)]
  omega

/-- A frequency write at an offset in 0..9, with byte data when the offset is
even, succeeds and keeps every frequency in 0..4095. -/
theorem frequencyWrite_12_bit (s : k051649_state) (offset data : Int)
    (hoff : 0 ≤ offset ∧ offset ≤ 9) (hd : offset % 2 = 0 → 0 ≤ data ∧ data ≤ 255)
    (hs : ∀ j : Fin 5, 0 ≤ (s.channel_list j).frequency ∧ (s.channel_list j).frequency ≤ 4095) :
    ∃ s1, K051649FrequencyWrite s offset data = some s1 ∧
      ∀ j : Fin 5, 0 ≤ (s1.channel_list j).frequency ∧
        (s1.channel_list j).frequency ≤ 4095 := by
  have h1 : sar offset 1 = offset / 2 := by rw [sar_eq_div]; norm_num
  obtain ⟨ch, hch, -⟩ := chanIdx_of_range (offset / 2) (by omega)
  have hsome : ∃ s1, K051649FrequencyWrite s offset data = some s1 := by
    unfold K051649FrequencyWrite
    rw [h1, hch]
    exact ⟨_, rfl⟩
  obtain ⟨s1, e1⟩ := hsome
  refine ⟨s1, e1, ?_⟩
  unfold K051649FrequencyWrite at e1
  rw [h1, hch, cand_one] at e1
  simp only [Option.some.injEq] at e1
  subst e1
  intro j
  by_cases hj : j = ch
  · subst hj
    simp only [Function.update_same]
    by_cases hodd : offset % 2 ≠ 0
    · rw [if_pos hodd]
      exact freq_high_nibble_range _ data
    · rw [if_neg hodd]
      exact freq_low_byte_range _ data (hd (by omega))
  · simp only [Function.update_noteq hj]
    exact hs j

/-- A sequence of such frequency writes succeeds and keeps every frequency in
0..4095. -/
theorem frequencyWrites_12_bit (env : BurnEnv) (ws : List (Int × Int)) :
    ∀ s : k051649_state,
      (∀ w ∈ ws, (0 ≤ w.1 ∧ w.1 ≤ 9) ∧ (w.1 % 2 = 0 → 0 ≤ w.2 ∧ w.2 ≤ 255)) →
      (∀ j : Fin 5, 0 ≤ (s.channel_list j).frequency ∧ (s.channel_list j).frequency ≤ 4095) →
      ∃ s1, runCalls env s (ws.map (fun w => ChipCall.frequencyWrite w.1 w.2)) = some s1 ∧
        ∀ j : Fin 5, 0 ≤ (s1.channel_list j).frequency ∧
          (s1.channel_list j).frequency ≤ 4095 := by
  induction ws with
  | nil =>
    intro s _ hs
    exact ⟨s, rfl, hs⟩
  | cons w ws ih =>
    intro s hws hs
    obtain ⟨hoff, hd⟩ := hws w (List.mem_cons_self _ _)
    obtain ⟨s1, e1, hs1⟩ := frequencyWrite_12_bit s w.1 w.2 hoff hd hs
    obtain ⟨s2, e2, hs2⟩ := ih s1 (fun v hv => hws v (List.mem_cons_of_mem _ hv)) hs1
    refine ⟨s2, ?_, hs2⟩
    unfold runCalls at e2 ⊢
    rw [List.map_cons, List.foldlM_cons]
    have : applyCall env s (ChipCall.frequencyWrite w.1 w.2) = some s1 := e1
    rw [this]
    exact e2

/-- C14, as the code has it: in every state reached from `K051649Reset` by a
sequence of `K051649FrequencyWrite` calls with offsets in 0..9, whose data is
a byte (0..255) at the even offsets (the low byte, ORed in as given) and
arbitrary at the odd offsets (the high nibble, masked by `0xf00`), the calls
succeed and every channel's frequency lies in 0..4095. -/
theorem frequency_12_bit_for_byte_data (env : BurnEnv) (s0 : k051649_state)
    (ws : List (Int × Int))
    (hws : ∀ w ∈ ws, (0 ≤ w.1 ∧ w.1 ≤ 9) ∧ (w.1 % 2 = 0 → 0 ≤ w.2 ∧ w.2 ≤ 255)) :
    ∃ s, runCalls env (K051649Reset s0)
        (ws.map (fun w => ChipCall.frequencyWrite w.1 w.2)) = some s ∧
      ∀ j : Fin 5, 0 ≤ (s.channel_list j).frequency ∧ (s.channel_list j).frequency ≤ 4095 := by
  apply frequencyWrites_12_bit env ws (K051649Reset s0) hws
  intro j
  have h1 : ((K051649Reset s0).channel_list j).frequency = 0 := rfl
  rw [h1]
  omega

/-- Witness of C14 as amended: six writes on the reset example chip, with
data wider than a byte at the odd offsets 1, 3 and 9. -/
theorem frequency_12_bit_for_byte_data_witness :
    (∀ w ∈ ([(0, 0xFF), (1, 0x1234), (3, -1), (2, 0x80), (9, 0xFFFFFF), (8, 0)] :
        List (Int × Int)),
      (0 ≤ w.1 ∧ w.1 ≤ 9) ∧ (w.1 % 2 = 0 → 0 ≤ w.2 ∧ w.2 ≤ 255)) ∧
    ∃ s, runCalls exampleEnv (K051649Reset exampleChip)
        (([(0, 0xFF), (1, 0x1234), (3, -1), (2, 0x80), (9, 0xFFFFFF), (8, 0)] :
          List (Int × Int)).map (fun w => ChipCall.frequencyWrite w.1 w.2)) = some s ∧
      ∀ j : Fin 5, 0 ≤ (s.channel_list j).frequency ∧ (s.channel_list j).frequency ≤ 4095 :=
  ⟨by decide, frequency_12_bit_for_byte_data exampleEnv exampleChip
    [(0, 0xFF), (1, 0x1234), (3, -1), (2, 0x80), (9, 0xFFFFFF), (8, 0)] (by decide)⟩

/-! ## Shared waveform RAM below offset 128 -/

/-- A waveform write at an offset in 0..127 succeeds and keeps the waveforms
of channels 3 and 4 equal. -/
theorem waveformWrite_keeps_shared (s : k051649_state) (offset data : Int)
    (hoff : 0 ≤ offset ∧ offset ≤ 127)
    (hs : ∀ k : Fin 32, (s.channel_list 3).waveform k = (s.channel_list 4).waveform k) :
    ∃ s1, K051649WaveformWrite s offset data = some s1 ∧
      ∀ k : Fin 32, (s1.channel_list 3).waveform k = (s1.channel_list 4).waveform k := by
  obtain ⟨ch, i, e1, e2, -, -, hch, -⟩ := waveform_indices offset ⟨hoff.1, by omega⟩
  by_cases h96 : 96 ≤ offset
  · have hc3 : ch = 3 := by
      apply Fin.ext
      have : ((ch : Nat) : Int) = 3 := by omega
      have h3 : ((3 : Fin 5) : Nat) = 3 := rfl
      omega
    subst hc3
    refine ⟨storeWave (storeWave s 3 i data) 4 i data, ?_, ?_⟩
    · unfold K051649WaveformWrite
      rw [e1, e2]
      simp [h96]
    · intro k
      rw [storeWave_waveform, storeWave_waveform, storeWave_waveform, storeWave_waveform]
      by_cases hk : k = i
      · simp [hk]
      · simp [hk, hs k]
  · have hne3 : (3 : Fin 5) ≠ ch := by
      intro h
      rw [← h] at hch
      have : (((3 : Fin 5) : Nat) : Int) = 3 := rfl
      omega
    have hne4 : (4 : Fin 5) ≠ ch := by
      intro h
      rw [← h] at hch
      have : (((4 : Fin 5) : Nat) : Int) = 4 := rfl
      omega
    refine ⟨storeWave s ch i data, ?_, ?_⟩
    · unfold K051649WaveformWrite
      rw [e1, e2]
      simp [h96]
    · intro k
      rw [storeWave_waveform, storeWave_waveform]
      simp [hne3, hne4, hs k]

/-- A sequence of waveform writes at offsets in 0..127 succeeds and keeps the
waveforms of channels 3 and 4 equal. -/
theorem waveformWrites_keep_shared (env : BurnEnv) (ws : List (Int × Int)) :
    ∀ s : k051649_state,
      (∀ w ∈ ws, 0 ≤ w.1 ∧ w.1 ≤ 127) →
      (∀ k : Fin 32, (s.channel_list 3).waveform k = (s.channel_list 4).waveform k) →
      ∃ s1, runCalls env s (ws.map (fun w => ChipCall.waveformWrite w.1 w.2)) = some s1 ∧
        ∀ k : Fin 32, (s1.channel_list 3).waveform k = (s1.channel_list 4).waveform k := by
  induction ws with
  | nil =>
    intro s _ hs
    exact ⟨s, rfl, hs⟩
  | cons w ws ih =>
    intro s hws hs
    obtain ⟨s1, e1, hs1⟩ := waveformWrite_keeps_shared s w.1 w.2 (hws w (List.mem_cons_self _ _)) hs
    obtain ⟨s2, e2, hs2⟩ := ih s1 (fun v hv => hws v (List.mem_cons_of_mem _ hv)) hs1
    refine ⟨s2, ?_, hs2⟩
    unfold runCalls at e2 ⊢
    rw [List.map_cons, List.foldlM_cons]
    have : applyCall env s (ChipCall.waveformWrite w.1 w.2) = some s1 := e1
    rw [this]
    exact e2

/-- A waveform write at an offset in 96..127 stores the sample in channels 3
and 4; one at an offset in 128..159 stores it in channel 4 and leaves every
cell of channel 3. -/
theorem waveformWrite_high_offsets (s : k051649_state) (offset data : Int)
    (hoff : 96 ≤ offset ∧ offset ≤ 159) :
    ∃ s1 i, K051649WaveformWrite s offset data = some s1 ∧
      waveIdx (offset % 32) = some i ∧
      (s1.channel_list 4).waveform i = toInt8 data ∧
      (if offset ≤ 127 then (s1.channel_list 3).waveform i = toInt8 data
       else ∀ k : Fin 32, (s1.channel_list 3).waveform k = (s.channel_list 3).waveform k) := by
  obtain ⟨ch, i, e1, e2, -, e4, hch, -⟩ := waveform_indices offset ⟨by omega, hoff.2⟩
  refine ⟨storeWave (storeWave s ch i data) 4 i data, i, ?_, e4, ?_, ?_⟩
  · unfold K051649WaveformWrite
    rw [e1, e2]
    simp [hoff.1]
  · rw [storeWave_waveform]
    simp
  · by_cases h127 : offset ≤ 127
    · have hc3 : ch = 3 := by
        apply Fin.ext
        have : ((ch : Nat) : Int) = 3 := by omega
        have h3 : ((3 : Fin 5) : Nat) = 3 := rfl
        omega
      subst hc3
      rw [if_pos h127, storeWave_waveform, storeWave_waveform]
      simp
    · have hne3 : (3 : Fin 5) ≠ ch := by
        intro h
        rw [← h] at hch
        have : (((3 : Fin 5) : Nat) : Int) = 3 := rfl
        omega
      rw [if_neg h127]
      intro k
      rw [storeWave_waveform, storeWave_waveform]
      simp [hne3]

/-- C15, as the code has it: starting from `K051649Reset`, any sequence of
`K051649WaveformWrite` calls with offsets in 0..127 succeeds and leaves
channels 3 and 4 with identical waveforms (`waveform[3][k] = waveform[4][k]`
for every sample index `k`). A further write at an offset in 96..127 stores
the sample (the data truncated to a signed 8-bit value) in both channels at
sample index `offset mod 32` and keeps the two waveforms identical; a write at
an offset in 128..159 stores it in channel 4 and leaves every cell of
channel 3 as it was. -/
theorem waveform_shared_below_offset_128 (env : BurnEnv) (s0 : k051649_state)
    (ws : List (Int × Int)) (offset data : Int)
    (hws : ∀ w ∈ ws, 0 ≤ w.1 ∧ w.1 ≤ 127) (hoff : 96 ≤ offset ∧ offset ≤ 159) :
    ∃ s, runCalls env (K051649Reset s0)
        (ws.map (fun w => ChipCall.waveformWrite w.1 w.2)) = some s ∧
      (∀ k : Fin 32, (s.channel_list 3).waveform k = (s.channel_list 4).waveform k) ∧
      ∃ s1 i, K051649WaveformWrite s offset data = some s1 ∧
        waveIdx (offset % 32) = some i ∧
        (s1.channel_list 4).waveform i = toInt8 data ∧
        (if offset ≤ 127 then
          (s1.channel_list 3).waveform i = toInt8 data ∧
          ∀ k : Fin 32, (s1.channel_list 3).waveform k = (s1.channel_list 4).waveform k
         else ∀ k : Fin 32, (s1.channel_list 3).waveform k = (s.channel_list 3).waveform k) := by
  obtain ⟨s, hrun, hs⟩ := waveformWrites_keep_shared env ws (K051649Reset s0) hws
    (fun _ => rfl)
  refine ⟨s, hrun, hs, ?_⟩
  obtain ⟨s1, i, e1, e2, h4, h3⟩ := waveformWrite_high_offsets s offset data hoff
  refine ⟨s1, i, e1, e2, h4, ?_⟩
  by_cases h127 : offset ≤ 127
  · rw [if_pos h127] at h3 ⊢
    refine ⟨h3, ?_⟩
    obtain ⟨s2, e3, hs2⟩ := waveformWrite_keeps_shared s offset data ⟨by omega, h127⟩ hs
    rw [e1] at e3
    cases e3
    exact hs2
  · rw [if_neg h127] at h3 ⊢
    exact h3

/-- Witness of C15 as amended: five writes at offsets up to 127 on the reset
example chip, then a write at offset 110. -/
theorem waveform_shared_below_offset_128_witness :
    ((∀ w ∈ ([(5, 7), (100, 200), (127, -3), (96, 0x155), (64, 9)] : List (Int × Int)),
        0 ≤ w.1 ∧ w.1 ≤ 127) ∧ (96 ≤ (110 : Int) ∧ (110 : Int) ≤ 159)) ∧
    ∃ s, runCalls exampleEnv (K051649Reset exampleChip)
        (([(5, 7), (100, 200), (127, -3), (96, 0x155), (64, 9)] : List (Int × Int)).map
          (fun w => ChipCall.waveformWrite w.1 w.2)) = some s ∧
      (∀ k : Fin 32, (s.channel_list 3).waveform k = (s.channel_list 4).waveform k) ∧
      ∃ s1 i, K051649WaveformWrite s 110 0x1FF = some s1 ∧
        waveIdx ((110 : Int) % 32) = some i ∧
        (s1.channel_list 4).waveform i = toInt8 0x1FF ∧
        (if (110 : Int) ≤ 127 then
          (s1.channel_list 3).waveform i = toInt8 0x1FF ∧
          ∀ k : Fin 32, (s1.channel_list 3).waveform k = (s1.channel_list 4).waveform k
         else ∀ k : Fin 32, (s1.channel_list 3).waveform k = (s.channel_list 3).waveform k) :=
  ⟨⟨by decide, by decide⟩,
    waveform_shared_below_offset_128 exampleEnv exampleChip
      [(5, 7), (100, 200), (127, -3), (96, 0x155), (64, 9)] 110 0x1FF (by decide) (by decide)⟩

/-! ## Waveform cells along a sequence of calls -/

theorem storeWave_waveformsInt8 (s : k051649_state) (ch : Fin 5) (i : Fin 32) (d : Int)
    (hs : WaveformsInt8 s) : WaveformsInt8 (storeWave s ch i d) := by
  intro j k
  rw [storeWave_waveform]
  split
  · unfold toInt8; omega
  · exact hs j k

theorem waveformWrite_waveformsInt8 (s s1 : k051649_state) (offset data : Int)
    (h : K051649WaveformWrite s offset data = some s1) (hs : WaveformsInt8 s) :
    WaveformsInt8 s1 := by
  unfold K051649WaveformWrite at h
  cases hc : chanIdx (sar offset 5) with
  | none => rw [hc] at h; cases h
  | some ch =>
    cases hi : waveIdx (cand offset 0x1f) with
    | none => rw [hc, hi] at h; cases h
    | some i =>
      rw [hc, hi] at h
      simp only at h
      split at h
      · cases h
        exact storeWave_waveformsInt8 _ _ _ _ (storeWave_waveformsInt8 _ _ _ _ hs)
      · cases h
        exact storeWave_waveformsInt8 _ _ _ _ hs

theorem waveformWriteK052539_waveformsInt8 (s s1 : k051649_state) (offset data : Int)
    (h : K052539WaveformWrite s offset data = some s1) (hs : WaveformsInt8 s) :
    WaveformsInt8 s1 := by
  unfold K052539WaveformWrite at h
  cases hc : chanIdx (sar offset 5) with
  | none => rw [hc] at h; cases h
  | some ch =>
    cases hi : waveIdx (cand offset 0x1f) with
    | none => rw [hc, hi] at h; cases h
    | some i =>
      rw [hc, hi] at h
      cases h
      exact storeWave_waveformsInt8 _ _ _ _ hs

theorem volumeWrite_waveformsInt8 (s s1 : k051649_state) (offset data : Int)
    (h : K051649VolumeWrite s offset data = some s1) (hs : WaveformsInt8 s) :
    WaveformsInt8 s1 := by
  unfold K051649VolumeWrite at h
  cases hc : chanIdx (cand offset 0x7) with
  | none => rw [hc] at h; cases h
  | some ch =>
    rw [hc] at h
    simp only [Option.some.injEq] at h
    subst h
    intro j
    by_cases hj : j = ch
    · subst hj
      simp only [Function.update_same]
      exact hs j
    · simp only [Function.update_noteq hj]
      exact hs j

theorem frequencyWrite_waveformsInt8 (s s1 : k051649_state) (offset data : Int)
    (h : K051649FrequencyWrite s offset data = some s1) (hs : WaveformsInt8 s) :
    WaveformsInt8 s1 := by
  unfold K051649FrequencyWrite at h
  cases hc : chanIdx (sar offset 1) with
  | none => rw [hc] at h; cases h
  | some ch =>
    rw [hc] at h
    simp only [Option.some.injEq] at h
    subst h
    intro j
    by_cases hj : j = ch
    · subst hj
      simp only [Function.update_same]
      have := hs j
      split <;> split <;> exact this
    · simp only [Function.update_noteq hj]
      exact hs j

theorem keyonoffWrite_waveformsInt8 (s : k051649_state) (data : Int) (hs : WaveformsInt8 s) :
    WaveformsInt8 (K051649KeyonoffWrite s data) := by
  intro j
  obtain ⟨-, -, -, -, hw⟩ := keyonoff_effect s data j
  rw [hw]
  exact hs j

theorem update_waveformsInt8 (env : BurnEnv) (s : k051649_state) (pBuf : List Int) (n : Nat)
    (r : k051649_state × List Int) (h : K051649Update env s pBuf n = some r)
    (hs : WaveformsInt8 s) : WaveformsInt8 r.1 := by
  have hg := update_generate env s pBuf n r h
  have hcap : n ≤ s.mixer_buffer.length := by
    unfold generate at hg
    unfold memsetZero at hg
    by_contra hn
    rw [if_neg hn] at hg
    cases hg
  obtain ⟨s1, hs1, hinv, -⟩ := generate_total env s n hcap
  rw [hs1] at hg
  cases hg
  intro j
  obtain ⟨-, -, -, h4, -⟩ := hinv.2 j
  rw [h4]
  exact hs j

theorem reset_waveformsInt8 (s : k051649_state) : WaveformsInt8 (K051649Reset s) := by
  intro j k
  have h1 : ((K051649Reset s).channel_list j).waveform k = 0 := rfl
  rw [h1]
  omega

theorem applyCall_waveformsInt8 (env : BurnEnv) (s s1 : k051649_state) (c : ChipCall)
    (h : applyCall env s c = some s1) (hs : WaveformsInt8 s) : WaveformsInt8 s1 := by
  cases c with
  | waveformWrite offset data => exact waveformWrite_waveformsInt8 s s1 offset data h hs
  | waveformWriteK052539 offset data =>
    exact waveformWriteK052539_waveformsInt8 s s1 offset data h hs
  | volumeWrite offset data => exact volumeWrite_waveformsInt8 s s1 offset data h hs
  | frequencyWrite offset data => exact frequencyWrite_waveformsInt8 s s1 offset data h hs
  | keyonoffWrite data =>
    simp only [applyCall, Option.some.injEq] at h
    subst h
    exact keyonoffWrite_waveformsInt8 s data hs
  | update pBuf samples =>
    simp only [applyCall] at h
    cases hu : K051649Update env s pBuf samples with
    | none => rw [hu] at h; cases h
    | some r =>
      rw [hu] at h
      simp only [Option.map_some', Option.some.injEq] at h
      subst h
      exact update_waveformsInt8 env s pBuf samples r hu hs

theorem runCalls_waveformsInt8 (env : BurnEnv) (calls : List ChipCall) :
    ∀ s s1, runCalls env s calls = some s1 → WaveformsInt8 s → WaveformsInt8 s1 := by
  induction calls with
  | nil =>
    intro s s1 h hs
    simp only [runCalls, List.foldlM_nil] at h
    cases h
    exact hs
  | cons c cs ih =>
    intro s s1 h hs
    unfold runCalls at h
    rw [List.foldlM_cons] at h
    cases hc : applyCall env s c with
    | none => rw [hc] at h; cases h
    | some s2 =>
      rw [hc] at h
      exact ih s2 s1 h (applyCall_waveformsInt8 env s s2 c hc hs)

/-- C17: for every chip state that register writes and synthesis calls reach
from `K051649Reset`, and every sample `k` of a `K051649Update` call of `n`
samples (`n` within the mix buffer), entry `k` of the mix buffer is the sum,
over the channels with frequency above 8, of `floor(w * volume * key / 8)`,
where `w` is the channel's signed 8-bit waveform sample at the index in bits
16..20 of its counter after `k + 1` additions of the step; a channel with key
0 or volume 0 contributes 0. -/
theorem mix_value_is_channel_sum (env : BurnEnv) (s0 s : k051649_state)
    (calls : List ChipCall) (n k : Nat)
    (hrun : runCalls env (K051649Reset s0) calls = some s)
    (hcap : n ≤ s.mixer_buffer.length) (hk : k < n) :
    (mixValues env s n)[k]? = some (specMixValue env s k) ∧
    (∀ j : Fin 5, (s.channel_list j).key = 0 ∨ (s.channel_list j).volume = 0 →
      specVoiceTerm env s (s.channel_list j) k = 0) ∧
    (∀ (j : Fin 5) (c : Int), ∃ idx : Fin 32, ((idx : Nat) : Int) = c / 65536 % 32 ∧
      sampleAt (s.channel_list j).waveform c = (s.channel_list j).waveform idx) := by
  have hreg : RegistersInRange s :=
    runCalls_inRange env calls _ s hrun (reset_inRange s0)
  have hw : WaveformsInt8 s :=
    runCalls_waveformsInt8 env calls _ s hrun (reset_waveformsInt8 s0)
  exact mixValue_of_invariant env s n k hcap hk hreg hw

/-- Witness of C17: sample 1 of two after the example voice calls, where
channel 0 adds floor(123 * 12 / 8) = 184, channel 3 adds
floor(-57 * 5 / 8) = -36 and channel 4 adds floor(-57 * 7 / 8) = -50. -/
theorem mix_value_is_channel_sum_witness :
    (runCalls exampleEnv (K051649Reset exampleChip) exampleVoiceCalls = some exampleVoiceRun ∧
      2 ≤ exampleVoiceRun.mixer_buffer.length ∧ 1 < 2) ∧
    ((mixValues exampleEnv exampleVoiceRun 2)[1]? =
        some (specMixValue exampleEnv exampleVoiceRun 1) ∧
    (∀ j : Fin 5, (exampleVoiceRun.channel_list j).key = 0 ∨
        (exampleVoiceRun.channel_list j).volume = 0 →
      specVoiceTerm exampleEnv exampleVoiceRun (exampleVoiceRun.channel_list j) 1 = 0) ∧
    (∀ (j : Fin 5) (c : Int), ∃ idx : Fin 32, ((idx : Nat) : Int) = c / 65536 % 32 ∧
      sampleAt (exampleVoiceRun.channel_list j).waveform c =
        (exampleVoiceRun.channel_list j).waveform idx)) ∧
    specMixValue exampleEnv exampleVoiceRun 1 = 98 :=
  ⟨⟨rfl, by decide, by decide⟩,
    mix_value_is_channel_sum exampleEnv exampleChip exampleVoiceRun exampleVoiceCalls 2 1 rfl
      (by decide) (by decide),
    by decide⟩

end K051649
